import Mathlib

/-!
libdns/hosttech: record codec, record wrapper and provider client

A shallow embedding of `models.go`, `wrapper.go` and `provider.go`.

* Go strings are Lean strings; `strings.HasSuffix` / `strings.TrimSuffix` work on the
  character lists.
* Go `int` and `time.Duration` are 64-bit: they are integers, wrapped with `wrapInt64`
  where the source multiplies.  `uint` is a natural number.
* `float64` (used by `time.Duration.Seconds`) is modelled exactly: a finite binary64 value
  is a pair `m * 2^e`, every operation rounds the exact result to a 53-bit significand,
  ties to even.
* A Go function that can hit a nil dereference returns an `Outcome`.
* The HTTP transport, `json.Marshal`, request construction and the clock are the
  environment `Env`; the requests handed to the transport are recorded in a log.
-/

namespace Hosttech

/-! ## Go primitives -/

/-- Go `strings.HasSuffix`. -/
def HasSuffix (s suffix : String) : Bool :=
  suffix.data.isSuffixOf s.data

/-- Go `strings.TrimSuffix`: `s` without the trailing `suffix`, or `s` itself when it does
not end with `suffix`. -/
def TrimSuffix (s suffix : String) : String :=
  if HasSuffix s suffix then ⟨s.data.take (s.data.length - suffix.data.length)⟩ else s

/-- Go `strconv.Itoa`. -/
def Itoa (i : Int) : String :=
  match i with
  | Int.ofNat n => Nat.repr n
  | Int.negSucc n => "-" ++ Nat.repr (n + 1)

/-- Two's complement wrap-around of a 64-bit signed integer operation. -/
def wrapInt64 (x : Int) : Int :=
  (x + 2 ^ 63) % 2 ^ 64 - 2 ^ 63

/-- The values of Go's `int` (64-bit). -/
def inInt64 (x : Int) : Prop :=
  -(2 ^ 63) ≤ x ∧ x < 2 ^ 63

instance (x : Int) : Decidable (inInt64 x) := by
  unfold inInt64; infer_instance

/-! ## binary64 arithmetic, as far as `time.Duration.Seconds` needs it -/

/-- Number of binary digits of `n`, by halving at most `fuel` times. -/
def bitLenAux : Nat → Nat → Nat
  | 0, _ => 0
  | fuel + 1, n => if n = 0 then 0 else bitLenAux fuel (n / 2) + 1

/-- Number of binary digits of `n` (`0` for `0`). -/
def bitLen (n : Nat) : Nat :=
  bitLenAux n n

/-- The integer nearest to `a / b`, ties to the even one. -/
def roundHalfEven (a b : Nat) : Nat :=
  let q := a / b
  let r := a % b
  if 2 * r < b then q else if b < 2 * r then q + 1 else if q % 2 = 0 then q else q + 1

/-- A finite binary64 value `m * 2^e`. -/
structure Float64 where
  m : Int
  e : Int
deriving DecidableEq

namespace Float64

/-- The exponent `e` with `2^52 ≤ (n / den) / 2^e < 2^53`, for positive `n` and `den`: the
binary logarithm of `n / den` is the difference `t` of the bit lengths or one less. -/
def exponent (n den : Nat) : Int :=
  let t : Int := (bitLen n : Int) - (bitLen den : Int)
  (if den * 2 ^ t.toNat ≤ n * 2 ^ (-t).toNat then t else t - 1) - 52

/-- The binary64 value nearest to `num / den` (`den > 0`), ties to even: the significand is
scaled into `[2^52, 2^53]` and rounded.  Overflow and subnormals do not arise for the
magnitudes of this program (between `1e-9` and `1e10`) and are not modelled. -/
def round (num : Int) (den : Nat) : Float64 :=
  let n := num.natAbs
  if n = 0 then ⟨0, 0⟩ else
  let e := exponent n den
  ⟨num.sign * (roundHalfEven (n * 2 ^ (-e).toNat) (den * 2 ^ e.toNat) : Nat), e⟩

/-- Go conversion `float64(i)` of an integer. -/
def ofInt (i : Int) : Float64 :=
  round i 1

/-- Go `x / y` on `float64` (`y` not zero). -/
def div (x y : Float64) : Float64 :=
  round (x.m * y.m.sign * 2 ^ (x.e - y.e).toNat) (y.m.natAbs * 2 ^ (y.e - x.e).toNat)

/-- Go `x + y` on `float64`. -/
def add (x y : Float64) : Float64 :=
  let e0 := min x.e y.e
  round ((x.m * 2 ^ (x.e - e0).toNat + y.m * 2 ^ (y.e - e0).toNat) * 2 ^ e0.toNat)
    (2 ^ (-e0).toNat)

/-- Go `x < y` on `float64`. -/
def lt (x y : Float64) : Bool :=
  let e0 := min x.e y.e
  decide (x.m * 2 ^ (x.e - e0).toNat < y.m * 2 ^ (y.e - e0).toNat)

/-- Go conversion `int(x)` of a `float64`: truncation toward zero. -/
def toInt (x : Float64) : Int :=
  if 0 ≤ x.e then x.m * 2 ^ x.e.toNat else Int.tdiv x.m (2 ^ (-x.e).toNat)

/-- The rational number a binary64 value stands for. -/
def toRat (x : Float64) : ℚ :=
  x.m * (2 : ℚ) ^ x.e

end Float64

/-- Go `time.Second`, in nanoseconds. -/
def Second : Int := 1000000000

/-- Go `time.Duration.Seconds`:
`sec := d / Second; nsec := d % Second; return float64(sec) + float64(nsec)/1e9`. -/
def Seconds (d : Int) : Float64 :=
  let sec := Int.tdiv d Second
  let nsec := Int.tmod d Second
  Float64.add (Float64.ofInt sec) (Float64.div (Float64.ofInt nsec) (Float64.ofInt 1000000000))

/-! ## The canonical record (`libdns.Record`) -/

/-- The record of `libdns`: the fields the adapter reads and writes.  `TTL` is a
`time.Duration` in nanoseconds, `Priority` a `uint`. -/
structure Record where
  ID : String
  Type_ : String
  Name : String
  Value : String
  TTL : Int
  Priority : Nat
deriving DecidableEq

/-- The function `libdns.RelativeName` of the `libdns` library the adapter is built on:
`strings.TrimSuffix(strings.TrimSuffix(strings.TrimSuffix(fqdn, "."),
strings.TrimSuffix(zone, ".")), ".")`. -/
def RelativeName (fqdn zone : String) : String :=
  TrimSuffix (TrimSuffix (TrimSuffix fqdn ".") (TrimSuffix zone ".")) "."

/-- Modelled from the spec: `RemoveTrailingDot` lives in the helper file, which is not among
the sources; the spec has it strip a single trailing "." if present
("test.com." gives "test.com", "test.de" stays). -/
def RemoveTrailingDot (s : String) : String :=
  TrimSuffix s "."

/-! ## models.go -/

/-- Go `Base`: the values present in each record. -/
structure Base where
  Id : Int := 0
  Type_ : String := ""
  TTL : Int := 0
  Comment : String := ""
deriving DecidableEq

/-- Go `AAAARecord`. -/
structure AAAARecord extends Base where
  Name : String := ""
  IPV6 : String := ""
deriving DecidableEq

/-- Go `ARecord`. -/
structure ARecord extends Base where
  Name : String := ""
  IPV4 : String := ""
deriving DecidableEq

/-- Go `CNAMERecord`. -/
structure CNAMERecord extends Base where
  Name : String := ""
  Cname : String := ""
deriving DecidableEq

/-- Go `MXRecord`. -/
structure MXRecord extends Base where
  Name : String := ""
  OwnerName : String := ""
  Pref : Nat := 0
deriving DecidableEq

/-- Go `NSRecord`. -/
structure NSRecord extends Base where
  OwnerName : String := ""
  TargetName : String := ""
deriving DecidableEq

/-- Go `TXTRecord`. -/
structure TXTRecord extends Base where
  Name : String := ""
  Text : String := ""
deriving DecidableEq

/-- Go `TLSARecord`. -/
structure TLSARecord extends Base where
  Name : String := ""
  Text : String := ""
deriving DecidableEq

/-- Go interface `HosttechRecord`: a value of one of the seven implementing structs. -/
inductive HosttechRecord
  | ofAAAA (a : AAAARecord)
  | ofA (a : ARecord)
  | ofNS (n : NSRecord)
  | ofCNAME (c : CNAMERecord)
  | ofMX (m : MXRecord)
  | ofTXT (t : TXTRecord)
  | ofTLSA (t : TLSARecord)
deriving DecidableEq

/-- Go `durationToIntSeconds`. -/
def durationToIntSeconds (duration : Int) : Int :=
  let durationInSeconds := Seconds duration
  -- The minimum amount is 600 seconds
  if Float64.lt durationInSeconds (Float64.ofInt 600) then 600
  else Float64.toInt durationInSeconds

/-- Go `generateComment`; `now` is `time.Now().UTC().Format(time.Stamp)`. -/
def generateComment (now : String) : String :=
  "This record was created or updated with libdns at " ++ now ++ " UTC"

/-- Go `AAAARecord.toLibdnsRecord`. -/
def AAAARecord.toLibdnsRecord (a : AAAARecord) (zone : String) : Record :=
  { ID := Itoa a.Id
    Type_ := a.Type_
    Name := RelativeName a.Name zone
    Value := a.IPV6
    TTL := wrapInt64 (a.TTL * 1000000000)
    Priority := 0 }

/-- Go `AAAARecord.fromLibdnsRecord`. -/
def AAAARecord.fromLibdnsRecord (a : AAAARecord) (record : Record) (now : String) :
    HosttechRecord :=
  .ofAAAA { a with
    Name := record.Name
    Type_ := record.Type_
    IPV6 := record.Value
    TTL := durationToIntSeconds record.TTL
    Comment := generateComment now }

/-- Go `ARecord.toLibdnsRecord`. -/
def ARecord.toLibdnsRecord (a : ARecord) (zone : String) : Record :=
  { ID := Itoa a.Id
    Type_ := a.Type_
    Name := RelativeName a.Name zone
    Value := a.IPV4
    TTL := wrapInt64 (a.TTL * 1000000000)
    Priority := 0 }

/-- Go `ARecord.fromLibdnsRecord`. -/
def ARecord.fromLibdnsRecord (a : ARecord) (record : Record) (now : String) :
    HosttechRecord :=
  .ofA { a with
    Name := record.Name
    Type_ := record.Type_
    IPV4 := record.Value
    TTL := durationToIntSeconds record.TTL
    Comment := generateComment now }

/-- Go `CNAMERecord.toLibdnsRecord`. -/
def CNAMERecord.toLibdnsRecord (c : CNAMERecord) (zone : String) : Record :=
  { ID := Itoa c.Id
    Type_ := c.Type_
    Name := RelativeName c.Name zone
    Value := c.Cname
    TTL := wrapInt64 (c.TTL * 1000000000)
    Priority := 0 }

/-- Go `CNAMERecord.fromLibdnsRecord`. -/
def CNAMERecord.fromLibdnsRecord (c : CNAMERecord) (record : Record) (now : String) :
    HosttechRecord :=
  .ofCNAME { c with
    Name := record.Name
    Type_ := record.Type_
    Cname := record.Value
    TTL := durationToIntSeconds record.TTL
    Comment := generateComment now }

/-- Go `MXRecord.toLibdnsRecord`. -/
def MXRecord.toLibdnsRecord (m : MXRecord) (zone : String) : Record :=
  { ID := Itoa m.Id
    Type_ := m.Type_
    Name := RelativeName m.OwnerName zone
    Value := m.Name
    TTL := wrapInt64 (m.TTL * 1000000000)
    Priority := m.Pref }

/-- Go `MXRecord.fromLibdnsRecord`. -/
def MXRecord.fromLibdnsRecord (m : MXRecord) (record : Record) (now : String) :
    HosttechRecord :=
  .ofMX { m with
    OwnerName := record.Name
    Type_ := record.Type_
    TTL := durationToIntSeconds record.TTL
    Name := record.Value
    Pref := record.Priority
    Comment := generateComment now }

/-- Go `NSRecord.toLibdnsRecord`. -/
def NSRecord.toLibdnsRecord (n : NSRecord) (zone : String) : Record :=
  { ID := Itoa n.Id
    Type_ := n.Type_
    Name := RelativeName n.OwnerName zone
    Value := n.TargetName
    TTL := wrapInt64 (n.TTL * 1000000000)
    Priority := 0 }

/-- Go `NSRecord.fromLibdnsRecord`. -/
def NSRecord.fromLibdnsRecord (n : NSRecord) (record : Record) (now : String) :
    HosttechRecord :=
  .ofNS { n with
    OwnerName := record.Name
    Type_ := record.Type_
    TargetName := record.Value
    TTL := durationToIntSeconds record.TTL
    Comment := generateComment now }

/-- Go `TXTRecord.toLibdnsRecord`. -/
def TXTRecord.toLibdnsRecord (t : TXTRecord) (zone : String) : Record :=
  { ID := Itoa t.Id
    Type_ := t.Type_
    Name := RelativeName t.Name zone
    Value := t.Text
    TTL := wrapInt64 (t.TTL * 1000000000)
    Priority := 0 }

/-- Go `TXTRecord.fromLibdnsRecord`. -/
def TXTRecord.fromLibdnsRecord (t : TXTRecord) (record : Record) (now : String) :
    HosttechRecord :=
  .ofTXT { t with
    Name := RemoveTrailingDot record.Name
    Type_ := record.Type_
    Text := record.Value
    TTL := durationToIntSeconds record.TTL
    Comment := generateComment now }

/-- Go `TLSARecord.toLibdnsRecord`. -/
def TLSARecord.toLibdnsRecord (t : TLSARecord) (zone : String) : Record :=
  { ID := Itoa t.Id
    Type_ := t.Type_
    Name := RelativeName t.Name zone
    Value := t.Text
    TTL := wrapInt64 (t.TTL * 1000000000)
    Priority := 0 }

/-- Go `TLSARecord.fromLibdnsRecord`. -/
def TLSARecord.fromLibdnsRecord (t : TLSARecord) (record : Record) (now : String) :
    HosttechRecord :=
  .ofTLSA { t with
    Name := record.Name
    Type_ := record.Type_
    Text := record.Value
    TTL := durationToIntSeconds record.TTL
    Comment := generateComment now }

/-- Method `toLibdnsRecord` of the interface `HosttechRecord` (dynamic dispatch). -/
def HosttechRecord.toLibdnsRecord (h : HosttechRecord) (zone : String) : Record :=
  match h with
  | .ofAAAA a => a.toLibdnsRecord zone
  | .ofA a => a.toLibdnsRecord zone
  | .ofNS n => n.toLibdnsRecord zone
  | .ofCNAME c => c.toLibdnsRecord zone
  | .ofMX m => m.toLibdnsRecord zone
  | .ofTXT t => t.toLibdnsRecord zone
  | .ofTLSA t => t.toLibdnsRecord zone

/-- Method `fromLibdnsRecord` of the interface `HosttechRecord` (dynamic dispatch). -/
def HosttechRecord.fromLibdnsRecord (h : HosttechRecord) (record : Record) (now : String) :
    HosttechRecord :=
  match h with
  | .ofAAAA a => a.fromLibdnsRecord record now
  | .ofA a => a.fromLibdnsRecord record now
  | .ofNS n => n.fromLibdnsRecord record now
  | .ofCNAME c => c.fromLibdnsRecord record now
  | .ofMX m => m.fromLibdnsRecord record now
  | .ofTXT t => t.fromLibdnsRecord record now
  | .ofTLSA t => t.fromLibdnsRecord record now

/-- The shared attributes of a provider record. -/
def HosttechRecord.base (h : HosttechRecord) : Base :=
  match h with
  | .ofAAAA a => a.toBase
  | .ofA a => a.toBase
  | .ofNS n => n.toBase
  | .ofCNAME c => c.toBase
  | .ofMX m => m.toBase
  | .ofTXT t => t.toBase
  | .ofTLSA t => t.toBase

/-- The name of the struct a provider record is a value of, by record type. -/
def HosttechRecord.variant (h : HosttechRecord) : String :=
  match h with
  | .ofAAAA _ => "AAAA"
  | .ofA _ => "A"
  | .ofNS _ => "NS"
  | .ofCNAME _ => "CNAME"
  | .ofMX _ => "MX"
  | .ofTXT _ => "TXT"
  | .ofTLSA _ => "TLSA"

/-- The field a variant maps to the canonical value: ipv4, ipv6, cname, targetname,
name (MX), text. -/
def HosttechRecord.valueField (h : HosttechRecord) : String :=
  match h with
  | .ofAAAA a => a.IPV6
  | .ofA a => a.IPV4
  | .ofNS n => n.TargetName
  | .ofCNAME c => c.Cname
  | .ofMX m => m.Name
  | .ofTXT t => t.Text
  | .ofTLSA t => t.Text

/-- The field a variant maps to the canonical name: name, or ownername for NS and MX. -/
def HosttechRecord.nameField (h : HosttechRecord) : String :=
  match h with
  | .ofAAAA a => a.Name
  | .ofA a => a.Name
  | .ofNS n => n.OwnerName
  | .ofCNAME c => c.Name
  | .ofMX m => m.OwnerName
  | .ofTXT t => t.Name
  | .ofTLSA t => t.Name

/-- Go `ApiError` and the other error values the adapter passes on. -/
inductive Error
  /-- Go `ApiError{s, ErrorCode}`. -/
  | ApiError (s : String) (ErrorCode : Int)
  /-- An error made by `fmt.Errorf`. -/
  | errorString (s : String)
  /-- Go `*json.SyntaxError`. -/
  | jsonSyntax
  /-- Go `*json.UnmarshalTypeError`, for the value under `key`. -/
  | jsonUnmarshalType (key : String)
  /-- An error of `json.Marshal`. -/
  | jsonMarshal (s : String)
  /-- An error of the HTTP client: connection, timeout, cancellation, body read. -/
  | transport (s : String)
deriving DecidableEq

/-- Go method `Error()`: the message of an error. -/
def Error.message (e : Error) : String :=
  match e with
  | .ApiError s _ => s
  | .errorString s => s
  | .jsonSyntax => "invalid character"
  | .jsonUnmarshalType key => "json: cannot unmarshal value of " ++ key
  | .jsonMarshal s => s
  | .transport s => s

deriving instance DecidableEq for Except

/-- The type assertion `err.(ApiError)`. -/
def Error.asApiError (e : Error) : Option (String × Int) :=
  match e with
  | .ApiError s code => some (s, code)
  | _ => none

/-! ## wrapper.go: encoding -/

/-- The record types with a codec. -/
def supportedTypes : List String :=
  ["AAAA", "A", "NS", "CNAME", "MX", "TXT", "TLSA"]

/-- The error of both dispatchers, `fmt.Errorf` with the format
`record type "%s" is not supported"`. -/
def unsupportedError (t : String) : Error :=
  .errorString ("record type \"" ++ t ++ "\" is not supported\"")

/-- Go `LibdnsRecordToHosttechRecordWrapper`. -/
def LibdnsRecordToHosttechRecordWrapper (record : Record) (now : String) :
    Except Error HosttechRecord :=
  if record.Type_ = "AAAA" then
    .ok ((HosttechRecord.ofAAAA {}).fromLibdnsRecord record now)
  else if record.Type_ = "A" then
    .ok ((HosttechRecord.ofA {}).fromLibdnsRecord record now)
  else if record.Type_ = "NS" then
    .ok ((HosttechRecord.ofNS {}).fromLibdnsRecord record now)
  else if record.Type_ = "CNAME" then
    .ok ((HosttechRecord.ofCNAME {}).fromLibdnsRecord record now)
  else if record.Type_ = "MX" then
    .ok ((HosttechRecord.ofMX {}).fromLibdnsRecord record now)
  else if record.Type_ = "TXT" then
    .ok ((HosttechRecord.ofTXT {}).fromLibdnsRecord record now)
  else if record.Type_ = "TLSA" then
    .ok ((HosttechRecord.ofTLSA {}).fromLibdnsRecord record now)
  else
    .error (unsupportedError record.Type_)

/-! ## encoding/json, as far as the record structs need it -/

/-- A JSON text, parsed.  A number literal without fraction and exponent is `int` (sign and
digits, so that "-0" is told from "0"); any other number literal is `frac`. -/
inductive JSON
  | null
  | bool (b : Bool)
  | int (neg : Bool) (mag : Nat)
  | frac (lit : String)
  | str (s : String)
  | arr (elems : List JSON)
  | obj (members : List (String × JSON))

/-- A Go byte slice handed to `json.Unmarshal`: `none` when it is not a valid JSON text. -/
abbrev Bytes := Option JSON

/-- The key under which `encoding/json` looks a field up: the match is exact or ignores the
case of ASCII letters, and every field name of this package is lower case. -/
def foldName (key : String) : String :=
  ⟨key.data.map Char.toLower⟩

/-- The string a JSON value stores into a Go `string`. -/
def JSON.asString (v : JSON) : Option String :=
  match v with
  | .str s => some s
  | _ => none

/-- The number a JSON value stores into a Go `int`: `strconv.ParseInt` must succeed. -/
def JSON.asInt (v : JSON) : Option Int :=
  match v with
  | .int neg mag =>
    let n : Int := if neg then -(mag : Int) else (mag : Int)
    if inInt64 n then some n else none
  | _ => none

/-- The number a JSON value stores into a Go `uint`: `strconv.ParseUint` must succeed, which
rules out a sign. -/
def JSON.asUint (v : JSON) : Option Nat :=
  match v with
  | .int false mag => if mag < 2 ^ 64 then some mag else none
  | _ => none

/-- The Go types of the record fields. -/
inductive FieldKind
  | string
  | int
  | uint
deriving DecidableEq

/-- Whether storing `v` into a field of kind `k` raises no `UnmarshalTypeError`; `null`
stores nothing and raises nothing. -/
def JSON.fits (v : JSON) (k : FieldKind) : Bool :=
  match v with
  | .null => true
  | _ =>
    match k with
    | .string => v.asString.isSome
    | .int => v.asInt.isSome
    | .uint => v.asUint.isSome

/-- The content of a field after the members of an object were decoded in order: every
member whose key selects the field and whose value can be stored overwrites it. -/
def store {α : Type} (conv : JSON → Option α) (members : List (String × JSON))
    (field : String) (old : α) : α :=
  members.foldl (fun cur kv => if foldName kv.1 = field then (conv kv.2).getD cur else cur) old

/-- The error `json.Unmarshal` returns after decoding an object into a struct with the
given fields: the `UnmarshalTypeError` of the first member that selects a field and does not
fit it, if any. -/
def typeError (fields : List (String × FieldKind)) (members : List (String × JSON)) :
    Option Error :=
  (members.find? (fun kv =>
    match fields.lookup (foldName kv.1) with
    | some k => !(kv.2.fits k)
    | none => false)).map (fun kv => Error.jsonUnmarshalType kv.1)

/-- Go `json.Unmarshal(data, &v)` for a struct `v` whose fields are strings and integers:
`fill` decodes the members into the fields. -/
def unmarshalStruct {α : Type} (fields : List (String × FieldKind))
    (fill : List (String × JSON) → α → α) (data : Bytes) (v : α) : α × Option Error :=
  match data with
  | none => (v, some .jsonSyntax)
  | some .null => (v, none)
  | some (.obj members) => (fill members v, typeError fields members)
  | some _ => (v, some (.jsonUnmarshalType ""))

/-- JSON keys and types of `Base`. -/
def Base.fields : List (String × FieldKind) :=
  [("id", .int), ("type", .string), ("ttl", .int), ("comment", .string)]

/-- Decoding the members of an object into a `Base`. -/
def Base.fill (members : List (String × JSON)) (b : Base) : Base :=
  { Id := store JSON.asInt members "id" b.Id
    Type_ := store JSON.asString members "type" b.Type_
    TTL := store JSON.asInt members "ttl" b.TTL
    Comment := store JSON.asString members "comment" b.Comment }

/-- Go `json.Unmarshal(data, &base)`. -/
def Base.Unmarshal (data : Bytes) (b : Base) : Base × Option Error :=
  unmarshalStruct Base.fields Base.fill data b

/-- JSON keys and types of `AAAARecord`, the promoted fields of `Base` included. -/
def AAAARecord.fields : List (String × FieldKind) :=
  Base.fields ++ [("name", .string), ("ipv6", .string)]

/-- Go `json.Unmarshal(data, &record)` for an `AAAARecord`. -/
def AAAARecord.Unmarshal (data : Bytes) (r : AAAARecord) : AAAARecord × Option Error :=
  unmarshalStruct AAAARecord.fields
    (fun members r =>
      { toBase := Base.fill members r.toBase
        Name := store JSON.asString members "name" r.Name
        IPV6 := store JSON.asString members "ipv6" r.IPV6 }) data r

/-- JSON keys and types of `ARecord`, the promoted fields of `Base` included. -/
def ARecord.fields : List (String × FieldKind) :=
  Base.fields ++ [("name", .string), ("ipv4", .string)]

/-- Go `json.Unmarshal(data, &record)` for an `ARecord`. -/
def ARecord.Unmarshal (data : Bytes) (r : ARecord) : ARecord × Option Error :=
  unmarshalStruct ARecord.fields
    (fun members r =>
      { toBase := Base.fill members r.toBase
        Name := store JSON.asString members "name" r.Name
        IPV4 := store JSON.asString members "ipv4" r.IPV4 }) data r

/-- JSON keys and types of `NSRecord`, the promoted fields of `Base` included. -/
def NSRecord.fields : List (String × FieldKind) :=
  Base.fields ++ [("ownername", .string), ("targetname", .string)]

/-- Go `json.Unmarshal(data, &record)` for an `NSRecord`. -/
def NSRecord.Unmarshal (data : Bytes) (r : NSRecord) : NSRecord × Option Error :=
  unmarshalStruct NSRecord.fields
    (fun members r =>
      { toBase := Base.fill members r.toBase
        OwnerName := store JSON.asString members "ownername" r.OwnerName
        TargetName := store JSON.asString members "targetname" r.TargetName }) data r

/-- JSON keys and types of `CNAMERecord`, the promoted fields of `Base` included. -/
def CNAMERecord.fields : List (String × FieldKind) :=
  Base.fields ++ [("name", .string), ("cname", .string)]

/-- Go `json.Unmarshal(data, &record)` for a `CNAMERecord`. -/
def CNAMERecord.Unmarshal (data : Bytes) (r : CNAMERecord) : CNAMERecord × Option Error :=
  unmarshalStruct CNAMERecord.fields
    (fun members r =>
      { toBase := Base.fill members r.toBase
        Name := store JSON.asString members "name" r.Name
        Cname := store JSON.asString members "cname" r.Cname }) data r

/-- JSON keys and types of `MXRecord`, the promoted fields of `Base` included. -/
def MXRecord.fields : List (String × FieldKind) :=
  Base.fields ++ [("name", .string), ("ownername", .string), ("pref", .uint)]

/-- Go `json.Unmarshal(data, &record)` for an `MXRecord`. -/
def MXRecord.Unmarshal (data : Bytes) (r : MXRecord) : MXRecord × Option Error :=
  unmarshalStruct MXRecord.fields
    (fun members r =>
      { toBase := Base.fill members r.toBase
        Name := store JSON.asString members "name" r.Name
        OwnerName := store JSON.asString members "ownername" r.OwnerName
        Pref := store JSON.asUint members "pref" r.Pref }) data r

/-- JSON keys and types of `TXTRecord`, the promoted fields of `Base` included. -/
def TXTRecord.fields : List (String × FieldKind) :=
  Base.fields ++ [("name", .string), ("text", .string)]

/-- Go `json.Unmarshal(data, &record)` for a `TXTRecord`. -/
def TXTRecord.Unmarshal (data : Bytes) (r : TXTRecord) : TXTRecord × Option Error :=
  unmarshalStruct TXTRecord.fields
    (fun members r =>
      { toBase := Base.fill members r.toBase
        Name := store JSON.asString members "name" r.Name
        Text := store JSON.asString members "text" r.Text }) data r

/-- JSON keys and types of `TLSARecord`, the promoted fields of `Base` included. -/
def TLSARecord.fields : List (String × FieldKind) :=
  Base.fields ++ [("name", .string), ("text", .string)]

/-- Go `json.Unmarshal(data, &record)` for a `TLSARecord`. -/
def TLSARecord.Unmarshal (data : Bytes) (r : TLSARecord) : TLSARecord × Option Error :=
  unmarshalStruct TLSARecord.fields
    (fun members r =>
      { toBase := Base.fill members r.toBase
        Name := store JSON.asString members "name" r.Name
        Text := store JSON.asString members "text" r.Text }) data r

/-! ## wrapper.go: decoding -/

/-- A Go function call that returns, or panics on a nil dereference. -/
inductive Outcome (α : Type)
  | returns (a : α)
  | panics
deriving DecidableEq

/-- Go `HosttechRecordWrapper`; a nil interface value is `none`. -/
structure HosttechRecordWrapper where
  value : Option HosttechRecord := none
deriving DecidableEq

/-- Go `HosttechSingleResponseWrapper`. -/
structure HosttechSingleResponseWrapper where
  Data : HosttechRecordWrapper := {}
deriving DecidableEq

/-- Go `HosttechListResponseWrapper`; a nil slice is `none`. -/
structure HosttechListResponseWrapper where
  Data : Option (List HosttechRecordWrapper) := none
deriving DecidableEq

/-- Go `HosttechRecordWrapper.toLibdnsRecord`: the method call on a nil interface value
panics. -/
def HosttechRecordWrapper.toLibdnsRecord (h : HosttechRecordWrapper) (zone : String) :
    Outcome Record :=
  match h.value with
  | none => .panics
  | some v => .returns (v.toLibdnsRecord zone)

/-- Go `HosttechRecordWrapper.UnmarshalJSON`: the wrapper after the call and the error
returned. -/
def HosttechRecordWrapper.UnmarshalJSON (h : HosttechRecordWrapper) (b : Bytes) :
    HosttechRecordWrapper × Option Error :=
  match Base.Unmarshal b {} with
  | (_, some err) => (h, some err)
  | (base, none) =>
    if base.Type_ = "AAAA" then
      let (record, err) := AAAARecord.Unmarshal b {}
      ({ h with value := some (.ofAAAA record) }, err)
    else if base.Type_ = "A" then
      let (record, err) := ARecord.Unmarshal b {}
      ({ h with value := some (.ofA record) }, err)
    else if base.Type_ = "NS" then
      let (record, err) := NSRecord.Unmarshal b {}
      ({ h with value := some (.ofNS record) }, err)
    else if base.Type_ = "CNAME" then
      let (record, err) := CNAMERecord.Unmarshal b {}
      ({ h with value := some (.ofCNAME record) }, err)
    else if base.Type_ = "MX" then
      let (record, err) := MXRecord.Unmarshal b {}
      ({ h with value := some (.ofMX record) }, err)
    else if base.Type_ = "TXT" then
      let (record, err) := TXTRecord.Unmarshal b {}
      ({ h with value := some (.ofTXT record) }, err)
    else if base.Type_ = "TLSA" then
      let (record, err) := TLSARecord.Unmarshal b {}
      ({ h with value := some (.ofTLSA record) }, err)
    else
      (h, some (unsupportedError base.Type_))

/-- Decoding the members of a response object into a `HosttechSingleResponseWrapper`: every
member whose key selects `data` is handed to `UnmarshalJSON`, whose error ends the
decoding. -/
def HosttechSingleResponseWrapper.fill :
    List (String × JSON) → HosttechSingleResponseWrapper →
      HosttechSingleResponseWrapper × Option Error
  | [], w => (w, none)
  | kv :: rest, w =>
    if foldName kv.1 = "data" then
      match w.Data.UnmarshalJSON (some kv.2) with
      | (h, some err) => ({ w with Data := h }, some err)
      | (h, none) => HosttechSingleResponseWrapper.fill rest { w with Data := h }
    else HosttechSingleResponseWrapper.fill rest w

/-- Go `json.Unmarshal(data, &parsedResponse)` for a `HosttechSingleResponseWrapper`. -/
def HosttechSingleResponseWrapper.Unmarshal (data : Bytes)
    (w : HosttechSingleResponseWrapper) : HosttechSingleResponseWrapper × Option Error :=
  match data with
  | none => (w, some .jsonSyntax)
  | some .null => (w, none)
  | some (.obj members) => HosttechSingleResponseWrapper.fill members w
  | some _ => (w, some (.jsonUnmarshalType ""))

/-- Decoding the elements of a JSON array into wrappers, reusing the wrappers the slice
already holds; the error of `UnmarshalJSON` ends the decoding. -/
def unmarshalElems :
    List JSON → List HosttechRecordWrapper → List HosttechRecordWrapper × Option Error
  | [], _ => ([], none)
  | v :: vs, olds =>
    match (olds.headD {}).UnmarshalJSON (some v) with
    | (h, some err) => ([h], some err)
    | (h, none) =>
      match unmarshalElems vs olds.tail with
      | (hs, err) => (h :: hs, err)

/-- Decoding the members of a response object into a `HosttechListResponseWrapper`: `null`
sets the slice to nil, an array is decoded element by element, any other value is a type
error that is reported once the object is read. -/
def HosttechListResponseWrapper.fill :
    List (String × JSON) → HosttechListResponseWrapper → Option Error →
      HosttechListResponseWrapper × Option Error
  | [], w, saved => (w, saved)
  | kv :: rest, w, saved =>
    if foldName kv.1 = "data" then
      match kv.2 with
      | .null => HosttechListResponseWrapper.fill rest { w with Data := none } saved
      | .arr elems =>
        match unmarshalElems elems (w.Data.getD []) with
        | (hs, some err) => ({ w with Data := some hs }, some err)
        | (hs, none) => HosttechListResponseWrapper.fill rest { w with Data := some hs } saved
      | _ =>
        HosttechListResponseWrapper.fill rest w
          (saved.orElse (fun _ => some (Error.jsonUnmarshalType kv.1)))
    else HosttechListResponseWrapper.fill rest w saved

/-- Go `json.Unmarshal(data, &parsedResponse)` for a `HosttechListResponseWrapper`. -/
def HosttechListResponseWrapper.Unmarshal (data : Bytes)
    (w : HosttechListResponseWrapper) : HosttechListResponseWrapper × Option Error :=
  match data with
  | none => (w, some .jsonSyntax)
  | some .null => (w, none)
  | some (.obj members) => HosttechListResponseWrapper.fill members w none
  | some _ => (w, some (.jsonUnmarshalType ""))

/-! ## The record JSON shape -/

/-- The keys of the record JSON shape with the Go types of their fields. -/
def recordFields : List (String × FieldKind) :=
  [("id", .int), ("type", .string), ("ttl", .int), ("comment", .string), ("name", .string),
    ("ipv4", .string), ("ipv6", .string), ("cname", .string), ("ownername", .string),
    ("targetname", .string), ("pref", .uint), ("text", .string)]

/-- Whether a JSON value is `null`. -/
def JSON.isNull (v : JSON) : Bool :=
  match v with
  | .null => true
  | _ => false

/-- A well-formed record JSON object: no key occurs twice, in whatever spelling of upper and
lower case, and the value under every key of the record shape is present (not `null`) and
of the type of its field. -/
def WellFormedRecord (members : List (String × JSON)) : Prop :=
  (members.map (fun kv => foldName kv.1)).Nodup ∧
    ∀ kv ∈ members, ∀ p ∈ recordFields, p.1 = foldName kv.1 →
      kv.2.isNull = false ∧ kv.2.fits p.2 = true

instance (members : List (String × JSON)) : Decidable (WellFormedRecord members) := by
  unfold WellFormedRecord; infer_instance

/-- The fields of a provider record hold the values of the same-named members of a JSON
object: the shared fields id, type, ttl, comment and the fields of the variant. -/
def HosttechRecord.holds (h : HosttechRecord) (members : List (String × JSON)) : Prop :=
  (∀ v, ("id", v) ∈ members → v.asInt = some h.base.Id) ∧
  (∀ v, ("type", v) ∈ members → v.asString = some h.base.Type_) ∧
  (∀ v, ("ttl", v) ∈ members → v.asInt = some h.base.TTL) ∧
  (∀ v, ("comment", v) ∈ members → v.asString = some h.base.Comment) ∧
  match h with
  | .ofAAAA a =>
    (∀ v, ("name", v) ∈ members → v.asString = some a.Name) ∧
    (∀ v, ("ipv6", v) ∈ members → v.asString = some a.IPV6)
  | .ofA a =>
    (∀ v, ("name", v) ∈ members → v.asString = some a.Name) ∧
    (∀ v, ("ipv4", v) ∈ members → v.asString = some a.IPV4)
  | .ofNS n =>
    (∀ v, ("ownername", v) ∈ members → v.asString = some n.OwnerName) ∧
    (∀ v, ("targetname", v) ∈ members → v.asString = some n.TargetName)
  | .ofCNAME c =>
    (∀ v, ("name", v) ∈ members → v.asString = some c.Name) ∧
    (∀ v, ("cname", v) ∈ members → v.asString = some c.Cname)
  | .ofMX m =>
    (∀ v, ("name", v) ∈ members → v.asString = some m.Name) ∧
    (∀ v, ("ownername", v) ∈ members → v.asString = some m.OwnerName) ∧
    (∀ v, ("pref", v) ∈ members → v.asUint = some m.Pref)
  | .ofTXT t =>
    (∀ v, ("name", v) ∈ members → v.asString = some t.Name) ∧
    (∀ v, ("text", v) ∈ members → v.asString = some t.Text)
  | .ofTLSA t =>
    (∀ v, ("name", v) ∈ members → v.asString = some t.Name) ∧
    (∀ v, ("text", v) ∈ members → v.asString = some t.Text)

/-! ## provider.go -/

/-- Go `Provider`. -/
structure Provider where
  APIToken : String
deriving DecidableEq

/-- The URL for the Hosttech API connection. -/
def apiHost : String := "https://api.ns1.hosttech.eu/api/user/v1"

/-- An HTTP request as `makeApiCall` hands it to the client: method, URL, the two headers it
sets and the body (`none` for a nil reader). -/
structure Request where
  Method : String
  URL : String
  Header : List (String × String)
  Body : Option String
deriving DecidableEq

/-- An HTTP response as far as `makeApiCall` reads it: status code, status line, and what
`io.ReadAll(resp.Body)` returns (the bytes read and the read error). -/
structure Response where
  StatusCode : Int
  Status : String
  Body : Bytes × Option String

/-- The world outside the adapter.  The clock and the server may answer differently as the
exchange proceeds: both are functions of the requests sent so far. -/
structure Env where
  /-- Clock: `time.Now().UTC().Format(time.Stamp)` after the given requests. -/
  Now : List Request → String
  /-- Encoder: `json.Marshal` of a provider record, the bytes or the error message. -/
  Marshal : HosttechRecord → Except String String
  /-- Whether `http.NewRequestWithContext` returns a request for this method and URL (it
  fails on a URL that does not parse and on a nil context). -/
  NewRequestOK : String → String → Bool
  /-- Transport: `http.DefaultClient.Do`, the response or the transport error (always a
  `*url.Error`, never an `ApiError`), given the requests sent before. -/
  Do : List Request → Request → Except String Response

/-- The request `makeApiCall` builds: `http.NewRequestWithContext` with the bearer-token
authorization header and the JSON content-type header set. -/
def Provider.request (p : Provider) (httpMethod reqUrl : String) (body : Option String) :
    Request :=
  { Method := httpMethod
    URL := reqUrl
    Header := [("Authorization", "Bearer " ++ p.APIToken), ("Content-Type", "application/json")]
    Body := body }

/-- The message of the `ApiError` of `makeApiCall` for a status line. -/
def apiErrorMessage (status : String) : String :=
  "call to API was not successful, returned the status code '" ++ status ++ "'"

/-- Go `Provider.makeApiCall`: the named results `(response, err)` and the log of requests
handed to the client.  The source sets the headers before it looks at the error of
`http.NewRequestWithContext`, so a failed construction dereferences the nil request. -/
def Provider.makeApiCall (p : Provider) (env : Env) (log : List Request)
    (httpMethod reqUrl : String) (body : Option String) :
    Outcome (Bytes × Option Error) × List Request :=
  if env.NewRequestOK httpMethod reqUrl then
    let req := p.request httpMethod reqUrl body
    match env.Do log req with
    | .error e => (.returns (none, some (.transport e)), log ++ [req])
    | .ok resp =>
      if resp.StatusCode < 200 ∨ resp.StatusCode ≥ 300 then
        (.returns (none, some (.ApiError (apiErrorMessage resp.Status) resp.StatusCode)),
          log ++ [req])
      else
        (.returns (resp.Body.1, resp.Body.2.map Error.transport), log ++ [req])
  else (.panics, log)

/-- What the four record operations return: a slice of records (`none` is the nil slice) and
an error (`none` is nil). -/
abbrev Records := Option (List Record) × Option Error

/-- The URL of the records of a zone. -/
def recordsURL (zone : String) : String :=
  apiHost ++ "/zones/" ++ RemoveTrailingDot zone ++ "/records"

/-- The URL of one record of a zone. -/
def recordURL (zone : String) (id : String) : String :=
  apiHost ++ "/zones/" ++ RemoveTrailingDot zone ++ "/records/" ++ id

/-- The loop of `AppendRecords` over the records left, with the accumulator
`successfullyAppendedRecords`. -/
def Provider.appendLoop (p : Provider) (env : Env) (zone reqURL : String) :
    List Record → List Record → List Request → Outcome Records × List Request
  | [], successfullyAppendedRecords, log => (.returns (some successfullyAppendedRecords, none), log)
  | record :: rest, successfullyAppendedRecords, log =>
    match LibdnsRecordToHosttechRecordWrapper record (env.Now log) with
    | .error err => (.returns (none, some err), log)
    | .ok hosttechRecord =>
      match env.Marshal hosttechRecord with
      | .error e => (.returns (none, some (.jsonMarshal e)), log)
      | .ok bodyBytes =>
        match p.makeApiCall env log "POST" reqURL (some bodyBytes) with
        | (.panics, log1) => (.panics, log1)
        | (.returns (_, some err), log1) =>
          (.returns (some successfullyAppendedRecords, some err), log1)
        | (.returns (responseBody, none), log1) =>
          match HosttechSingleResponseWrapper.Unmarshal responseBody {} with
          | (_, some err) => (.returns (some [], some err), log1)
          | (parsedResponse, none) =>
            match parsedResponse.Data.toLibdnsRecord zone with
            | .panics => (.panics, log1)
            | .returns r =>
              Provider.appendLoop p env zone reqURL rest (successfullyAppendedRecords ++ [r]) log1

/-- Go `Provider.AppendRecords`. -/
def Provider.AppendRecords (p : Provider) (env : Env) (log : List Request) (zone : String)
    (records : List Record) : Outcome Records × List Request :=
  p.appendLoop env zone (recordsURL zone) records [] log

/-- The loop of `SetRecords` over the records left, with the accumulator
`successfullyUpdatedRecords`. -/
def Provider.setLoop (p : Provider) (env : Env) (zone : String) :
    List Record → List Record → List Request → Outcome Records × List Request
  | [], successfullyUpdatedRecords, log => (.returns (some successfullyUpdatedRecords, none), log)
  | record :: rest, successfullyUpdatedRecords, log =>
    match LibdnsRecordToHosttechRecordWrapper record (env.Now log) with
    | .error err => (.returns (none, some err), log)
    | .ok hosttechRecord =>
      match env.Marshal hosttechRecord with
      | .error e => (.returns (none, some (.jsonMarshal e)), log)
      | .ok bodyBytes =>
        match p.makeApiCall env log "PUT" (recordURL zone record.ID) (some bodyBytes) with
        | (.panics, log1) => (.panics, log1)
        | (.returns (_, some err), log1) =>
          match err.asApiError with
          | none =>
            -- If the error doesn't have anything to do with the api, return
            (.returns (some successfullyUpdatedRecords, some err), log1)
          | some apiError =>
            if apiError.2 ≠ 404 then
              -- If the error isn't a 404, return
              (.returns (some successfullyUpdatedRecords, some err), log1)
            else
              -- The record did not exist, so we create a new one
              match p.AppendRecords env log1 zone [record] with
              | (.panics, log2) => (.panics, log2)
              | (.returns (_, some err2), log2) =>
                (.returns (some successfullyUpdatedRecords, some err2), log2)
              | (.returns (appendedRecords, none), log2) =>
                Provider.setLoop p env zone rest
                  (successfullyUpdatedRecords ++ appendedRecords.getD []) log2
        | (.returns (responseBody, none), log1) =>
          match HosttechSingleResponseWrapper.Unmarshal responseBody {} with
          | (_, some err) => (.returns (some [], some err), log1)
          | (parsedResponse, none) =>
            match parsedResponse.Data.toLibdnsRecord zone with
            | .panics => (.panics, log1)
            | .returns r =>
              Provider.setLoop p env zone rest (successfullyUpdatedRecords ++ [r]) log1

/-- Go `Provider.SetRecords`. -/
def Provider.SetRecords (p : Provider) (env : Env) (log : List Request) (zone : String)
    (records : List Record) : Outcome Records × List Request :=
  p.setLoop env zone records [] log

/-- The loop of `DeleteRecords` over the records left, with the accumulator
`successfullyDeletedRecords`. -/
def Provider.deleteLoop (p : Provider) (env : Env) (zone : String) :
    List Record → List Record → List Request → Outcome Records × List Request
  | [], successfullyDeletedRecords, log => (.returns (some successfullyDeletedRecords, none), log)
  | record :: rest, successfullyDeletedRecords, log =>
    match p.makeApiCall env log "DELETE" (recordURL zone record.ID) none with
    | (.panics, log1) => (.panics, log1)
    | (.returns (_, some err), log1) =>
      (.returns (some successfullyDeletedRecords, some err), log1)
    | (.returns (_, none), log1) =>
      Provider.deleteLoop p env zone rest (successfullyDeletedRecords ++ [record]) log1

/-- Go `Provider.DeleteRecords`. -/
def Provider.DeleteRecords (p : Provider) (env : Env) (log : List Request) (zone : String)
    (records : List Record) : Outcome Records × List Request :=
  p.deleteLoop env zone records [] log

/-- The loop of `GetRecords` over the decoded wrappers, with the slice `libdnsRecords`
(nil until the first append). -/
def getLoop (zone : String) :
    List HosttechRecordWrapper → Option (List Record) → Outcome (Option (List Record))
  | [], libdnsRecords => .returns libdnsRecords
  | record :: rest, libdnsRecords =>
    match record.toLibdnsRecord zone with
    | .panics => .panics
    | .returns r => getLoop zone rest (some (libdnsRecords.getD [] ++ [r]))

/-- Go `Provider.GetRecords`. -/
def Provider.GetRecords (p : Provider) (env : Env) (log : List Request) (zone : String) :
    Outcome Records × List Request :=
  match p.makeApiCall env log "GET" (recordsURL zone) none with
  | (.panics, log1) => (.panics, log1)
  | (.returns (_, some err), log1) =>
    -- If there's an error return an empty slice
    (.returns (some [], some err), log1)
  | (.returns (responseBody, none), log1) =>
    match HosttechListResponseWrapper.Unmarshal responseBody {} with
    | (_, some err) => (.returns (some [], some err), log1)
    | (parsedResponse, none) =>
      match getLoop zone (parsedResponse.Data.getD []) none with
      | .panics => (.panics, log1)
      | .returns libdnsRecords => (.returns (libdnsRecords, none), log1)

/-! ## Runs of the client against the server -/

/-- The call with request `req`, sent after the requests `log`, succeeds with the response
body `body`: the request is built, the server answers with a status in `[200, 300)` and the
body is read without error. -/
def CallSucceeds (env : Env) (log : List Request) (req : Request) (body : Bytes) : Prop :=
  env.NewRequestOK req.Method req.URL = true ∧
    ∃ resp, env.Do log req = .ok resp ∧ 200 ≤ resp.StatusCode ∧ resp.StatusCode < 300 ∧
      resp.Body = (body, none)

/-- The call with request `req`, sent after the requests `log`, fails at the transport layer
with the error `err`: the client returns an error, or reading the body does. -/
def CallFailsTransport (env : Env) (log : List Request) (req : Request) (err : Error) : Prop :=
  env.NewRequestOK req.Method req.URL = true ∧
    ((∃ e, env.Do log req = .error e ∧ err = .transport e) ∨
      ∃ resp e, env.Do log req = .ok resp ∧ 200 ≤ resp.StatusCode ∧ resp.StatusCode < 300 ∧
        resp.Body.2 = some e ∧ err = .transport e)

/-- The call with request `req`, sent after the requests `log`, fails at the API layer with
the status `code`: the server answers with a status outside `[200, 300)`, and `err` is the
`ApiError` carrying it. -/
def CallFailsApi (env : Env) (log : List Request) (req : Request) (code : Int) (err : Error) :
    Prop :=
  env.NewRequestOK req.Method req.URL = true ∧
    ∃ resp, env.Do log req = .ok resp ∧ (resp.StatusCode < 200 ∨ 300 ≤ resp.StatusCode) ∧
      resp.StatusCode = code ∧ err = .ApiError (apiErrorMessage resp.Status) code

/-- The create call for `record`, sent after the requests `log`, succeeds and its response
decodes to the provider record `w`; `log1` is the log with the request added. -/
def CreateSucceeds (p : Provider) (env : Env) (zone : String) (log : List Request)
    (record : Record) (w : HosttechRecord) (log1 : List Request) : Prop :=
  ∃ hosttechRecord bodyBytes responseBody,
    LibdnsRecordToHosttechRecordWrapper record (env.Now log) = .ok hosttechRecord ∧
    env.Marshal hosttechRecord = .ok bodyBytes ∧
    CallSucceeds env log (p.request "POST" (recordsURL zone) (some bodyBytes)) responseBody ∧
    HosttechSingleResponseWrapper.Unmarshal responseBody {} =
      ({ Data := { value := some w } }, none) ∧
    log1 = log ++ [p.request "POST" (recordsURL zone) (some bodyBytes)]

/-- The create calls for the records of a list, sent one after the other, all succeed and
their responses decode to the provider records `ws`, in order. -/
inductive CreatesSucceed (p : Provider) (env : Env) (zone : String) :
    List Record → List Request → List HosttechRecord → List Request → Prop
  | nil (log : List Request) : CreatesSucceed p env zone [] log [] log
  | cons {record : Record} {rest : List Record} {log log1 log2 : List Request}
      {w : HosttechRecord} {ws : List HosttechRecord} :
      CreateSucceeds p env zone log record w log1 →
      CreatesSucceed p env zone rest log1 ws log2 →
      CreatesSucceed p env zone (record :: rest) log (w :: ws) log2

/-- The update call for `record`, sent after the requests `log`, succeeds and its response
decodes to the provider record `w`. -/
def UpdateSucceeds (p : Provider) (env : Env) (zone : String) (log : List Request)
    (record : Record) (w : HosttechRecord) (log1 : List Request) : Prop :=
  ∃ hosttechRecord bodyBytes responseBody,
    LibdnsRecordToHosttechRecordWrapper record (env.Now log) = .ok hosttechRecord ∧
    env.Marshal hosttechRecord = .ok bodyBytes ∧
    CallSucceeds env log (p.request "PUT" (recordURL zone record.ID) (some bodyBytes))
      responseBody ∧
    HosttechSingleResponseWrapper.Unmarshal responseBody {} =
      ({ Data := { value := some w } }, none) ∧
    log1 = log ++ [p.request "PUT" (recordURL zone record.ID) (some bodyBytes)]

/-- The update call for `record`, sent after the requests `log`, fails with an API error of
status 404, and the fallback create call that follows succeeds with a response that decodes
to the provider record `w`. -/
def UpdateMissesCreateSucceeds (p : Provider) (env : Env) (zone : String) (log : List Request)
    (record : Record) (w : HosttechRecord) (log2 : List Request) : Prop :=
  ∃ hosttechRecord bodyBytes err,
    LibdnsRecordToHosttechRecordWrapper record (env.Now log) = .ok hosttechRecord ∧
    env.Marshal hosttechRecord = .ok bodyBytes ∧
    CallFailsApi env log (p.request "PUT" (recordURL zone record.ID) (some bodyBytes)) 404 err ∧
    CreateSucceeds p env zone
      (log ++ [p.request "PUT" (recordURL zone record.ID) (some bodyBytes)]) record w log2

/-- Every record of a list is handled by `SetRecords` through a successful update or
through an update that fails with status 404 followed by a successful create; `ws` are the
provider records decoded from the responses, in order. -/
inductive SetsSucceed (p : Provider) (env : Env) (zone : String) :
    List Record → List Request → List HosttechRecord → List Request → Prop
  | nil (log : List Request) : SetsSucceed p env zone [] log [] log
  | update {record : Record} {rest : List Record} {log log1 log2 : List Request}
      {w : HosttechRecord} {ws : List HosttechRecord} :
      UpdateSucceeds p env zone log record w log1 →
      SetsSucceed p env zone rest log1 ws log2 →
      SetsSucceed p env zone (record :: rest) log (w :: ws) log2
  | create {record : Record} {rest : List Record} {log log1 log2 : List Request}
      {w : HosttechRecord} {ws : List HosttechRecord} :
      UpdateMissesCreateSucceeds p env zone log record w log1 →
      SetsSucceed p env zone rest log1 ws log2 →
      SetsSucceed p env zone (record :: rest) log (w :: ws) log2

/-- The delete request for a record. -/
def Provider.deleteRequest (p : Provider) (zone : String) (record : Record) : Request :=
  p.request "DELETE" (recordURL zone record.ID) none

/-- The delete calls for the records of a list, sent one after the other, all succeed. -/
inductive DeletesSucceed (p : Provider) (env : Env) (zone : String) :
    List Record → List Request → List Request → Prop
  | nil (log : List Request) : DeletesSucceed p env zone [] log log
  | cons {record : Record} {rest : List Record} {log log2 : List Request} {body : Bytes} :
      CallSucceeds env log (p.deleteRequest zone record) body →
      DeletesSucceed p env zone rest (log ++ [p.deleteRequest zone record]) log2 →
      DeletesSucceed p env zone (record :: rest) log log2

/-- The list request for a zone. -/
def Provider.listRequest (p : Provider) (zone : String) : Request :=
  p.request "GET" (recordsURL zone) none

/-- The operation `GetRecords`, called after the requests `log`, fails with `err`: the list
call fails at the transport or API layer, or it succeeds and its body does not decode. -/
def ListFails (p : Provider) (env : Env) (log : List Request) (zone : String) (err : Error) :
    Prop :=
  CallFailsTransport env log (p.listRequest zone) err ∨
    (∃ code, CallFailsApi env log (p.listRequest zone) code err) ∨
    ∃ body w, CallSucceeds env log (p.listRequest zone) body ∧
      HosttechListResponseWrapper.Unmarshal body {} = (w, some err)

/-! ## A scripted server, for concrete runs -/

/-- A world whose server answers the i-th request it receives with the i-th entry of a
script, and with a transport error once the script is used up; the clock stands still,
every request can be built and a record is encoded as its type and value. -/
def scriptedEnv (script : List (Except String Response)) : Env :=
  { Now := fun _ => "Jan  2 15:04:05"
    Marshal := fun h => .ok (h.variant ++ " " ++ h.valueField)
    NewRequestOK := fun _ _ => true
    Do := fun log _ => script.getD log.length (.error "connection refused") }

/-- The answer `200 OK` whose body holds, under "data", the A record with the given id, name
and address. -/
def okA (id : Nat) (name ipv4 : String) : Except String Response :=
  .ok { StatusCode := 200
        Status := "200 OK"
        Body := (some (.obj [("data", .obj [("id", .int false id), ("type", .str "A"),
          ("name", .str name), ("ipv4", .str ipv4), ("ttl", .int false 3600)])]), none) }

/-- The answer `200 OK` whose body holds, under "data", the given list of records. -/
def okList (records : List JSON) : Except String Response :=
  .ok { StatusCode := 200
        Status := "200 OK"
        Body := (some (.obj [("data", .arr records)]), none) }

/-- An answer with the given status and an empty JSON object as body. -/
def answer (code : Int) (status : String) : Except String Response :=
  .ok { StatusCode := code, Status := status, Body := (some (.obj []), none) }

/-- The canonical A record with the given id, name and address and a ttl of one hour. -/
def recordA (id name ipv4 : String) : Record :=
  { ID := id, Type_ := "A", Name := name, Value := ipv4, TTL := 3600 * Second, Priority := 0 }

/-- The provider A record with the given id, name and address and a ttl of one hour. -/
def providerA (id : Int) (name ipv4 : String) : HosttechRecord :=
  .ofA { Id := id, Type_ := "A", TTL := 3600, Comment := "", Name := name, IPV4 := ipv4 }

/-- Go `stringContainsCTLByte` of net/url: whether the string holds an ASCII control
character (a byte below the space or the byte 0x7f). -/
def stringContainsCTLByte (s : String) : Bool :=
  s.data.any (fun c => c.toNat < 32 || c.toNat == 127)

/-- A scripted world in which `http.NewRequestWithContext` fails on a URL that holds an ASCII
control character, as `url.Parse` does ("net/url: invalid control character in URL"); the
server, the clock and the encoder are those of `scriptedEnv`. -/
def strictEnv (script : List (Except String Response)) : Env :=
  { Now := fun _ => "Jan  2 15:04:05"
    Marshal := fun h => .ok (h.variant ++ " " ++ h.valueField)
    NewRequestOK := fun _ reqUrl => !stringContainsCTLByte reqUrl
    Do := fun log _ => script.getD log.length (.error "connection refused") }

/-! # Theorems -/

/-! ## Strings -/

theorem TrimSuffix_of_not_HasSuffix (s suffix : String) (h : HasSuffix s suffix = false) :
    TrimSuffix s suffix = s := by
  simp [TrimSuffix, h]

theorem TrimSuffix_empty (s : String) : TrimSuffix s "" = s := by
  cases s
  simp [TrimSuffix, HasSuffix]

/-- The canonical name survives `RelativeName` when it has no trailing dot and does not end
with the zone name. -/
theorem RelativeName_eq_self (name zone : String) (hdot : HasSuffix name "." = false)
    (hzone : TrimSuffix zone "." = "" ∨ HasSuffix name (TrimSuffix zone ".") = false) :
    RelativeName name zone = name := by
  unfold RelativeName
  rw [TrimSuffix_of_not_HasSuffix name "." hdot]
  rcases hzone with hz | hz
  · rw [hz, TrimSuffix_empty, TrimSuffix_of_not_HasSuffix name "." hdot]
  · rw [TrimSuffix_of_not_HasSuffix name _ hz, TrimSuffix_of_not_HasSuffix name "." hdot]

/-! ## Encoding dispatch -/

theorem LibdnsRecordToHosttechRecordWrapper_cases (record : Record) (now : String) :
    (record.Type_ ∉ supportedTypes ∧
      LibdnsRecordToHosttechRecordWrapper record now = .error (unsupportedError record.Type_)) ∨
    (record.Type_ ∈ supportedTypes ∧ ∃ h, LibdnsRecordToHosttechRecordWrapper record now = .ok h ∧
      h.variant = record.Type_ ∧ h.base.Type_ = record.Type_ ∧
      h.base.TTL = durationToIntSeconds record.TTL ∧
      h.base.Id = 0 ∧
      h.base.Comment = generateComment now ∧
      h.valueField = record.Value ∧
      (h.toLibdnsRecord "").Value = record.Value) := by
  unfold LibdnsRecordToHosttechRecordWrapper supportedTypes
  by_cases h1 : record.Type_ = "AAAA"
  · right; simp [h1, HosttechRecord.fromLibdnsRecord, AAAARecord.fromLibdnsRecord,
      HosttechRecord.variant, HosttechRecord.base, HosttechRecord.valueField,
      HosttechRecord.toLibdnsRecord, AAAARecord.toLibdnsRecord]
  by_cases h2 : record.Type_ = "A"
  · right; simp [h2, HosttechRecord.fromLibdnsRecord, ARecord.fromLibdnsRecord,
      HosttechRecord.variant, HosttechRecord.base, HosttechRecord.valueField,
      HosttechRecord.toLibdnsRecord, ARecord.toLibdnsRecord]
  by_cases h3 : record.Type_ = "NS"
  · right; simp [h3, HosttechRecord.fromLibdnsRecord, NSRecord.fromLibdnsRecord,
      HosttechRecord.variant, HosttechRecord.base, HosttechRecord.valueField,
      HosttechRecord.toLibdnsRecord, NSRecord.toLibdnsRecord]
  by_cases h4 : record.Type_ = "CNAME"
  · right; simp [h4, HosttechRecord.fromLibdnsRecord, CNAMERecord.fromLibdnsRecord,
      HosttechRecord.variant, HosttechRecord.base, HosttechRecord.valueField,
      HosttechRecord.toLibdnsRecord, CNAMERecord.toLibdnsRecord]
  by_cases h5 : record.Type_ = "MX"
  · right; simp [h5, HosttechRecord.fromLibdnsRecord, MXRecord.fromLibdnsRecord,
      HosttechRecord.variant, HosttechRecord.base, HosttechRecord.valueField,
      HosttechRecord.toLibdnsRecord, MXRecord.toLibdnsRecord]
  by_cases h6 : record.Type_ = "TXT"
  · right; simp [h6, HosttechRecord.fromLibdnsRecord, TXTRecord.fromLibdnsRecord,
      HosttechRecord.variant, HosttechRecord.base, HosttechRecord.valueField,
      HosttechRecord.toLibdnsRecord, TXTRecord.toLibdnsRecord]
  by_cases h7 : record.Type_ = "TLSA"
  · right; simp [h7, HosttechRecord.fromLibdnsRecord, TLSARecord.fromLibdnsRecord,
      HosttechRecord.variant, HosttechRecord.base, HosttechRecord.valueField,
      HosttechRecord.toLibdnsRecord, TLSARecord.toLibdnsRecord]
  left
  simp [h1, h2, h3, h4, h5, h6, h7]

/-- C8: `LibdnsRecordToHosttechRecordWrapper` returns an error exactly when the record type is
not one of A, AAAA, CNAME, NS, MX, TXT, TLSA; for a supported type it returns the provider
record of the struct named by the type, whose type tag is the canonical type. -/
theorem C8_encode_dispatch (record : Record) (now : String) :
    ((∃ e, LibdnsRecordToHosttechRecordWrapper record now = .error e) ↔
      record.Type_ ∉ ["A", "AAAA", "CNAME", "NS", "MX", "TXT", "TLSA"]) ∧
    (record.Type_ ∈ ["A", "AAAA", "CNAME", "NS", "MX", "TXT", "TLSA"] →
      ∃ h, LibdnsRecordToHosttechRecordWrapper record now = .ok h ∧
        h.variant = record.Type_ ∧ h.base.Type_ = record.Type_) := by
  have hmem : record.Type_ ∈ ["A", "AAAA", "CNAME", "NS", "MX", "TXT", "TLSA"] ↔
      record.Type_ ∈ supportedTypes := by
    simp only [supportedTypes, List.mem_cons, List.mem_singleton, List.not_mem_nil, or_false]
    tauto
  rcases LibdnsRecordToHosttechRecordWrapper_cases record now with ⟨hn, he⟩ | ⟨hs, h, hok, hv, ht, _⟩
  · refine ⟨⟨fun _ => fun hm => hn (hmem.mp hm), fun _ => ⟨_, he⟩⟩, fun hm => absurd (hmem.mp hm) hn⟩
  · refine ⟨⟨?_, fun hm => absurd (hmem.mpr hs) hm⟩, fun _ => ⟨h, hok, hv, ht⟩⟩
    rintro ⟨e, he⟩
    rw [hok] at he
    cases he

/-! ## Record codec -/

/-- C10: for each of the seven provider record types and every zone, `toLibdnsRecord` returns
a canonical record whose ID is the decimal rendering of the provider id, whose type is the
provider type tag and whose value is the value field of the variant: ipv4 for A, ipv6 for
AAAA, cname for CNAME, targetname for NS, name for MX, text for TXT and TLSA. -/
theorem C10_toLibdnsRecord_fields (zone : String) :
    (∀ a : ARecord, (a.toLibdnsRecord zone).ID = Itoa a.Id ∧
      (a.toLibdnsRecord zone).Type_ = a.Type_ ∧ (a.toLibdnsRecord zone).Value = a.IPV4) ∧
    (∀ a : AAAARecord, (a.toLibdnsRecord zone).ID = Itoa a.Id ∧
      (a.toLibdnsRecord zone).Type_ = a.Type_ ∧ (a.toLibdnsRecord zone).Value = a.IPV6) ∧
    (∀ c : CNAMERecord, (c.toLibdnsRecord zone).ID = Itoa c.Id ∧
      (c.toLibdnsRecord zone).Type_ = c.Type_ ∧ (c.toLibdnsRecord zone).Value = c.Cname) ∧
    (∀ n : NSRecord, (n.toLibdnsRecord zone).ID = Itoa n.Id ∧
      (n.toLibdnsRecord zone).Type_ = n.Type_ ∧ (n.toLibdnsRecord zone).Value = n.TargetName) ∧
    (∀ m : MXRecord, (m.toLibdnsRecord zone).ID = Itoa m.Id ∧
      (m.toLibdnsRecord zone).Type_ = m.Type_ ∧ (m.toLibdnsRecord zone).Value = m.Name) ∧
    (∀ t : TXTRecord, (t.toLibdnsRecord zone).ID = Itoa t.Id ∧
      (t.toLibdnsRecord zone).Type_ = t.Type_ ∧ (t.toLibdnsRecord zone).Value = t.Text) ∧
    (∀ t : TLSARecord, (t.toLibdnsRecord zone).ID = Itoa t.Id ∧
      (t.toLibdnsRecord zone).Type_ = t.Type_ ∧ (t.toLibdnsRecord zone).Value = t.Text) ∧
    (∀ h : HosttechRecord, (h.toLibdnsRecord zone).ID = Itoa h.base.Id ∧
      (h.toLibdnsRecord zone).Type_ = h.base.Type_ ∧
      (h.toLibdnsRecord zone).Value = h.valueField) ∧
    Itoa 14 = "14" ∧ Itoa 0 = "0" ∧ Itoa (-7) = "-7" := by
  refine ⟨fun _ => ⟨rfl, rfl, rfl⟩, fun _ => ⟨rfl, rfl, rfl⟩, fun _ => ⟨rfl, rfl, rfl⟩,
    fun _ => ⟨rfl, rfl, rfl⟩, fun _ => ⟨rfl, rfl, rfl⟩, fun _ => ⟨rfl, rfl, rfl⟩,
    fun _ => ⟨rfl, rfl, rfl⟩, ?_, by decide, by decide, by decide⟩
  intro h
  cases h <;> exact ⟨rfl, rfl, rfl⟩

/-- C1, as stated, fails: the A record named "sub.example.com" with priority 10 and a ttl of
1800.5 seconds comes back from the round trip in zone "example.com" with the name "sub",
priority 0 and a ttl of 1800 seconds. -/
theorem C1_counterexample :
    LibdnsRecordToHosttechRecordWrapper
        { ID := "", Type_ := "A", Name := "sub.example.com", Value := "1.2.3.4",
          TTL := 1800500000000, Priority := 10 } "Jan  2 15:04:05" =
      .ok (.ofA {
        Id := 0, Type_ := "A", TTL := 1800,
        Comment := "This record was created or updated with libdns at Jan  2 15:04:05 UTC",
        Name := "sub.example.com", IPV4 := "1.2.3.4" }) ∧
    (HosttechRecord.ofA {
        Id := 0, Type_ := "A", TTL := 1800,
        Comment := "This record was created or updated with libdns at Jan  2 15:04:05 UTC",
        Name := "sub.example.com", IPV4 := "1.2.3.4" }).toLibdnsRecord "example.com" =
      { ID := "0", Type_ := "A", Name := "sub", Value := "1.2.3.4",
        TTL := 1800000000000, Priority := 0 } ∧
    "sub" ≠ "sub.example.com" ∧ (0 : Nat) ≠ 10 ∧
    (1800000000000 : Int) ≠ max 1800500000000 (600 * Second) := by
  decide


/-! ## binary64 rounding -/

theorem bitLenAux_zero (fuel : Nat) : bitLenAux fuel 0 = 0 := by
  cases fuel <;> simp [bitLenAux]

theorem bitLenAux_eq_log (fuel : Nat) :
    ∀ n, 0 < n → n ≤ fuel → bitLenAux fuel n = Nat.log 2 n + 1 := by
  induction fuel with
  | zero => intro n h1 h2; omega
  | succ f ih =>
    intro n h1 h2
    have hn : n ≠ 0 := by omega
    simp only [bitLenAux, hn, if_false]
    by_cases h : n / 2 = 0
    · have h1 : n = 1 := by omega
      subst h1
      simp [bitLenAux_zero]
    · have h3 := ih (n / 2) (by omega) (by omega)
      rw [h3, Nat.log_div_base]
      have : 0 < Nat.log 2 n := Nat.log_pos (by norm_num) (by omega)
      omega

theorem bitLen_eq_log (n : Nat) (h : 0 < n) : bitLen n = Nat.log 2 n + 1 :=
  bitLenAux_eq_log n n h le_rfl

/-- Comparing `2^z` with `n / d` by natural numbers. -/
theorem pow_le_ratio_iff (n d : Nat) (z : Int) :
    d * 2 ^ z.toNat ≤ n * 2 ^ (-z).toNat ↔ (2 : ℚ) ^ z * d ≤ n := by
  rcases le_or_lt 0 z with hz | hz
  · obtain ⟨k, rfl⟩ := Int.eq_ofNat_of_zero_le hz
    have h0 : (-(k : Int)).toNat = 0 := by omega
    rw [h0, Int.toNat_ofNat, pow_zero, mul_one, zpow_natCast, mul_comm ((2 : ℚ) ^ k)]
    exact_mod_cast Iff.rfl
  · obtain ⟨k, rfl⟩ : ∃ k : Nat, z = -(k : Int) := ⟨(-z).toNat, by omega⟩
    have h0 : (-(k : Int)).toNat = 0 := by omega
    have h1 : (- -(k : Int)).toNat = k := by omega
    rw [h0, h1, pow_zero, mul_one, zpow_neg, zpow_natCast]
    have hp : (0 : ℚ) < 2 ^ k := by positivity
    rw [inv_mul_le_iff₀ hp]
    rw [mul_comm ((2 : ℚ) ^ k)]
    exact_mod_cast Iff.rfl

theorem two_pow_log_le (n : Nat) (h : 0 < n) :
    (2 : ℚ) ^ (Nat.log 2 n : Int) ≤ n ∧ (n : ℚ) < 2 ^ ((Nat.log 2 n : Int) + 1) := by
  have h1 := Nat.pow_log_le_self 2 (Nat.pos_iff_ne_zero.mp h)
  have h2 := Nat.lt_pow_succ_log_self (b := 2) (by norm_num) n
  constructor
  · rw [zpow_natCast]; exact_mod_cast h1
  · have : ((Nat.log 2 n : Int) + 1) = ((Nat.log 2 n + 1 : Nat) : Int) := by push_cast; ring
    rw [this, zpow_natCast]; exact_mod_cast h2

/-- The exponent of `round` scales `n / d` into `[2^52, 2^53)`. -/
theorem exponent_spec (n d : Nat) (hn : 0 < n) (hd : 0 < d) :
    (2 : ℚ) ^ (Float64.exponent n d + 52) * d ≤ n ∧
      (n : ℚ) < 2 ^ (Float64.exponent n d + 53) * d := by
  obtain ⟨hn1, hn2⟩ := two_pow_log_le n hn
  obtain ⟨hd1, hd2⟩ := two_pow_log_le d hd
  have hdq : (0 : ℚ) < d := by exact_mod_cast hd
  have ht : ((bitLen n : Int) - (bitLen d : Int)) = (Nat.log 2 n : Int) - (Nat.log 2 d : Int) := by
    rw [bitLen_eq_log n hn, bitLen_eq_log d hd]; push_cast; ring
  unfold Float64.exponent
  simp only [ht]
  set ln : Int := (Nat.log 2 n : Int)
  set ld : Int := (Nat.log 2 d : Int)
  by_cases hc : d * 2 ^ (ln - ld).toNat ≤ n * 2 ^ (-(ln - ld)).toNat
  · rw [if_pos hc]
    rw [pow_le_ratio_iff] at hc
    refine ⟨by simpa using hc, ?_⟩
    have e1 : (ln - ld - 52 + 53) = (ln + 1) - ld := by ring
    rw [e1, zpow_sub₀ (by norm_num : (2 : ℚ) ≠ 0)]
    have hpos : (0 : ℚ) < 2 ^ ld := by positivity
    calc (n : ℚ) < 2 ^ (ln + 1) := hn2
      _ = 2 ^ (ln + 1) / 2 ^ ld * 2 ^ ld := by field_simp
      _ ≤ 2 ^ (ln + 1) / 2 ^ ld * d := by
        apply mul_le_mul_of_nonneg_left hd1
        positivity
  · rw [if_neg hc]
    rw [pow_le_ratio_iff] at hc
    push_neg at hc
    have e2 : (ln - ld - 1 - 52 + 53) = ln - ld := by ring
    refine ⟨?_, by rw [e2]; exact hc⟩
    have e1 : (ln - ld - 1 - 52 + 52) = ln - (ld + 1) := by ring
    rw [e1, zpow_sub₀ (by norm_num : (2 : ℚ) ≠ 0)]
    have hpos : (0 : ℚ) < 2 ^ (ld + 1) := by positivity
    calc (2 : ℚ) ^ ln / 2 ^ (ld + 1) * d ≤ 2 ^ ln / 2 ^ (ld + 1) * 2 ^ (ld + 1) := by
          apply mul_le_mul_of_nonneg_left hd2.le
          positivity
      _ = 2 ^ ln := by field_simp
      _ ≤ n := hn1

/-- The two natural numbers `round` divides are `n` and `d * 2^e`, scaled alike. -/
theorem scaled_pair (n d : Nat) (e : Int) :
    ∃ s : ℚ, 0 < s ∧ ((n * 2 ^ (-e).toNat : Nat) : ℚ) = n * s ∧
      ((d * 2 ^ e.toNat : Nat) : ℚ) = d * 2 ^ e * s := by
  rcases le_or_lt 0 e with he | he
  · obtain ⟨k, rfl⟩ := Int.eq_ofNat_of_zero_le he
    have h0 : (-(k : Int)).toNat = 0 := by omega
    refine ⟨1, one_pos, ?_, ?_⟩
    · rw [h0]; simp
    · rw [Int.toNat_ofNat, zpow_natCast]; push_cast; ring
  · obtain ⟨k, rfl⟩ : ∃ k : Nat, e = -(k : Int) := ⟨(-e).toNat, by omega⟩
    have h0 : (-(k : Int)).toNat = 0 := by omega
    have h1 : (- -(k : Int)).toNat = k := by omega
    refine ⟨2 ^ k, by positivity, ?_, ?_⟩
    · rw [h1]; push_cast; ring
    · rw [h0, zpow_neg, zpow_natCast]
      have hp : (2 : ℚ) ^ k ≠ 0 := by positivity
      push_cast
      field_simp

theorem roundHalfEven_le (a b K : Nat) (h : a ≤ K * b) : roundHalfEven a b ≤ K := by
  rcases Nat.eq_zero_or_pos b with hb | hb
  · subst hb
    have ha : a = 0 := by simpa using h
    subst ha
    simp [roundHalfEven]
  have hq : a / b ≤ K := Nat.div_le_of_le_mul (by rw [Nat.mul_comm]; exact h)
  have hdm := Nat.div_add_mod a b
  have hlt : a / b < K ∨ a % b = 0 := by
    rcases Nat.lt_or_ge (a / b) K with h1 | h1
    · exact Or.inl h1
    · right
      have h2 : a / b = K := le_antisymm hq h1
      rw [h2, Nat.mul_comm] at hdm
      omega
  unfold roundHalfEven
  simp only
  split_ifs <;> omega

theorem le_roundHalfEven (a b K : Nat) (hb : 0 < b) (h : K * b ≤ a) :
    K ≤ roundHalfEven a b := by
  have hq : K ≤ a / b := (Nat.le_div_iff_mul_le hb).mpr h
  unfold roundHalfEven
  simp only
  split_ifs <;> omega

theorem roundHalfEven_mul (b K : Nat) (hb : 0 < b) : roundHalfEven (K * b) b = K :=
  le_antisymm (roundHalfEven_le _ _ _ le_rfl) (le_roundHalfEven _ _ _ hb le_rfl)

theorem natAbs_cast_rat (num : Int) : (num : ℚ) = (num.sign : ℚ) * (num.natAbs : ℚ) := by
  have h : num.sign * (num.natAbs : Int) = num := Int.sign_mul_natAbs num
  calc (num : ℚ) = ((num.sign * (num.natAbs : Int) : Int) : ℚ) := by rw [h]
    _ = (num.sign : ℚ) * (num.natAbs : ℚ) := by rw [Int.cast_mul, Int.cast_natCast]

/-- Rounding is exact on a quotient that has a significand below `2^53`. -/
theorem round_exact (num : Int) (den : Nat) (hden : 0 < den) (m0 : Nat) (e0 : Int)
    (hm : m0 < 2 ^ 53) (hq : (num.natAbs : ℚ) = m0 * 2 ^ e0 * den) :
    (Float64.round num den).toRat = num / den := by
  have hdq : (0 : ℚ) < den := by exact_mod_cast hden
  unfold Float64.round
  simp only
  by_cases hn : num.natAbs = 0
  · rw [if_pos hn]
    have : num = 0 := Int.natAbs_eq_zero.mp hn
    subst this
    simp [Float64.toRat]
  rw [if_neg hn]
  have hnpos : 0 < num.natAbs := Nat.pos_of_ne_zero hn
  set n := num.natAbs with hndef
  set e := Float64.exponent n den with hedef
  obtain ⟨h1, _⟩ := exponent_spec n den hnpos hden
  rw [← hedef] at h1
  -- the exponent does not exceed e0
  have hle : e ≤ e0 := by
    by_contra hcon
    push_neg at hcon
    have h2 : (2 : ℚ) ^ (e + 52) ≤ m0 * 2 ^ e0 := by
      have : (2 : ℚ) ^ (e + 52) * den ≤ m0 * 2 ^ e0 * den := by rw [← hq]; exact h1
      exact le_of_mul_le_mul_right this hdq
    have h3 : (m0 : ℚ) * 2 ^ e0 < 2 ^ 53 * 2 ^ e0 := by
      apply mul_lt_mul_of_pos_right _ (by positivity)
      exact_mod_cast hm
    have h4 : (2 : ℚ) ^ 53 * 2 ^ e0 = 2 ^ (e0 + 53) := by
      rw [zpow_add₀ (by norm_num : (2 : ℚ) ≠ 0)]; norm_num; ring
    have h5 : (2 : ℚ) ^ (e + 52) < 2 ^ (e0 + 53) := by
      rw [← h4]; exact lt_of_le_of_lt h2 h3
    have h6 := (zpow_lt_zpow_iff_right₀ (by norm_num : (1 : ℚ) < 2)).mp h5
    omega
  obtain ⟨k, hk⟩ : ∃ k : Nat, e0 - e = k := ⟨(e0 - e).toNat, by omega⟩
  obtain ⟨s, hs, hA, hB⟩ := scaled_pair n den e
  have hAB : n * 2 ^ (-e).toNat = (m0 * 2 ^ k) * (den * 2 ^ e.toNat) := by
    have : ((n * 2 ^ (-e).toNat : Nat) : ℚ) = (((m0 * 2 ^ k) * (den * 2 ^ e.toNat) : Nat) : ℚ) := by
      rw [hA, Nat.cast_mul (m0 * 2 ^ k), hB, hq]
      have he0 : e0 = e + k := by omega
      rw [he0, zpow_add₀ (by norm_num : (2 : ℚ) ≠ 0), zpow_natCast]
      push_cast
      ring
    exact_mod_cast this
  have hBpos : 0 < den * 2 ^ e.toNat := Nat.mul_pos hden (by positivity)
  rw [hAB, roundHalfEven_mul _ _ hBpos]
  unfold Float64.toRat
  simp only
  rw [natAbs_cast_rat num, ← hndef, hq]
  have he0 : e0 = e + k := by omega
  rw [he0, zpow_add₀ (by norm_num : (2 : ℚ) ≠ 0), zpow_natCast]
  push_cast
  field_simp
  ring

theorem toRat_ofInt (i : Int) (h : i.natAbs < 2 ^ 53) : (Float64.ofInt i).toRat = i := by
  unfold Float64.ofInt
  rw [round_exact i 1 one_pos i.natAbs 0 h (by simp)]
  simp

/-- The quotient `add` rounds is the exact sum. -/
theorem add_quotient (x y : Float64) :
    (((x.m * 2 ^ (x.e - min x.e y.e).toNat + y.m * 2 ^ (y.e - min x.e y.e).toNat) *
        2 ^ (min x.e y.e).toNat : Int) : ℚ) / ((2 ^ (-(min x.e y.e)).toNat : Nat) : ℚ) =
      x.toRat + y.toRat := by
  set e0 := min x.e y.e with he0
  have hx : e0 ≤ x.e := min_le_left _ _
  have hy : e0 ≤ y.e := min_le_right _ _
  obtain ⟨a, ha⟩ : ∃ a : Nat, x.e - e0 = a := ⟨(x.e - e0).toNat, by omega⟩
  obtain ⟨b, hb⟩ : ∃ b : Nat, y.e - e0 = b := ⟨(y.e - e0).toNat, by omega⟩
  have hxe : x.e = e0 + a := by omega
  have hye : y.e = e0 + b := by omega
  have h2 : (2 : ℚ) ≠ 0 := by norm_num
  have hscale : (((2 : Int) ^ e0.toNat : Int) : ℚ) / ((2 ^ (-e0).toNat : Nat) : ℚ) = 2 ^ e0 := by
    rcases le_or_lt 0 e0 with h | h
    · obtain ⟨k, hk⟩ := Int.eq_ofNat_of_zero_le h
      rw [hk]
      have h0 : (-(k : Int)).toNat = 0 := by omega
      rw [h0, Int.toNat_ofNat, zpow_natCast]
      simp
    · obtain ⟨k, hk⟩ : ∃ k : Nat, e0 = -(k : Int) := ⟨(-e0).toNat, by omega⟩
      rw [hk]
      have h0 : (-(k : Int)).toNat = 0 := by omega
      have h1 : (- -(k : Int)).toNat = k := by omega
      rw [h0, h1, zpow_neg, zpow_natCast]
      simp
  unfold Float64.toRat
  rw [ha, hb, Int.toNat_ofNat, Int.toNat_ofNat, Int.cast_mul, mul_div_assoc, hscale, hxe, hye,
    zpow_add₀ h2, zpow_add₀ h2, zpow_natCast, zpow_natCast]
  push_cast
  ring

/-- Addition is exact when the sum has a significand below `2^53`. -/
theorem add_exact (x y : Float64) (m0 : Nat) (e0 : Int) (hm : m0 < 2 ^ 53)
    (hq : |x.toRat + y.toRat| = m0 * 2 ^ e0) :
    (Float64.add x y).toRat = x.toRat + y.toRat := by
  have hD : 0 < 2 ^ (-(min x.e y.e)).toNat := by positivity
  have hDq : (0 : ℚ) < ((2 ^ (-(min x.e y.e)).toNat : Nat) : ℚ) := by exact_mod_cast hD
  have hquot := add_quotient x y
  unfold Float64.add
  simp only
  rw [round_exact _ _ hD m0 e0 hm, hquot]
  rw [Nat.cast_natAbs, Int.cast_abs, ← hq, ← hquot, abs_div, abs_of_pos hDq]
  field_simp

theorem lt_iff (x y : Float64) : Float64.lt x y = true ↔ x.toRat < y.toRat := by
  set e0 := min x.e y.e with he0
  have hx : e0 ≤ x.e := min_le_left _ _
  have hy : e0 ≤ y.e := min_le_right _ _
  obtain ⟨a, ha⟩ : ∃ a : Nat, x.e - e0 = a := ⟨(x.e - e0).toNat, by omega⟩
  obtain ⟨b, hb⟩ : ∃ b : Nat, y.e - e0 = b := ⟨(y.e - e0).toNat, by omega⟩
  have hxe : x.e = e0 + a := by omega
  have hye : y.e = e0 + b := by omega
  have h2 : (2 : ℚ) ≠ 0 := by norm_num
  have hp : (0 : ℚ) < 2 ^ e0 := by positivity
  unfold Float64.lt Float64.toRat
  simp only [decide_eq_true_eq]
  rw [← he0, ha, hb, Int.toNat_ofNat, Int.toNat_ofNat, hxe, hye, zpow_add₀ h2, zpow_add₀ h2,
    zpow_natCast, zpow_natCast]
  have e1 : (x.m : ℚ) * (2 ^ e0 * 2 ^ a) = ((x.m * 2 ^ a : Int) : ℚ) * 2 ^ e0 := by
    push_cast; ring
  have e2 : (y.m : ℚ) * (2 ^ e0 * 2 ^ b) = ((y.m * 2 ^ b : Int) : ℚ) * 2 ^ e0 := by
    push_cast; ring
  rw [e1, e2, mul_lt_mul_right hp, Int.cast_lt]

/-- Truncation does not fall below an integer bound of the value. -/
theorem le_toInt (x : Float64) (k : Int) (hk : 0 ≤ k) (h : (k : ℚ) ≤ x.toRat) :
    k ≤ Float64.toInt x := by
  unfold Float64.toRat at h
  unfold Float64.toInt
  split_ifs with he
  · obtain ⟨a, ha⟩ := Int.eq_ofNat_of_zero_le he
    rw [ha, Int.toNat_ofNat]
    rw [ha, zpow_natCast] at h
    exact_mod_cast h
  · push_neg at he
    obtain ⟨a, ha⟩ : ∃ a : Nat, x.e = -(a : Int) := ⟨(-x.e).toNat, by omega⟩
    have h1 : (- -(a : Int)).toNat = a := by omega
    rw [ha, h1]
    rw [ha, zpow_neg, zpow_natCast] at h
    have hp : (0 : ℚ) < 2 ^ a := by positivity
    have h3 : (k : ℚ) * 2 ^ a ≤ x.m := by
      have := mul_le_mul_of_nonneg_right h hp.le
      rwa [mul_assoc, inv_mul_cancel₀ hp.ne', mul_one] at this
    have h4 : k * 2 ^ a ≤ x.m := by exact_mod_cast h3
    have hpz : (0 : Int) < 2 ^ a := by positivity
    have hm : 0 ≤ x.m := le_trans (mul_nonneg hk hpz.le) h4
    rw [Int.tdiv_eq_ediv hm hpz.le]
    exact (Int.le_ediv_iff_mul_le hpz).mpr h4

/-- Truncation of an integer value is that integer. -/
theorem toInt_of_toRat (x : Float64) (k : Int) (h : x.toRat = k) : Float64.toInt x = k := by
  unfold Float64.toRat at h
  unfold Float64.toInt
  split_ifs with he
  · obtain ⟨a, ha⟩ := Int.eq_ofNat_of_zero_le he
    rw [ha, Int.toNat_ofNat]
    rw [ha, zpow_natCast] at h
    exact_mod_cast h
  · push_neg at he
    obtain ⟨a, ha⟩ : ∃ a : Nat, x.e = -(a : Int) := ⟨(-x.e).toNat, by omega⟩
    have h1 : (- -(a : Int)).toNat = a := by omega
    rw [ha, h1]
    rw [ha, zpow_neg, zpow_natCast] at h
    have hp : (2 : ℚ) ^ a ≠ 0 := by positivity
    have h3 : (x.m : ℚ) = k * 2 ^ a := by
      field_simp at h
      exact h
    have h4 : x.m = k * 2 ^ a := by exact_mod_cast h3
    rw [h4]
    exact Int.mul_tdiv_cancel _ (by positivity)

/-- The provider ttl is never below 600. -/
theorem durationToIntSeconds_ge (d : Int) : 600 ≤ durationToIntSeconds d := by
  unfold durationToIntSeconds
  simp only
  split_ifs with h
  · exact le_rfl
  · have h600 : (Float64.ofInt 600).toRat = (600 : Int) := toRat_ofInt 600 (by decide)
    have h1 : ¬ (Seconds d).toRat < (Float64.ofInt 600).toRat := fun hlt => h ((lt_iff _ _).mpr hlt)
    rw [h600] at h1
    push_neg at h1
    exact le_toInt _ 600 (by norm_num) h1

/-- On a ttl of a whole number of seconds the conversion is exact: the seconds, or 600 when
they are fewer. -/
theorem durationToIntSeconds_whole (s : Nat) (hs : s < 2 ^ 53) :
    durationToIntSeconds ((s : Int) * Second) = max (s : Int) 600 := by
  have hsec : Int.tdiv ((s : Int) * Second) Second = s :=
    Int.mul_tdiv_cancel _ (by decide)
  have hnsec : Int.tmod ((s : Int) * Second) Second = 0 := Int.mul_tmod_left _ _
  have hzero : Float64.div (Float64.ofInt 0) (Float64.ofInt 1000000000) = ⟨0, 0⟩ := by
    have h0 : Float64.ofInt 0 = ⟨0, 0⟩ := by decide
    rw [h0]
    simp [Float64.div, Float64.round]
  have hs1 : (Float64.ofInt (s : Int)).toRat = (s : Int) := toRat_ofInt _ (by simpa using hs)
  have hval : (Seconds ((s : Int) * Second)).toRat = ((s : Int) : ℚ) := by
    unfold Seconds
    simp only [hsec, hnsec, hzero]
    have hz : (⟨0, 0⟩ : Float64).toRat = 0 := by simp [Float64.toRat]
    rw [add_exact _ _ s 0 hs (by rw [hs1, hz]; simp), hs1, hz, add_zero]
  have h600 : (Float64.ofInt 600).toRat = (600 : Int) := toRat_ofInt 600 (by decide)
  unfold durationToIntSeconds
  simp only
  split_ifs with h
  · rw [lt_iff, hval, h600] at h
    have : (s : Int) < 600 := by exact_mod_cast h
    omega
  · have h1 : ¬ (Seconds ((s : Int) * Second)).toRat < (Float64.ofInt 600).toRat :=
      fun hlt => h ((lt_iff _ _).mpr hlt)
    rw [hval, h600] at h1
    have : ¬ (s : Int) < 600 := fun hc => h1 (by exact_mod_cast hc)
    rw [toInt_of_toRat _ _ hval]
    omega

/-- The value of a rounded quotient, by the rounded significand. -/
theorem toRat_round (num : Int) (den : Nat) (hn : num.natAbs ≠ 0) :
    (Float64.round num den).toRat =
      (num.sign : ℚ) * (roundHalfEven (num.natAbs * 2 ^ (-(Float64.exponent num.natAbs den)).toNat)
        (den * 2 ^ (Float64.exponent num.natAbs den).toNat) : Nat) *
        2 ^ (Float64.exponent num.natAbs den) := by
  unfold Float64.round
  simp only
  rw [if_neg hn]
  unfold Float64.toRat
  push_cast
  ring

/-- Rounding does not cross a binary fraction `Z / 2^j` with `Z < 2^53` from below. -/
theorem round_le (num : Int) (den : Nat) (hden : 0 < den) (Z j : Nat) (hZ : Z < 2 ^ 53)
    (hq : (num : ℚ) ≤ Z / 2 ^ j * den) :
    (Float64.round num den).toRat ≤ Z / 2 ^ j := by
  have hdq : (0 : ℚ) < den := by exact_mod_cast hden
  have h2 : (2 : ℚ) ≠ 0 := by norm_num
  have hbound : (0 : ℚ) ≤ Z / 2 ^ j := by positivity
  rcases lt_or_le 0 num with hpos | hneg
  · have hn : num.natAbs ≠ 0 := by omega
    have hnpos : 0 < num.natAbs := Nat.pos_of_ne_zero hn
    rw [toRat_round num den hn]
    set n := num.natAbs with hndef
    set e := Float64.exponent n den with hedef
    have hsign : num.sign = 1 := Int.sign_eq_one_of_pos hpos
    have hnum : (num : ℚ) = n := by
      rw [natAbs_cast_rat num, hsign]; simp [hndef]
    obtain ⟨h1, _⟩ := exponent_spec n den hnpos hden
    rw [← hedef] at h1
    rw [hnum] at hq
    have hle : e ≤ -(j : Int) := by
      by_contra hcon
      push_neg at hcon
      have h3 : (2 : ℚ) ^ (e + 52) ≤ Z / 2 ^ j :=
        le_of_mul_le_mul_right (le_trans h1 hq) hdq
      have h4 : (Z : ℚ) / 2 ^ j < 2 ^ ((53 : Int) - j) := by
        rw [zpow_sub₀ h2, zpow_natCast]
        apply div_lt_div_of_pos_right _ (by positivity)
        exact_mod_cast hZ
      have h5 := (zpow_lt_zpow_iff_right₀ (by norm_num : (1 : ℚ) < 2)).mp (lt_of_le_of_lt h3 h4)
      omega
    obtain ⟨k, hk⟩ : ∃ k : Nat, -(j : Int) - e = k := ⟨(-(j : Int) - e).toNat, by omega⟩
    have hje : e = -(j : Int) - k := by omega
    obtain ⟨s, hs, hA, hB⟩ := scaled_pair n den e
    have hpe : (2 : ℚ) ^ e = 1 / (2 ^ j * 2 ^ k) := by
      rw [hje, zpow_sub₀ h2, zpow_neg, zpow_natCast, zpow_natCast]
      field_simp
    have hAB : n * 2 ^ (-e).toNat ≤ (Z * 2 ^ k) * (den * 2 ^ e.toNat) := by
      have : ((n * 2 ^ (-e).toNat : Nat) : ℚ) ≤ (((Z * 2 ^ k) * (den * 2 ^ e.toNat) : Nat) : ℚ) := by
        rw [hA, Nat.cast_mul (Z * 2 ^ k), hB, hpe]
        have h6 : (n : ℚ) * s ≤ Z / 2 ^ j * den * s := mul_le_mul_of_nonneg_right hq hs.le
        have h7 : (((Z * 2 ^ k : Nat) : ℚ)) * (den * (1 / (2 ^ j * 2 ^ k)) * s) =
            Z / 2 ^ j * den * s := by
          push_cast
          field_simp
          ring
        rw [h7]
        exact h6
      exact_mod_cast this
    have hr := roundHalfEven_le _ _ _ hAB
    have hrq : ((roundHalfEven (n * 2 ^ (-e).toNat) (den * 2 ^ e.toNat) : Nat) : ℚ) ≤
        ((Z * 2 ^ k : Nat) : ℚ) := by exact_mod_cast hr
    rw [hsign, hpe]
    have hpp : (0 : ℚ) < 2 ^ j * 2 ^ k := by positivity
    calc ((1 : Int) : ℚ) * _ * (1 / (2 ^ j * 2 ^ k))
        ≤ ((1 : Int) : ℚ) * ((Z * 2 ^ k : Nat) : ℚ) * (1 / (2 ^ j * 2 ^ k)) := by
          apply mul_le_mul_of_nonneg_right _ (by positivity)
          simpa using hrq
      _ = Z / 2 ^ j := by
          push_cast
          field_simp
          ring
  · by_cases hn : num.natAbs = 0
    · have : num = 0 := Int.natAbs_eq_zero.mp hn
      subst this
      simpa [Float64.round, Float64.toRat] using hbound
    · rw [toRat_round num den hn]
      have hsign : num.sign = -1 := Int.sign_eq_neg_one_of_neg (by omega)
      rw [hsign]
      have : (0 : ℚ) ≤ (roundHalfEven (num.natAbs * 2 ^ (-(Float64.exponent num.natAbs den)).toNat)
        (den * 2 ^ (Float64.exponent num.natAbs den).toNat) : Nat) *
        2 ^ (Float64.exponent num.natAbs den) := by positivity
      push_cast
      linarith

/-- The quotient `div` rounds is the exact quotient, for a positive divisor. -/
theorem div_quotient (x y : Float64) (hy : 0 < y.m) :
    ((x.m * y.m.sign * 2 ^ (x.e - y.e).toNat : Int) : ℚ) =
      x.toRat / y.toRat * ((y.m.natAbs * 2 ^ (y.e - x.e).toNat : Nat) : ℚ) := by
  have h2 : (2 : ℚ) ≠ 0 := by norm_num
  have hsign : y.m.sign = 1 := Int.sign_eq_one_of_pos hy
  have hym : ((y.m.natAbs : Nat) : ℚ) = y.m := by
    rw [natAbs_cast_rat y.m, hsign]; simp
  have hyq : (0 : ℚ) < y.m := by exact_mod_cast hy
  unfold Float64.toRat
  rw [hsign]
  push_cast
  rw [hym]
  have hpy : (0 : ℚ) < 2 ^ y.e := by positivity
  rcases le_or_lt y.e x.e with h | h
  · obtain ⟨a, ha⟩ : ∃ a : Nat, x.e - y.e = a := ⟨(x.e - y.e).toNat, by omega⟩
    have h0 : (y.e - x.e).toNat = 0 := by omega
    have hxe : x.e = y.e + a := by omega
    rw [ha, h0, Int.toNat_ofNat, hxe, zpow_add₀ h2, zpow_natCast]
    field_simp
    ring
  · obtain ⟨a, ha⟩ : ∃ a : Nat, y.e - x.e = a := ⟨(y.e - x.e).toNat, by omega⟩
    have h0 : (x.e - y.e).toNat = 0 := by omega
    have hye : y.e = x.e + a := by omega
    have hpx : (0 : ℚ) < 2 ^ x.e := by positivity
    rw [ha, h0, Int.toNat_ofNat, hye, zpow_add₀ h2, zpow_natCast]
    field_simp
    ring

/-- Division does not cross a binary fraction `Z / 2^j` with `Z < 2^53` from below. -/
theorem div_le (x y : Float64) (hy : 0 < y.m) (Z j : Nat) (hZ : Z < 2 ^ 53)
    (h : x.toRat / y.toRat ≤ Z / 2 ^ j) : (Float64.div x y).toRat ≤ Z / 2 ^ j := by
  have hden : 0 < y.m.natAbs * 2 ^ (y.e - x.e).toNat :=
    Nat.mul_pos (by omega) (by positivity)
  unfold Float64.div
  apply round_le _ _ hden Z j hZ
  rw [div_quotient x y hy]
  exact mul_le_mul_of_nonneg_right h (by positivity)

/-- Addition does not cross a binary fraction `Z / 2^j` with `Z < 2^53` from below. -/
theorem add_le (x y : Float64) (Z j : Nat) (hZ : Z < 2 ^ 53)
    (h : x.toRat + y.toRat ≤ Z / 2 ^ j) : (Float64.add x y).toRat ≤ Z / 2 ^ j := by
  have hD : 0 < 2 ^ (-(min x.e y.e)).toNat := by positivity
  have hDq : (0 : ℚ) < ((2 ^ (-(min x.e y.e)).toNat : Nat) : ℚ) := by exact_mod_cast hD
  have hquot := add_quotient x y
  unfold Float64.add
  simp only
  apply round_le _ _ hD Z j hZ
  rw [← hquot, div_le_iff₀ hDq] at h
  exact h

/-- Truncation stays at or below `k` for a value below `k + 1`. -/
theorem toInt_le (x : Float64) (k : Int) (hk : 0 ≤ k) (h : x.toRat < k + 1) :
    Float64.toInt x ≤ k := by
  unfold Float64.toRat at h
  unfold Float64.toInt
  split_ifs with he
  · obtain ⟨a, ha⟩ := Int.eq_ofNat_of_zero_le he
    rw [ha, Int.toNat_ofNat]
    rw [ha, zpow_natCast] at h
    have : x.m * 2 ^ a < k + 1 := by exact_mod_cast h
    omega
  · push_neg at he
    obtain ⟨a, ha⟩ : ∃ a : Nat, x.e = -(a : Int) := ⟨(-x.e).toNat, by omega⟩
    have h1 : (- -(a : Int)).toNat = a := by omega
    rw [ha, h1]
    rw [ha, zpow_neg, zpow_natCast] at h
    have hp : (0 : ℚ) < 2 ^ a := by positivity
    have hpz : (0 : Int) < 2 ^ a := by positivity
    have h3 : (x.m : ℚ) < (k + 1) * 2 ^ a := by
      have := mul_lt_mul_of_pos_right h hp
      rwa [mul_assoc, inv_mul_cancel₀ hp.ne', mul_one] at this
    have h4 : x.m < (k + 1) * 2 ^ a := by exact_mod_cast h3
    rcases le_or_lt 0 x.m with hm | hm
    · rw [Int.tdiv_eq_ediv hm hpz.le]
      have := Int.ediv_lt_of_lt_mul hpz h4
      omega
    · have h5 : x.m.tdiv (2 ^ a) = -((-x.m).tdiv (2 ^ a)) := by
        rw [Int.neg_tdiv, neg_neg]
      have h6 : 0 ≤ (-x.m).tdiv (2 ^ a) := Int.tdiv_nonneg (by omega) hpz.le
      omega

theorem toRat_ofInt_billion : (Float64.ofInt 1000000000).toRat = 1000000000 := by
  have := toRat_ofInt 1000000000 (by decide)
  simpa using this

theorem ofInt_billion_pos : 0 < (Float64.ofInt 1000000000).m := by decide

/-- A duration that is not positive has no positive number of seconds. -/
theorem Seconds_toRat_nonpos (d : Int) (hd : d ≤ 0) : (Seconds d).toRat ≤ 0 := by
  have hB := toRat_ofInt_billion
  have hBpos := ofInt_billion_pos
  have hp : (0 : Int) < Second := by decide
  have hsec : Int.tdiv d Second = -((-d) / 1000000000) := by
    have h5 : d.tdiv Second = -((-d).tdiv Second) := by rw [Int.neg_tdiv, neg_neg]
    rw [h5, Int.tdiv_eq_ediv (by omega) hp.le]
    rfl
  have hnsec : Int.tmod d Second = -((-d) % 1000000000) := by
    have h6 := Int.tmod_add_tdiv d Second
    rw [hsec] at h6
    have h7 : Second = 1000000000 := rfl
    rw [h7] at h6 ⊢
    omega
  unfold Seconds
  simp only
  rw [hsec, hnsec]
  have hs2 : (Float64.ofInt (-(-d % 1000000000))).toRat = ((-(-d % 1000000000) : Int) : ℚ) :=
    toRat_ofInt _ (by omega)
  have hfrac : (Float64.div (Float64.ofInt (-(-d % 1000000000)))
      (Float64.ofInt 1000000000)).toRat ≤ (0 : Nat) / 2 ^ 0 := by
    apply div_le _ _ hBpos 0 0 (by norm_num)
    rw [hs2, hB, div_le_iff₀ (by norm_num)]
    have : -(-d % 1000000000) ≤ 0 := by omega
    have h' : ((-(-d % 1000000000) : Int) : ℚ) ≤ ((0 : Int) : ℚ) := by
      exact_mod_cast this
    simpa using h'
  have hsecneg : (Float64.ofInt (-(-d / 1000000000))).toRat ≤ (0 : Nat) / 2 ^ 0 := by
    unfold Float64.ofInt
    apply round_le _ _ one_pos 0 0 (by norm_num)
    have : -(-d / 1000000000) ≤ 0 := by omega
    have h' : ((-(-d / 1000000000) : Int) : ℚ) ≤ ((0 : Int) : ℚ) := by
      exact_mod_cast this
    simpa using h'
  have hsum := add_le (Float64.ofInt (-(-d / 1000000000)))
    (Float64.div (Float64.ofInt (-(-d % 1000000000))) (Float64.ofInt 1000000000))
    0 0 (by norm_num) (by
      norm_num at hfrac hsecneg ⊢
      linarith)
  norm_num at hsum ⊢
  linarith

/-- A duration that is not positive is clamped to 600 seconds. -/
theorem durationToIntSeconds_nonpos (d : Int) (hd : d ≤ 0) : durationToIntSeconds d = 600 := by
  have h600 : (Float64.ofInt 600).toRat = (600 : Int) := toRat_ofInt 600 (by decide)
  have hlt : Float64.lt (Seconds d) (Float64.ofInt 600) = true := by
    rw [lt_iff, h600]
    have := Seconds_toRat_nonpos d hd
    have h' : ((600 : Int) : ℚ) = 600 := by norm_num
    rw [h']
    linarith
  unfold durationToIntSeconds
  simp only
  rw [if_pos hlt]

/-- The provider ttl of a 64-bit duration times `10^9` fits 64 bits. -/
theorem durationToIntSeconds_le (d : Int) (hd : d < 2 ^ 63) :
    durationToIntSeconds d ≤ 9223372036 := by
  rcases le_or_lt d 0 with hneg | hpos
  · rw [durationToIntSeconds_nonpos d hneg]
    norm_num
  have hB := toRat_ofInt_billion
  have hBpos := ofInt_billion_pos
  have hnn : 0 ≤ d := hpos.le
  have hval : (Seconds d).toRat < 9223372036 + 1 := by
    unfold Seconds
    simp only
    have hp : (0 : Int) < Second := by decide
    have hsec : Int.tdiv d Second = d / 1000000000 := Int.tdiv_eq_ediv hnn hp.le
    have hnsec : Int.tmod d Second = d % 1000000000 := Int.tmod_eq_emod hnn hp.le
    rw [hsec, hnsec]
    have hs1 : (Float64.ofInt (d / 1000000000)).toRat = ((d / 1000000000 : Int) : ℚ) :=
      toRat_ofInt _ (by omega)
    have hs2 : (Float64.ofInt (d % 1000000000)).toRat = ((d % 1000000000 : Int) : ℚ) :=
      toRat_ofInt _ (by omega)
    rcases le_or_lt (d / 1000000000) 9223372035 with hsmall | hbig
    · have hfrac : (Float64.div (Float64.ofInt (d % 1000000000))
          (Float64.ofInt 1000000000)).toRat ≤ (1 : Nat) / 2 ^ 0 := by
        apply div_le _ _ hBpos 1 0 (by norm_num)
        rw [hs2, hB, div_le_iff₀ (by norm_num)]
        have : d % 1000000000 ≤ 1000000000 := by omega
        have h' : ((d % 1000000000 : Int) : ℚ) ≤ ((1000000000 : Int) : ℚ) := by
          exact_mod_cast this
        simpa using h'
      have hsum := add_le (Float64.ofInt (d / 1000000000))
        (Float64.div (Float64.ofInt (d % 1000000000)) (Float64.ofInt 1000000000))
        9223372036 0 (by norm_num) (by
          rw [hs1]
          have h' : ((d / 1000000000 : Int) : ℚ) ≤ ((9223372035 : Int) : ℚ) := by
            exact_mod_cast hsmall
          have h'' : ((9223372035 : Int) : ℚ) = 9223372035 := by norm_num
          rw [h''] at h'
          norm_num at hfrac ⊢
          linarith)
      norm_num at hsum ⊢
      linarith
    · have hsec9 : d / 1000000000 = 9223372036 := by omega
      have hfrac : (Float64.div (Float64.ofInt (d % 1000000000))
          (Float64.ofInt 1000000000)).toRat ≤ (7 : Nat) / 2 ^ 3 := by
        apply div_le _ _ hBpos 7 3 (by norm_num)
        rw [hs2, hB, div_le_iff₀ (by norm_num)]
        have : d % 1000000000 ≤ 875000000 := by omega
        have h' : ((d % 1000000000 : Int) : ℚ) ≤ ((875000000 : Int) : ℚ) := by
          exact_mod_cast this
        norm_num at h' ⊢
        exact h'
      have hsum := add_le (Float64.ofInt (d / 1000000000))
        (Float64.div (Float64.ofInt (d % 1000000000)) (Float64.ofInt 1000000000))
        73786976295 3 (by norm_num) (by
          rw [hs1, hsec9]
          norm_num at hfrac ⊢
          linarith)
      norm_num at hsum ⊢
      linarith
  unfold durationToIntSeconds
  simp only
  split_ifs with h
  · norm_num
  · exact toInt_le _ 9223372036 (by norm_num) (by exact_mod_cast hval)

theorem wrapInt64_of_inInt64 (x : Int) (h : inInt64 x) : wrapInt64 x = x := by
  unfold inInt64 at h
  unfold wrapInt64
  omega

/-- The canonical ttl a provider ttl made by `durationToIntSeconds` converts back to. -/
theorem ttl_back (d : Int) (hd : d < 2 ^ 63) :
    wrapInt64 (durationToIntSeconds d * 1000000000) = durationToIntSeconds d * 1000000000 ∧
      600 * Second ≤ durationToIntSeconds d * 1000000000 := by
  have h1 := durationToIntSeconds_ge d
  have h2 := durationToIntSeconds_le d hd
  have hS : Second = 1000000000 := rfl
  refine ⟨wrapInt64_of_inInt64 _ ?_, by rw [hS]; omega⟩
  unfold inInt64
  omega

/-- On a whole number of seconds the round trip of the ttl is the ttl clamped up to 600
seconds. -/
theorem ttl_whole (s : Int) (hd : s * Second < 2 ^ 63) :
    durationToIntSeconds (s * Second) * 1000000000 = max (s * Second) (600 * Second) := by
  have hS : Second = 1000000000 := rfl
  rcases le_or_lt s 0 with hs | hs
  · rw [durationToIntSeconds_nonpos _ (by rw [hS]; omega), hS]
    omega
  · obtain ⟨k, rfl⟩ := Int.eq_ofNat_of_zero_le hs.le
    have hk : k < 2 ^ 53 := by
      rw [hS] at hd
      have : (k : Int) < 2 ^ 53 := by omega
      exact_mod_cast this
    rw [durationToIntSeconds_whole k hk, hS]
    omega

/-- What the round trip of a supported record is, field by field. -/
theorem roundtrip_fields (r : Record) (zone now : String) (ht : r.Type_ ∈ supportedTypes) :
    ∃ h, LibdnsRecordToHosttechRecordWrapper r now = .ok h ∧
      h.toLibdnsRecord zone =
        { ID := "0"
          Type_ := r.Type_
          Name := RelativeName (if r.Type_ = "TXT" then RemoveTrailingDot r.Name else r.Name) zone
          Value := r.Value
          TTL := wrapInt64 (durationToIntSeconds r.TTL * 1000000000)
          Priority := if r.Type_ = "MX" then r.Priority else 0 } := by
  have hI : Itoa 0 = "0" := by decide
  unfold LibdnsRecordToHosttechRecordWrapper
  unfold supportedTypes at ht
  by_cases h1 : r.Type_ = "AAAA"
  · simp [h1, HosttechRecord.fromLibdnsRecord, AAAARecord.fromLibdnsRecord,
      HosttechRecord.toLibdnsRecord, AAAARecord.toLibdnsRecord, hI]
  by_cases h2 : r.Type_ = "A"
  · simp [h2, HosttechRecord.fromLibdnsRecord, ARecord.fromLibdnsRecord,
      HosttechRecord.toLibdnsRecord, ARecord.toLibdnsRecord, hI]
  by_cases h3 : r.Type_ = "NS"
  · simp [h3, HosttechRecord.fromLibdnsRecord, NSRecord.fromLibdnsRecord,
      HosttechRecord.toLibdnsRecord, NSRecord.toLibdnsRecord, hI]
  by_cases h4 : r.Type_ = "CNAME"
  · simp [h4, HosttechRecord.fromLibdnsRecord, CNAMERecord.fromLibdnsRecord,
      HosttechRecord.toLibdnsRecord, CNAMERecord.toLibdnsRecord, hI]
  by_cases h5 : r.Type_ = "MX"
  · simp [h5, HosttechRecord.fromLibdnsRecord, MXRecord.fromLibdnsRecord,
      HosttechRecord.toLibdnsRecord, MXRecord.toLibdnsRecord, hI]
  by_cases h6 : r.Type_ = "TXT"
  · simp [h6, HosttechRecord.fromLibdnsRecord, TXTRecord.fromLibdnsRecord,
      HosttechRecord.toLibdnsRecord, TXTRecord.toLibdnsRecord, hI]
  by_cases h7 : r.Type_ = "TLSA"
  · simp [h7, HosttechRecord.fromLibdnsRecord, TLSARecord.fromLibdnsRecord,
      HosttechRecord.toLibdnsRecord, TLSARecord.toLibdnsRecord, hI]
  simp [h1, h2, h3, h4, h5, h6, h7] at ht

theorem RemoveTrailingDot_eq_self (s : String) (h : HasSuffix s "." = false) :
    RemoveTrailingDot s = s :=
  TrimSuffix_of_not_HasSuffix s "." h

/-- C1 (amended): for every canonical record `r` of one of the seven types (its ttl a 64-bit
duration) and every zone, the round trip through `LibdnsRecordToHosttechRecordWrapper` and
`toLibdnsRecord` keeps the value; the name comes back relative to the zone (for TXT after a
trailing dot was removed), which is `r`'s name whenever that name has no trailing dot and
does not end with the zone name; the priority comes back for MX and is 0 for the six other
types; the ttl comes back as the whole seconds computed by `durationToIntSeconds`, at least
600 seconds, and is `r`'s ttl clamped up to 600 seconds whenever `r`'s ttl is a whole number
of seconds. -/
theorem C1_roundtrip_amended (r : Record) (zone now : String)
    (ht : r.Type_ ∈ ["A", "AAAA", "CNAME", "NS", "MX", "TXT", "TLSA"])
    (httl : inInt64 r.TTL) :
    ∃ h, LibdnsRecordToHosttechRecordWrapper r now = .ok h ∧
      (h.toLibdnsRecord zone).Value = r.Value ∧
      (h.toLibdnsRecord zone).Name =
        RelativeName (if r.Type_ = "TXT" then RemoveTrailingDot r.Name else r.Name) zone ∧
      (HasSuffix r.Name "." = false →
        (TrimSuffix zone "." = "" ∨ HasSuffix r.Name (TrimSuffix zone ".") = false) →
        (h.toLibdnsRecord zone).Name = r.Name) ∧
      (h.toLibdnsRecord zone).Priority = (if r.Type_ = "MX" then r.Priority else 0) ∧
      (h.toLibdnsRecord zone).TTL = durationToIntSeconds r.TTL * 1000000000 ∧
      600 * Second ≤ (h.toLibdnsRecord zone).TTL ∧
      (∀ s : Int, r.TTL = s * Second →
        (h.toLibdnsRecord zone).TTL = max r.TTL (600 * Second)) := by
  have hmem : r.Type_ ∈ supportedTypes := by
    simp only [supportedTypes, List.mem_cons, List.mem_singleton, List.not_mem_nil, or_false]
      at ht ⊢
    tauto
  obtain ⟨h, hok, hrt⟩ := roundtrip_fields r zone now hmem
  obtain ⟨hw, hge⟩ := ttl_back r.TTL httl.2
  refine ⟨h, hok, ?_, ?_, ?_, ?_, ?_, ?_, ?_⟩
  · rw [hrt]
  · rw [hrt]
  · intro hdot hzone
    rw [hrt]
    have hname : (if r.Type_ = "TXT" then RemoveTrailingDot r.Name else r.Name) = r.Name := by
      split_ifs
      · exact RemoveTrailingDot_eq_self _ hdot
      · rfl
    simp only [hname]
    exact RelativeName_eq_self _ _ hdot hzone
  · rw [hrt]
  · rw [hrt]; exact hw
  · rw [hrt]; simp only [hw]; exact hge
  · intro s hs
    rw [hrt]
    simp only [hw]
    have hlt : s * Second < 2 ^ 63 := by rw [← hs]; exact httl.2
    rw [hs]
    exact ttl_whole s hlt

/-- C1 (amended) at the MX record "mail" of zone "example.com": value, name and priority
come back, the ttl of 100 seconds comes back as 600 seconds. -/
theorem C1_roundtrip_amended_witness :
    ∃ h, LibdnsRecordToHosttechRecordWrapper
        { ID := "7", Type_ := "MX", Name := "mail", Value := "mx.example.net",
          TTL := 100 * Second, Priority := 10 } "Jan  2 15:04:05" = .ok h ∧
      (h.toLibdnsRecord "example.com").Value = "mx.example.net" ∧
      (h.toLibdnsRecord "example.com").Name = "mail" ∧
      (h.toLibdnsRecord "example.com").Priority = 10 ∧
      (h.toLibdnsRecord "example.com").TTL = 600 * Second := by
  obtain ⟨h, hok, hv, _, hn, hp, _, _, hs⟩ :=
    C1_roundtrip_amended
      { ID := "7", Type_ := "MX", Name := "mail", Value := "mx.example.net",
        TTL := 100 * Second, Priority := 10 } "example.com" "Jan  2 15:04:05"
      (by decide) (by decide)
  refine ⟨h, hok, hv, hn (by decide) (Or.inr (by decide)), ?_, ?_⟩
  · simpa using hp
  · have := hs 100 rfl
    rw [this]
    decide

/-! ## Decoding -/

theorem store_of_no_key {α : Type} (conv : JSON → Option α) (field : String) :
    ∀ (members : List (String × JSON)) (old : α),
      (∀ kv ∈ members, foldName kv.1 ≠ field) → store conv members field old = old := by
  intro members
  induction members with
  | nil => intro old _; rfl
  | cons kv rest ih =>
    intro old h
    have h1 : foldName kv.1 ≠ field := h kv (List.mem_cons_self _ _)
    unfold store
    rw [List.foldl_cons, if_neg h1]
    exact ih old (fun kv' hkv' => h kv' (List.mem_cons_of_mem _ hkv'))

/-- With keys that differ after folding, a field holds the value of its one member. -/
theorem store_of_mem {α : Type} (conv : JSON → Option α) (field : String) (k : String)
    (v : JSON) (x : α) (hk : foldName k = field) (hv : conv v = some x) :
    ∀ (members : List (String × JSON)) (old : α),
      (members.map (fun kv => foldName kv.1)).Nodup → (k, v) ∈ members →
        store conv members field old = x := by
  intro members
  induction members with
  | nil => intro old _ hmem; cases hmem
  | cons kv rest ih =>
    intro old hnd hmem
    rw [List.map_cons, List.nodup_cons] at hnd
    obtain ⟨hnot, hnd'⟩ := hnd
    unfold store
    rw [List.foldl_cons]
    rcases List.mem_cons.mp hmem with heq | hin
    · subst heq
      simp only [hk, if_true, hv, Option.getD_some]
      apply store_of_no_key conv field rest x
      intro kv' hkv' hfold
      apply hnot
      rw [hk, ← hfold]
      exact List.mem_map_of_mem (fun kv => foldName kv.1) hkv'
    · exact ih _ hnd' hin

theorem lookup_mem {β : Type} (key : String) (k : β) :
    ∀ F : List (String × β), F.lookup key = some k → (key, k) ∈ F := by
  intro F
  induction F with
  | nil => intro h; simp [List.lookup] at h
  | cons p rest ih =>
    intro h
    obtain ⟨a, b⟩ := p
    by_cases hab : key = a
    · subst hab
      simp [List.lookup] at h
      subst h
      exact List.mem_cons_self _ _
    · have hne : (key == a) = false := by simpa using hab
      rw [List.lookup, hne] at h
      exact List.mem_cons_of_mem _ (ih h)

/-- Decoding a well-formed record raises no type error, whatever struct of the package it is
decoded into. -/
theorem typeError_none (F : List (String × FieldKind)) (members : List (String × JSON))
    (hF : ∀ p ∈ F, p ∈ recordFields) (hwf : WellFormedRecord members) :
    typeError F members = none := by
  unfold typeError
  rw [Option.map_eq_none', List.find?_eq_none]
  intro kv hkv
  cases hl : F.lookup (foldName kv.1) with
  | none => simp
  | some k =>
    have h1 := hF _ (lookup_mem _ _ F hl)
    have h2 := (hwf.2 kv hkv (foldName kv.1, k) h1 rfl).2
    simp [h2]

theorem fits_asString (v : JSON) (hn : v.isNull = false) (h : v.fits .string = true) :
    ∃ s, v.asString = some s := by
  cases v <;> simp_all [JSON.fits, JSON.asString, JSON.isNull]

theorem fits_asInt (v : JSON) (hn : v.isNull = false) (h : v.fits .int = true) :
    ∃ i, v.asInt = some i := by
  cases v <;> simp_all [JSON.fits, JSON.isNull, Option.isSome_iff_exists]

theorem fits_asUint (v : JSON) (hn : v.isNull = false) (h : v.fits .uint = true) :
    ∃ n, v.asUint = some n := by
  cases v <;> simp_all [JSON.fits, JSON.isNull, Option.isSome_iff_exists]

/-- A string field of a well-formed record holds the value of its member. -/
theorem store_string (members : List (String × JSON)) (hwf : WellFormedRecord members)
    (key : String) (hfold : foldName key = key) (hkey : (key, FieldKind.string) ∈ recordFields)
    (old : String) (v : JSON) (hmem : (key, v) ∈ members) :
    v.asString = some (store JSON.asString members key old) := by
  obtain ⟨hn, hf⟩ := hwf.2 (key, v) hmem (key, .string) hkey hfold.symm
  obtain ⟨s, hs⟩ := fits_asString v hn hf
  rw [hs, store_of_mem JSON.asString key key v s hfold hs members old hwf.1 hmem]

/-- An `int` field of a well-formed record holds the value of its member. -/
theorem store_int (members : List (String × JSON)) (hwf : WellFormedRecord members)
    (key : String) (hfold : foldName key = key) (hkey : (key, FieldKind.int) ∈ recordFields)
    (old : Int) (v : JSON) (hmem : (key, v) ∈ members) :
    v.asInt = some (store JSON.asInt members key old) := by
  obtain ⟨hn, hf⟩ := hwf.2 (key, v) hmem (key, .int) hkey hfold.symm
  obtain ⟨s, hs⟩ := fits_asInt v hn hf
  rw [hs, store_of_mem JSON.asInt key key v s hfold hs members old hwf.1 hmem]

/-- A `uint` field of a well-formed record holds the value of its member. -/
theorem store_uint (members : List (String × JSON)) (hwf : WellFormedRecord members)
    (key : String) (hfold : foldName key = key) (hkey : (key, FieldKind.uint) ∈ recordFields)
    (old : Nat) (v : JSON) (hmem : (key, v) ∈ members) :
    v.asUint = some (store JSON.asUint members key old) := by
  obtain ⟨hn, hf⟩ := hwf.2 (key, v) hmem (key, .uint) hkey hfold.symm
  obtain ⟨s, hs⟩ := fits_asUint v hn hf
  rw [hs, store_of_mem JSON.asUint key key v s hfold hs members old hwf.1 hmem]

theorem Base_Unmarshal_wellFormed (members : List (String × JSON))
    (hwf : WellFormedRecord members) :
    Base.Unmarshal (some (.obj members)) {} = (Base.fill members {}, none) := by
  unfold Base.Unmarshal unmarshalStruct
  simp only
  rw [typeError_none Base.fields members (by decide) hwf]

theorem Base_fill_type (members : List (String × JSON)) (hwf : WellFormedRecord members)
    (t : String) (htype : ("type", JSON.str t) ∈ members) (b : Base) :
    (Base.fill members b).Type_ = t := by
  have h := store_string members hwf "type" (by decide) (by decide) b.Type_ _ htype
  simp only [JSON.asString, Option.some.injEq] at h
  exact h.symm


theorem Base_fill_holds (members : List (String × JSON)) (hwf : WellFormedRecord members)
    (b : Base) :
    (∀ v, ("id", v) ∈ members → v.asInt = some (Base.fill members b).Id) ∧
    (∀ v, ("type", v) ∈ members → v.asString = some (Base.fill members b).Type_) ∧
    (∀ v, ("ttl", v) ∈ members → v.asInt = some (Base.fill members b).TTL) ∧
    (∀ v, ("comment", v) ∈ members → v.asString = some (Base.fill members b).Comment) :=
  ⟨fun v hv => store_int members hwf "id" (by decide) (by decide) _ v hv,
   fun v hv => store_string members hwf "type" (by decide) (by decide) _ v hv,
   fun v hv => store_int members hwf "ttl" (by decide) (by decide) _ v hv,
   fun v hv => store_string members hwf "comment" (by decide) (by decide) _ v hv⟩

/-- C9: for every well-formed record JSON object whose "type" is one of A, AAAA, CNAME, NS,
MX, TXT, TLSA, `HosttechRecordWrapper.UnmarshalJSON` succeeds and the wrapper holds the
variant named by the type, whose shared fields (id, type, ttl, comment) and own fields have
the values of the same-named JSON keys. -/
theorem C9_unmarshal_supported (h0 : HosttechRecordWrapper) (members : List (String × JSON))
    (t : String) (hwf : WellFormedRecord members) (htype : ("type", JSON.str t) ∈ members)
    (ht : t ∈ ["A", "AAAA", "CNAME", "NS", "MX", "TXT", "TLSA"]) :
    ∃ h, h0.UnmarshalJSON (some (.obj members)) = ({ value := some h }, none) ∧
      h.variant = t ∧ h.holds members := by
  have hb := Base_fill_holds members hwf {}
  have hname := fun old v hv => store_string members hwf "name" (by decide) (by decide) old v hv
  unfold HosttechRecordWrapper.UnmarshalJSON
  rw [Base_Unmarshal_wellFormed members hwf]
  simp only [Base_fill_type members hwf t htype]
  simp only [List.mem_cons, List.mem_singleton, List.not_mem_nil, or_false] at ht
  rcases ht with rfl | rfl | rfl | rfl | rfl | rfl | rfl
  · refine ⟨.ofA (ARecord.Unmarshal (some (.obj members)) {}).1, ?_, rfl, ?_⟩
    · simp [ARecord.Unmarshal, unmarshalStruct, typeError_none ARecord.fields members (by decide) hwf]
    · exact ⟨hb.1, hb.2.1, hb.2.2.1, hb.2.2.2, hname _,
        fun v hv => store_string members hwf "ipv4" (by decide) (by decide) _ v hv⟩
  · refine ⟨.ofAAAA (AAAARecord.Unmarshal (some (.obj members)) {}).1, ?_, rfl, ?_⟩
    · simp [AAAARecord.Unmarshal, unmarshalStruct, typeError_none AAAARecord.fields members (by decide) hwf]
    · exact ⟨hb.1, hb.2.1, hb.2.2.1, hb.2.2.2, hname _,
        fun v hv => store_string members hwf "ipv6" (by decide) (by decide) _ v hv⟩
  · refine ⟨.ofCNAME (CNAMERecord.Unmarshal (some (.obj members)) {}).1, ?_, rfl, ?_⟩
    · simp [CNAMERecord.Unmarshal, unmarshalStruct, typeError_none CNAMERecord.fields members (by decide) hwf]
    · exact ⟨hb.1, hb.2.1, hb.2.2.1, hb.2.2.2, hname _,
        fun v hv => store_string members hwf "cname" (by decide) (by decide) _ v hv⟩
  · refine ⟨.ofNS (NSRecord.Unmarshal (some (.obj members)) {}).1, ?_, rfl, ?_⟩
    · simp [NSRecord.Unmarshal, unmarshalStruct, typeError_none NSRecord.fields members (by decide) hwf]
    · exact ⟨hb.1, hb.2.1, hb.2.2.1, hb.2.2.2,
        fun v hv => store_string members hwf "ownername" (by decide) (by decide) _ v hv,
        fun v hv => store_string members hwf "targetname" (by decide) (by decide) _ v hv⟩
  · refine ⟨.ofMX (MXRecord.Unmarshal (some (.obj members)) {}).1, ?_, rfl, ?_⟩
    · simp [MXRecord.Unmarshal, unmarshalStruct, typeError_none MXRecord.fields members (by decide) hwf]
    · exact ⟨hb.1, hb.2.1, hb.2.2.1, hb.2.2.2, hname _,
        fun v hv => store_string members hwf "ownername" (by decide) (by decide) _ v hv,
        fun v hv => store_uint members hwf "pref" (by decide) (by decide) _ v hv⟩
  · refine ⟨.ofTXT (TXTRecord.Unmarshal (some (.obj members)) {}).1, ?_, rfl, ?_⟩
    · simp [TXTRecord.Unmarshal, unmarshalStruct, typeError_none TXTRecord.fields members (by decide) hwf]
    · exact ⟨hb.1, hb.2.1, hb.2.2.1, hb.2.2.2, hname _,
        fun v hv => store_string members hwf "text" (by decide) (by decide) _ v hv⟩
  · refine ⟨.ofTLSA (TLSARecord.Unmarshal (some (.obj members)) {}).1, ?_, rfl, ?_⟩
    · simp [TLSARecord.Unmarshal, unmarshalStruct, typeError_none TLSARecord.fields members (by decide) hwf]
    · exact ⟨hb.1, hb.2.1, hb.2.2.1, hb.2.2.2, hname _,
        fun v hv => store_string members hwf "text" (by decide) (by decide) _ v hv⟩

/-- C9 at the A record of the package's decoding test. -/
theorem C9_unmarshal_supported_witness :
    WellFormedRecord [("id", .int false 10), ("type", .str "A"), ("name", .str "www"),
      ("ipv4", .str "1.2.3.4"), ("ttl", .int false 3600), ("comment", .str "my first record")] ∧
    ∃ h, HosttechRecordWrapper.UnmarshalJSON {}
        (some (.obj [("id", .int false 10), ("type", .str "A"), ("name", .str "www"),
          ("ipv4", .str "1.2.3.4"), ("ttl", .int false 3600),
          ("comment", .str "my first record")])) = ({ value := some h }, none) ∧
      h.variant = "A" ∧
      h.holds [("id", .int false 10), ("type", .str "A"), ("name", .str "www"),
        ("ipv4", .str "1.2.3.4"), ("ttl", .int false 3600), ("comment", .str "my first record")] :=
  ⟨by decide,
    C9_unmarshal_supported {}
      [("id", .int false 10), ("type", .str "A"), ("name", .str "www"),
        ("ipv4", .str "1.2.3.4"), ("ttl", .int false 3600), ("comment", .str "my first record")]
      "A" (by decide) (by simp) (by decide)⟩

/-! ## Provider client -/

theorem makeApiCall_of_succeeds (p : Provider) (env : Env) (log : List Request)
    (m u : String) (b : Option String) (body : Bytes)
    (h : CallSucceeds env log (p.request m u b) body) :
    p.makeApiCall env log m u b = (.returns (body, none), log ++ [p.request m u b]) := by
  obtain ⟨hreq, resp, hdo, h1, h2, hbody⟩ := h
  have hreq' : env.NewRequestOK m u = true := hreq
  have hst : ¬ (resp.StatusCode < 200 ∨ resp.StatusCode ≥ 300) := by omega
  unfold Provider.makeApiCall
  simp only [hreq', if_true, hdo, hst, if_false, hbody, Option.map_none']

theorem makeApiCall_of_failsTransport (p : Provider) (env : Env) (log : List Request)
    (m u : String) (b : Option String) (err : Error)
    (h : CallFailsTransport env log (p.request m u b) err) :
    ∃ x, p.makeApiCall env log m u b = (.returns (x, some err), log ++ [p.request m u b]) := by
  obtain ⟨hreq, hcase⟩ := h
  have hreq' : env.NewRequestOK m u = true := hreq
  unfold Provider.makeApiCall
  rcases hcase with ⟨e, hdo, rfl⟩ | ⟨resp, e, hdo, h1, h2, hbody, rfl⟩
  · exact ⟨none, by simp only [hreq', if_true, hdo]⟩
  · have hst : ¬ (resp.StatusCode < 200 ∨ resp.StatusCode ≥ 300) := by omega
    exact ⟨resp.Body.1, by simp only [hreq', if_true, hdo, hst, if_false, hbody, Option.map_some']⟩

theorem makeApiCall_of_failsApi (p : Provider) (env : Env) (log : List Request)
    (m u : String) (b : Option String) (code : Int) (err : Error)
    (h : CallFailsApi env log (p.request m u b) code err) :
    p.makeApiCall env log m u b = (.returns (none, some err), log ++ [p.request m u b]) := by
  obtain ⟨hreq, resp, hdo, hst, hcode, rfl⟩ := h
  have hreq' : env.NewRequestOK m u = true := hreq
  have hst' : resp.StatusCode < 200 ∨ resp.StatusCode ≥ 300 := by omega
  unfold Provider.makeApiCall
  simp only [hreq', if_true, hdo, hst']
  rw [hcode]

/-- One round of the loop of `AppendRecords` on a create call that succeeds. -/
theorem appendLoop_create (p : Provider) (env : Env) (zone : String) (log log1 : List Request)
    (record : Record) (w : HosttechRecord) (rest acc : List Record)
    (h : CreateSucceeds p env zone log record w log1) :
    p.appendLoop env zone (recordsURL zone) (record :: rest) acc log =
      p.appendLoop env zone (recordsURL zone) rest (acc ++ [w.toLibdnsRecord zone]) log1 := by
  obtain ⟨hr, bodyBytes, responseBody, hconv, hmar, hcall, hdec, rfl⟩ := h
  rw [Provider.appendLoop]
  simp only [hconv, hmar, makeApiCall_of_succeeds p env log _ _ _ _ hcall, hdec,
    HosttechRecordWrapper.toLibdnsRecord]

/-- The loop of `AppendRecords` over a run of create calls that succeed. -/
theorem appendLoop_creates (p : Provider) (env : Env) (zone : String)
    (pre : List Record) (log log1 : List Request) (ws : List HosttechRecord)
    (h : CreatesSucceed p env zone pre log ws log1) (rest acc : List Record) :
    p.appendLoop env zone (recordsURL zone) (pre ++ rest) acc log =
      p.appendLoop env zone (recordsURL zone) rest
        (acc ++ ws.map (fun w => w.toLibdnsRecord zone)) log1 := by
  induction h generalizing acc with
  | nil log => simp
  | cons hstep _ ih =>
    rw [List.cons_append, appendLoop_create p env zone _ _ _ _ _ _ hstep, ih]
    simp

theorem CreatesSucceed_length (p : Provider) (env : Env) (zone : String)
    (pre : List Record) (log log1 : List Request) (ws : List HosttechRecord)
    (h : CreatesSucceed p env zone pre log ws log1) :
    ws.length = pre.length ∧ log1.length = log.length + pre.length := by
  induction h with
  | nil log => simp
  | cons hstep _ ih =>
    obtain ⟨_, _, _, _, _, _, _, rfl⟩ := hstep
    simp only [List.length_cons, List.length_append, List.length_singleton,
      List.length_nil] at ih ⊢
    omega

/-- C2: if the create calls for the first `k` records (`pre`) succeed and their responses
decode (to `ws`), and the create call for the next record fails at the transport or API
layer with `err`, then `AppendRecords` returns exactly the `k` records converted from the
first `k` responses, in input order, together with `err`; the requests sent are those `k`
and the failed one, none for a later record. -/
theorem C2_append_partial (p : Provider) (env : Env) (zone : String)
    (pre : List Record) (record : Record) (post : List Record)
    (log0 log1 : List Request) (ws : List HosttechRecord)
    (hosttechRecord : HosttechRecord) (bodyBytes : String) (err : Error)
    (hpre : CreatesSucceed p env zone pre log0 ws log1)
    (hconv : LibdnsRecordToHosttechRecordWrapper record (env.Now log1) = .ok hosttechRecord)
    (hbody : env.Marshal hosttechRecord = .ok bodyBytes)
    (hfail : CallFailsTransport env log1
        (p.request "POST" (recordsURL zone) (some bodyBytes)) err ∨
      ∃ code, CallFailsApi env log1
        (p.request "POST" (recordsURL zone) (some bodyBytes)) code err) :
    p.AppendRecords env log0 zone (pre ++ record :: post) =
        (.returns (some (ws.map (fun w => w.toLibdnsRecord zone)), some err),
          log1 ++ [p.request "POST" (recordsURL zone) (some bodyBytes)]) ∧
      (ws.map (fun w => w.toLibdnsRecord zone)).length = pre.length ∧
      (log1 ++ [p.request "POST" (recordsURL zone) (some bodyBytes)]).length =
        log0.length + pre.length + 1 := by
  obtain ⟨hlen, hlog⟩ := CreatesSucceed_length p env zone pre log0 log1 ws hpre
  refine ⟨?_, by simp [hlen], by simp [hlog]⟩
  unfold Provider.AppendRecords
  rw [appendLoop_creates p env zone pre log0 log1 ws hpre, Provider.appendLoop]
  rcases hfail with ht | ⟨code, ha⟩
  · obtain ⟨x, hx⟩ := makeApiCall_of_failsTransport p env log1 _ _ _ err ht
    simp only [hconv, hbody, hx, List.nil_append]
  · simp only [hconv, hbody, makeApiCall_of_failsApi p env log1 _ _ _ code err ha,
      List.nil_append]

/-- C2 on the example of the specification: of three records the second fails at the
transport layer; the result holds the first record only, with the error, and two requests
were sent. -/
theorem C2_append_partial_witness :
    Provider.AppendRecords ⟨"token"⟩
        (scriptedEnv [okA 101 "a.example.com" "1.1.1.1", .error "timeout"]) [] "example.com"
        ([recordA "" "a" "1.1.1.1"] ++ recordA "" "b" "2.2.2.2" :: [recordA "" "c" "3.3.3.3"]) =
      (.returns (some ([providerA 101 "a.example.com" "1.1.1.1"].map
          (fun w => w.toLibdnsRecord "example.com")), some (.transport "timeout")),
        [Provider.request ⟨"token"⟩ "POST" (recordsURL "example.com") (some "A 1.1.1.1")] ++
          [Provider.request ⟨"token"⟩ "POST" (recordsURL "example.com") (some "A 2.2.2.2")]) ∧
    ([providerA 101 "a.example.com" "1.1.1.1"].map
        (fun w => w.toLibdnsRecord "example.com")).length = [recordA "" "a" "1.1.1.1"].length ∧
    ([Provider.request ⟨"token"⟩ "POST" (recordsURL "example.com") (some "A 1.1.1.1")] ++
      [Provider.request ⟨"token"⟩ "POST" (recordsURL "example.com") (some "A 2.2.2.2")]).length =
        ([] : List Request).length + [recordA "" "a" "1.1.1.1"].length + 1 :=
  C2_append_partial ⟨"token"⟩
    (scriptedEnv [okA 101 "a.example.com" "1.1.1.1", .error "timeout"]) "example.com"
    [recordA "" "a" "1.1.1.1"] (recordA "" "b" "2.2.2.2") [recordA "" "c" "3.3.3.3"]
    [] [Provider.request ⟨"token"⟩ "POST" (recordsURL "example.com") (some "A 1.1.1.1")]
    [providerA 101 "a.example.com" "1.1.1.1"]
    (.ofA { Id := 0, Type_ := "A", TTL := 3600,
            Comment := generateComment "Jan  2 15:04:05", Name := "b", IPV4 := "2.2.2.2" })
    "A 2.2.2.2" (.transport "timeout")
    (.cons ⟨_, _, _, rfl, rfl, ⟨rfl, _, rfl, by decide, by decide, rfl⟩, by decide, rfl⟩
      (.nil _))
    (by decide) (by decide)
    (Or.inl ⟨rfl, Or.inl ⟨"timeout", rfl, rfl⟩⟩)

/-- `AppendRecords` on a single record whose create call succeeds. -/
theorem AppendRecords_single (p : Provider) (env : Env) (zone : String) (log log1 : List Request)
    (record : Record) (w : HosttechRecord) (h : CreateSucceeds p env zone log record w log1) :
    p.AppendRecords env log zone [record] =
      (.returns (some [w.toLibdnsRecord zone], none), log1) := by
  unfold Provider.AppendRecords
  rw [appendLoop_create p env zone log log1 record w [] [] h, Provider.appendLoop]
  simp

/-- One round of the loop of `SetRecords` on an update call that succeeds. -/
theorem setLoop_update (p : Provider) (env : Env) (zone : String) (log log1 : List Request)
    (record : Record) (w : HosttechRecord) (rest acc : List Record)
    (h : UpdateSucceeds p env zone log record w log1) :
    p.setLoop env zone (record :: rest) acc log =
      p.setLoop env zone rest (acc ++ [w.toLibdnsRecord zone]) log1 := by
  obtain ⟨hr, bodyBytes, responseBody, hconv, hmar, hcall, hdec, rfl⟩ := h
  rw [Provider.setLoop]
  simp only [hconv, hmar, makeApiCall_of_succeeds p env log _ _ _ _ hcall, hdec,
    HosttechRecordWrapper.toLibdnsRecord]

/-- One round of the loop of `SetRecords` on an update call that fails with status 404 and a
fallback create call that succeeds. -/
theorem setLoop_create (p : Provider) (env : Env) (zone : String) (log log2 : List Request)
    (record : Record) (w : HosttechRecord) (rest acc : List Record)
    (h : UpdateMissesCreateSucceeds p env zone log record w log2) :
    p.setLoop env zone (record :: rest) acc log =
      p.setLoop env zone rest (acc ++ [w.toLibdnsRecord zone]) log2 := by
  obtain ⟨hr, bodyBytes, err, hconv, hmar, hcall, hcreate⟩ := h
  obtain ⟨s, herr⟩ : ∃ s, err.asApiError = some (s, 404) := by
    obtain ⟨_, resp, _, _, _, h5⟩ := hcall
    exact ⟨_, by rw [h5]; rfl⟩
  rw [Provider.setLoop]
  simp only [hconv, hmar, makeApiCall_of_failsApi p env log _ _ _ 404 err hcall, herr,
    AppendRecords_single p env zone _ log2 record w hcreate]
  simp

/-- The loop of `SetRecords` over records that are all updated or created. -/
theorem setLoop_sets (p : Provider) (env : Env) (zone : String)
    (pre : List Record) (log log1 : List Request) (ws : List HosttechRecord)
    (h : SetsSucceed p env zone pre log ws log1) (rest acc : List Record) :
    p.setLoop env zone (pre ++ rest) acc log =
      p.setLoop env zone rest (acc ++ ws.map (fun w => w.toLibdnsRecord zone)) log1 := by
  induction h generalizing acc with
  | nil log => simp
  | update hstep _ ih =>
    rw [List.cons_append, setLoop_update p env zone _ _ _ _ _ _ hstep, ih]
    simp
  | create hstep _ ih =>
    rw [List.cons_append, setLoop_create p env zone _ _ _ _ _ _ hstep, ih]
    simp

theorem SetsSucceed_length (p : Provider) (env : Env) (zone : String)
    (pre : List Record) (log log1 : List Request) (ws : List HosttechRecord)
    (h : SetsSucceed p env zone pre log ws log1) : ws.length = pre.length := by
  induction h with
  | nil log => rfl
  | update _ _ ih => simp [ih]
  | create _ _ ih => simp [ih]

/-- When every record given to `SetRecords` is handled by a successful update or by an update
that fails with status 404 followed by a successful fallback create, `SetRecords` returns no
error and, position by position, the canonical records converted from the responses. -/
theorem SetRecords_sets (p : Provider) (env : Env) (zone : String) (records : List Record)
    (log0 log1 : List Request) (ws : List HosttechRecord)
    (h : SetsSucceed p env zone records log0 ws log1) :
    p.SetRecords env log0 zone records =
        (.returns (some (ws.map (fun w => w.toLibdnsRecord zone)), none), log1) ∧
      (ws.map (fun w => w.toLibdnsRecord zone)).length = records.length ∧
      (ws.map (fun w => w.toLibdnsRecord zone)).map (fun r => r.ID) =
        ws.map (fun w => Itoa w.base.Id) := by
  refine ⟨?_, by simp [SetsSucceed_length p env zone records log0 log1 ws h], ?_⟩
  · unfold Provider.SetRecords
    have := setLoop_sets p env zone records log0 log1 ws h [] []
    rw [List.append_nil] at this
    rw [this, Provider.setLoop]
    simp
  · rw [List.map_map]
    apply List.map_congr_left
    intro w _
    cases w <;> rfl

/-- C5: if the records before it were all updated or created and the update call for the
next record fails with a transport error or with an API error whose status is not 404,
`SetRecords` returns the records accumulated so far with that same error; the failed update
is the last request sent: no create call for the record, nothing for a later record. -/
theorem C5_set_abort (p : Provider) (env : Env) (zone : String)
    (pre : List Record) (record : Record) (post : List Record)
    (log0 log1 : List Request) (ws : List HosttechRecord)
    (hosttechRecord : HosttechRecord) (bodyBytes : String) (err : Error)
    (hpre : SetsSucceed p env zone pre log0 ws log1)
    (hconv : LibdnsRecordToHosttechRecordWrapper record (env.Now log1) = .ok hosttechRecord)
    (hbody : env.Marshal hosttechRecord = .ok bodyBytes)
    (hfail : CallFailsTransport env log1
        (p.request "PUT" (recordURL zone record.ID) (some bodyBytes)) err ∨
      ∃ code, code ≠ 404 ∧ CallFailsApi env log1
        (p.request "PUT" (recordURL zone record.ID) (some bodyBytes)) code err) :
    p.SetRecords env log0 zone (pre ++ record :: post) =
        (.returns (some (ws.map (fun w => w.toLibdnsRecord zone)), some err),
          log1 ++ [p.request "PUT" (recordURL zone record.ID) (some bodyBytes)]) ∧
      (ws.map (fun w => w.toLibdnsRecord zone)).length = pre.length := by
  refine ⟨?_, by simp [SetsSucceed_length p env zone pre log0 log1 ws hpre]⟩
  unfold Provider.SetRecords
  rw [setLoop_sets p env zone pre log0 log1 ws hpre, Provider.setLoop]
  rcases hfail with ht | ⟨code, hcode, ha⟩
  · obtain ⟨x, hx⟩ := makeApiCall_of_failsTransport p env log1 _ _ _ err ht
    have herr : err.asApiError = none := by
      obtain ⟨_, ⟨e, _, rfl⟩ | ⟨_, e, _, _, _, _, rfl⟩⟩ := ht <;> rfl
    simp only [hconv, hbody, hx, herr, List.nil_append]
  · obtain ⟨s, herr⟩ : ∃ s, err.asApiError = some (s, code) := by
      obtain ⟨_, resp, _, _, _, h5⟩ := ha
      exact ⟨_, by rw [h5]; rfl⟩
    simp only [hconv, hbody, makeApiCall_of_failsApi p env log1 _ _ _ code err ha, herr,
      List.nil_append]
    simp [hcode]

/-- C5 on three records: the first is updated, the update of the second is answered with
500; the result holds the first record with the API error, and the failed update is the
last request. -/
theorem C5_set_abort_witness :
    Provider.SetRecords ⟨"token"⟩
        (scriptedEnv [okA 55 "a.example.com" "1.1.1.1", answer 500 "500 Internal Server Error"])
        [] "example.com"
        ([recordA "55" "a" "1.1.1.1"] ++ recordA "77" "b" "2.2.2.2" ::
          [recordA "88" "c" "3.3.3.3"]) =
      (.returns (some ([providerA 55 "a.example.com" "1.1.1.1"].map
          (fun w => w.toLibdnsRecord "example.com")),
          some (.ApiError (apiErrorMessage "500 Internal Server Error") 500)),
        [Provider.request ⟨"token"⟩ "PUT" (recordURL "example.com" "55") (some "A 1.1.1.1")] ++
         [Provider.request ⟨"token"⟩ "PUT" (recordURL "example.com" "77") (some "A 2.2.2.2")]) ∧
    ([providerA 55 "a.example.com" "1.1.1.1"].map
        (fun w => w.toLibdnsRecord "example.com")).length = [recordA "55" "a" "1.1.1.1"].length :=
  C5_set_abort ⟨"token"⟩
    (scriptedEnv [okA 55 "a.example.com" "1.1.1.1", answer 500 "500 Internal Server Error"])
    "example.com"
    [recordA "55" "a" "1.1.1.1"] (recordA "77" "b" "2.2.2.2") [recordA "88" "c" "3.3.3.3"]
    [] [Provider.request ⟨"token"⟩ "PUT" (recordURL "example.com" "55") (some "A 1.1.1.1")]
    [providerA 55 "a.example.com" "1.1.1.1"]
    (.ofA { Id := 0, Type_ := "A", TTL := 3600,
            Comment := generateComment "Jan  2 15:04:05", Name := "b", IPV4 := "2.2.2.2" })
    "A 2.2.2.2" (.ApiError (apiErrorMessage "500 Internal Server Error") 500)
    (.update
      ⟨_, _, _, rfl, rfl, ⟨rfl, _, rfl, by decide, by decide, rfl⟩, by decide, rfl⟩
      (.nil _))
    (by decide) (by decide)
    (Or.inr ⟨500, by decide, rfl, _, rfl, Or.inr (by decide), rfl, rfl⟩)

/-- One round of the loop of `DeleteRecords` on a delete call that succeeds. -/
theorem deleteLoop_ok (p : Provider) (env : Env) (zone : String) (log : List Request)
    (record : Record) (body : Bytes) (rest acc : List Record)
    (h : CallSucceeds env log (p.deleteRequest zone record) body) :
    p.deleteLoop env zone (record :: rest) acc log =
      p.deleteLoop env zone rest (acc ++ [record]) (log ++ [p.deleteRequest zone record]) := by
  rw [Provider.deleteLoop]
  have := makeApiCall_of_succeeds p env log "DELETE" (recordURL zone record.ID) none body h
  simp only [this]
  rfl

/-- The loop of `DeleteRecords` over a run of delete calls that succeed. -/
theorem deleteLoop_deletes (p : Provider) (env : Env) (zone : String)
    (pre : List Record) (log log1 : List Request)
    (h : DeletesSucceed p env zone pre log log1) (rest acc : List Record) :
    p.deleteLoop env zone (pre ++ rest) acc log =
      p.deleteLoop env zone rest (acc ++ pre) log1 := by
  induction h generalizing acc with
  | nil log => simp
  | cons hstep _ ih =>
    rw [List.cons_append, deleteLoop_ok p env zone _ _ _ _ _ hstep, ih]
    simp

/-- A delete call whose request can be built succeeds or fails. -/
theorem delete_call_cases (p : Provider) (env : Env) (zone : String) (log : List Request)
    (record : Record) (hreq : env.NewRequestOK "DELETE" (recordURL zone record.ID) = true) :
    (∃ body, CallSucceeds env log (p.deleteRequest zone record) body) ∨
      ∃ err, CallFailsTransport env log (p.deleteRequest zone record) err ∨
        ∃ code, CallFailsApi env log (p.deleteRequest zone record) code err := by
  cases hdo : env.Do log (p.deleteRequest zone record) with
  | error e => exact Or.inr ⟨.transport e, Or.inl ⟨hreq, Or.inl ⟨e, hdo, rfl⟩⟩⟩
  | ok resp =>
    by_cases hst : resp.StatusCode < 200 ∨ 300 ≤ resp.StatusCode
    · exact Or.inr ⟨_, Or.inr ⟨resp.StatusCode, hreq, resp, hdo, hst, rfl, rfl⟩⟩
    · have h1 : 200 ≤ resp.StatusCode := by omega
      have h2 : resp.StatusCode < 300 := by omega
      cases hb : resp.Body.2 with
      | some e =>
        exact Or.inr ⟨.transport e, Or.inl ⟨hreq, Or.inr ⟨resp, e, hdo, h1, h2, hb, rfl⟩⟩⟩
      | none =>
        refine Or.inl ⟨resp.Body.1, hreq, resp, hdo, h1, h2, ?_⟩
        rw [← hb]

/-- The delete calls all succeed, or there is a first one that fails. -/
theorem deletes_cases (p : Provider) (env : Env) (zone : String) :
    ∀ (records : List Record) (log : List Request),
      (∀ r ∈ records, env.NewRequestOK "DELETE" (recordURL zone r.ID) = true) →
      (∃ log1, DeletesSucceed p env zone records log log1) ∨
        ∃ pre r post log1 err, records = pre ++ r :: post ∧
          DeletesSucceed p env zone pre log log1 ∧
          (CallFailsTransport env log1 (p.deleteRequest zone r) err ∨
            ∃ code, CallFailsApi env log1 (p.deleteRequest zone r) code err) := by
  intro records
  induction records with
  | nil => intro log _; exact Or.inl ⟨log, .nil log⟩
  | cons r rest ih =>
    intro log hreq
    have hr := hreq r (List.mem_cons_self _ _)
    have hrest : ∀ r' ∈ rest, env.NewRequestOK "DELETE" (recordURL zone r'.ID) = true :=
      fun r' hr' => hreq r' (List.mem_cons_of_mem _ hr')
    rcases delete_call_cases p env zone log r hr with ⟨body, hok⟩ | ⟨err, hfail⟩
    · rcases ih (log ++ [p.deleteRequest zone r]) hrest with ⟨log1, hall⟩ |
        ⟨pre, r', post, log1, err, heq, hpre, hfail⟩
      · exact Or.inl ⟨log1, .cons hok hall⟩
      · exact Or.inr ⟨r :: pre, r', post, log1, err, by rw [heq]; rfl, .cons hok hpre, hfail⟩
    · exact Or.inr ⟨[], r, rest, log, err, rfl, .nil log, hfail⟩

/-- For every input list whose delete requests can be built, `DeleteRecords` returns the
longest prefix of the input whose delete calls all succeeded, made of the input records
themselves, in input order: either every call succeeds and the whole input is returned with
a nil error, or some call fails and the records before the first failed call are returned
with its error, the failed call being the last request sent. -/
theorem DeleteRecords_prefix (p : Provider) (env : Env) (zone : String) (records : List Record)
    (log0 : List Request)
    (hreq : ∀ r ∈ records, env.NewRequestOK "DELETE" (recordURL zone r.ID) = true) :
    (∃ log1, DeletesSucceed p env zone records log0 log1 ∧
        p.DeleteRecords env log0 zone records = (.returns (some records, none), log1)) ∨
      ∃ pre r post log1 err, records = pre ++ r :: post ∧
        DeletesSucceed p env zone pre log0 log1 ∧
        (CallFailsTransport env log1 (p.deleteRequest zone r) err ∨
          ∃ code, CallFailsApi env log1 (p.deleteRequest zone r) code err) ∧
        p.DeleteRecords env log0 zone records =
          (.returns (some pre, some err), log1 ++ [p.deleteRequest zone r]) := by
  rcases deletes_cases p env zone records log0 hreq with ⟨log1, hall⟩ |
    ⟨pre, r, post, log1, err, heq, hpre, hfail⟩
  · refine Or.inl ⟨log1, hall, ?_⟩
    unfold Provider.DeleteRecords
    have := deleteLoop_deletes p env zone records log0 log1 hall [] []
    rw [List.append_nil] at this
    rw [this, Provider.deleteLoop]
    simp
  · refine Or.inr ⟨pre, r, post, log1, err, heq, hpre, hfail, ?_⟩
    unfold Provider.DeleteRecords
    rw [heq, deleteLoop_deletes p env zone pre log0 log1 hpre, Provider.deleteLoop]
    rcases hfail with ht | ⟨code, ha⟩
    · obtain ⟨x, hx⟩ := makeApiCall_of_failsTransport p env log1 "DELETE"
        (recordURL zone r.ID) none err ht
      simp only [hx, List.nil_append]
      rfl
    · have hx := makeApiCall_of_failsApi p env log1 "DELETE" (recordURL zone r.ID) none code err ha
      simp only [hx, List.nil_append]
      rfl

/-- The example of the specification: two records whose delete calls both succeed come back
as the input sequence; the other case does not arise. -/
theorem DeleteRecords_prefix_example :
    (∀ r ∈ [recordA "55" "a" "1.1.1.1", recordA "77" "b" "2.2.2.2"],
      (scriptedEnv [answer 200 "200 OK", answer 204 "204 No Content"]).NewRequestOK "DELETE"
        (recordURL "example.com" r.ID) = true) ∧
    ((∃ log1, DeletesSucceed ⟨"token"⟩
          (scriptedEnv [answer 200 "200 OK", answer 204 "204 No Content"]) "example.com"
          [recordA "55" "a" "1.1.1.1", recordA "77" "b" "2.2.2.2"] [] log1 ∧
        Provider.DeleteRecords ⟨"token"⟩
            (scriptedEnv [answer 200 "200 OK", answer 204 "204 No Content"]) [] "example.com"
            [recordA "55" "a" "1.1.1.1", recordA "77" "b" "2.2.2.2"] =
          (.returns (some [recordA "55" "a" "1.1.1.1", recordA "77" "b" "2.2.2.2"], none),
            log1)) ∨
      ∃ pre r post log1 err,
        [recordA "55" "a" "1.1.1.1", recordA "77" "b" "2.2.2.2"] = pre ++ r :: post ∧
        DeletesSucceed ⟨"token"⟩
          (scriptedEnv [answer 200 "200 OK", answer 204 "204 No Content"]) "example.com"
          pre [] log1 ∧
        (CallFailsTransport (scriptedEnv [answer 200 "200 OK", answer 204 "204 No Content"])
            log1 (Provider.deleteRequest ⟨"token"⟩ "example.com" r) err ∨
          ∃ code, CallFailsApi (scriptedEnv [answer 200 "200 OK", answer 204 "204 No Content"])
            log1 (Provider.deleteRequest ⟨"token"⟩ "example.com" r) code err) ∧
        Provider.DeleteRecords ⟨"token"⟩
            (scriptedEnv [answer 200 "200 OK", answer 204 "204 No Content"]) [] "example.com"
            [recordA "55" "a" "1.1.1.1", recordA "77" "b" "2.2.2.2"] =
          (.returns (some pre, some err),
            log1 ++ [Provider.deleteRequest ⟨"token"⟩ "example.com" r])) :=
  ⟨fun _ _ => rfl,
    DeleteRecords_prefix ⟨"token"⟩ (scriptedEnv [answer 200 "200 OK", answer 204 "204 No Content"])
      "example.com" [recordA "55" "a" "1.1.1.1", recordA "77" "b" "2.2.2.2"] []
      (fun _ _ => rfl)⟩

/-- C3 fails on the code: after a first record was created, a second record of the
unsupported type "SRV" makes `AppendRecords` return the nil slice, and a second response
that is not JSON makes it return an empty slice; either way the record already appended is
not in the result. -/
theorem C3_append_drops_accumulator :
    CreatesSucceed ⟨"token"⟩ (scriptedEnv [okA 101 "a.example.com" "1.1.1.1"]) "example.com"
      [recordA "" "a" "1.1.1.1"] [] [providerA 101 "a.example.com" "1.1.1.1"]
      [Provider.request ⟨"token"⟩ "POST" (recordsURL "example.com") (some "A 1.1.1.1")] ∧
    Provider.AppendRecords ⟨"token"⟩ (scriptedEnv [okA 101 "a.example.com" "1.1.1.1"]) []
        "example.com"
        [recordA "" "a" "1.1.1.1",
          { ID := "", Type_ := "SRV", Name := "s", Value := "x", TTL := 3600 * Second,
            Priority := 0 }] =
      (.returns (none, some (unsupportedError "SRV")),
        [Provider.request ⟨"token"⟩ "POST" (recordsURL "example.com") (some "A 1.1.1.1")]) ∧
    Provider.AppendRecords ⟨"token"⟩
        (scriptedEnv [okA 101 "a.example.com" "1.1.1.1",
          .ok { StatusCode := 200, Status := "200 OK", Body := (none, none) }]) []
        "example.com" [recordA "" "a" "1.1.1.1", recordA "" "b" "2.2.2.2"] =
      (.returns (some [], some .jsonSyntax),
        [Provider.request ⟨"token"⟩ "POST" (recordsURL "example.com") (some "A 1.1.1.1"),
         Provider.request ⟨"token"⟩ "POST" (recordsURL "example.com") (some "A 2.2.2.2")]) :=
  ⟨.cons ⟨_, _, _, rfl, rfl, ⟨rfl, _, rfl, by decide, by decide, rfl⟩, by decide, rfl⟩ (.nil _),
    by decide, by decide⟩

/-! ## Field mappings of the codec -/

/-- C11: the MX mapping is inverted in both directions.  `MXRecord.fromLibdnsRecord` puts the
canonical name into the provider ownername, the canonical value into the provider name and
the canonical priority into pref; `MXRecord.toLibdnsRecord` makes the canonical name the
ownername relative to the zone, the canonical value the provider name and the priority
pref.  The provider record (ownername "sub.example.com", name "mail.example.com", pref 10)
becomes (name "sub", value "mail.example.com", priority 10) in zone "example.com". -/
theorem C11_mx_mapping (m : MXRecord) (record : Record) (zone now : String) :
    (∃ m1 : MXRecord, m.fromLibdnsRecord record now = .ofMX m1 ∧
      m1.OwnerName = record.Name ∧ m1.Name = record.Value ∧ m1.Pref = record.Priority) ∧
    (m.toLibdnsRecord zone).Name = RelativeName m.OwnerName zone ∧
    (m.toLibdnsRecord zone).Value = m.Name ∧
    (m.toLibdnsRecord zone).Priority = m.Pref ∧
    ((HosttechRecord.ofMX m).toLibdnsRecord zone).Name = RelativeName m.OwnerName zone ∧
    ((HosttechRecord.ofMX m).toLibdnsRecord zone).Value = m.Name ∧
    ((HosttechRecord.ofMX m).toLibdnsRecord zone).Priority = m.Pref ∧
    MXRecord.toLibdnsRecord
        { Id := 0, Type_ := "MX", TTL := 3600, Comment := "",
          Name := "mail.example.com", OwnerName := "sub.example.com", Pref := 10 }
        "example.com" =
      { ID := "0", Type_ := "MX", Name := "sub", Value := "mail.example.com",
        TTL := 3600 * Second, Priority := 10 } :=
  ⟨⟨_, rfl, rfl, rfl, rfl⟩, rfl, rfl, rfl, rfl, rfl, rfl, by decide⟩

/-- C15: for every provider record and zone, `toLibdnsRecord` sets the canonical priority to
pref when the record is an MX record and to 0 for each of the six other types A, AAAA,
CNAME, NS, TXT, TLSA. -/
theorem C15_priority (zone : String) :
    (∀ m : MXRecord, (m.toLibdnsRecord zone).Priority = m.Pref) ∧
    (∀ a : ARecord, (a.toLibdnsRecord zone).Priority = 0) ∧
    (∀ a : AAAARecord, (a.toLibdnsRecord zone).Priority = 0) ∧
    (∀ c : CNAMERecord, (c.toLibdnsRecord zone).Priority = 0) ∧
    (∀ n : NSRecord, (n.toLibdnsRecord zone).Priority = 0) ∧
    (∀ t : TXTRecord, (t.toLibdnsRecord zone).Priority = 0) ∧
    (∀ t : TLSARecord, (t.toLibdnsRecord zone).Priority = 0) ∧
    (∀ h : HosttechRecord, (h.toLibdnsRecord zone).Priority =
      match h with
      | .ofMX m => m.Pref
      | _ => 0) := by
  refine ⟨fun _ => rfl, fun _ => rfl, fun _ => rfl, fun _ => rfl, fun _ => rfl, fun _ => rfl,
    fun _ => rfl, ?_⟩
  intro h
  cases h <;> rfl

/-! ## Suffixes of strings -/

theorem HasSuffix_iff (s suffix : String) :
    HasSuffix s suffix = true ↔ ∃ t : String, s = t ++ suffix := by
  unfold HasSuffix
  rw [List.isSuffixOf_iff_suffix]
  constructor
  · rintro ⟨t, ht⟩
    exact ⟨⟨t⟩, String.ext (by rw [String.data_append]; exact ht.symm)⟩
  · rintro ⟨t, rfl⟩
    rw [String.data_append]
    exact List.suffix_append _ _

theorem TrimSuffix_append (t suffix : String) : TrimSuffix (t ++ suffix) suffix = t := by
  have h : HasSuffix (t ++ suffix) suffix = true := (HasSuffix_iff _ _).mpr ⟨t, rfl⟩
  unfold TrimSuffix
  rw [if_pos h]
  apply String.ext
  simp [String.data_append]

/-- What `strings.TrimSuffix` returns: the string without the suffix when it ends with it, the
string itself otherwise. -/
theorem TrimSuffix_spec (s suffix : String) :
    (HasSuffix s suffix = true → TrimSuffix s suffix ++ suffix = s) ∧
      (HasSuffix s suffix = false → TrimSuffix s suffix = s) := by
  constructor
  · intro h
    obtain ⟨t, rfl⟩ := (HasSuffix_iff _ _).mp h
    rw [TrimSuffix_append]
  · exact TrimSuffix_of_not_HasSuffix s suffix

theorem singleton_suffix_concat (c d : Char) (l : List Char) : [c] <:+ l ++ [d] ↔ c = d := by
  constructor
  · rintro ⟨t, ht⟩
    have := List.append_inj' ht rfl
    simpa using this.2
  · rintro rfl
    exact List.suffix_append _ _

/-- Whether a string with a non-empty tail ends with a dot is decided by the tail. -/
theorem HasSuffix_dot_append (x z : String) (hz : z ≠ "") :
    HasSuffix (x ++ z) "." = HasSuffix z "." := by
  have hzd : z.data ≠ [] := by
    intro h
    apply hz
    exact String.ext h
  obtain ⟨L, b, hL⟩ : ∃ L b, z.data = L ++ [b] := by
    rcases List.eq_nil_or_concat z.data with h | ⟨L, b, h⟩
    · exact absurd h hzd
    · exact ⟨L, b, by simpa using h⟩
  have hdot : ".".data = ['.'] := rfl
  have h1 : HasSuffix (x ++ z) "." = true ↔ HasSuffix z "." = true := by
    unfold HasSuffix
    rw [List.isSuffixOf_iff_suffix, List.isSuffixOf_iff_suffix, String.data_append, hL, hdot,
      ← List.append_assoc, singleton_suffix_concat, singleton_suffix_concat]
  cases h2 : HasSuffix z "." with
  | true => exact h1.mpr h2
  | false =>
    cases h3 : HasSuffix (x ++ z) "." with
    | true => rw [h1.mp h3] at h2; cases h2
    | false => rfl

/-- The name `sub ++ "." ++ zone` made relative to `zone` is `sub`. -/
theorem RelativeName_absolute (sub zone : String)
    (h : zone ≠ "" ∨ HasSuffix sub "." = false) :
    RelativeName (sub ++ "." ++ zone) zone = sub := by
  unfold RelativeName
  cases hz : HasSuffix zone "." with
  | true =>
    obtain ⟨z1, rfl⟩ := (HasSuffix_iff _ _).mp hz
    rw [TrimSuffix_append z1 ".", ← String.append_assoc, TrimSuffix_append,
      TrimSuffix_append, TrimSuffix_append]
  | false =>
    rw [TrimSuffix_of_not_HasSuffix zone "." hz]
    by_cases hzone : zone = ""
    · subst hzone
      have hsub : HasSuffix sub "." = false := by
        rcases h with h | h
        · exact absurd rfl h
        · exact h
      rw [String.append_empty, TrimSuffix_append, TrimSuffix_empty,
        TrimSuffix_of_not_HasSuffix sub "." hsub]
    · have hnd : HasSuffix (sub ++ "." ++ zone) "." = false := by
        rw [HasSuffix_dot_append _ _ hzone]; exact hz
      rw [TrimSuffix_of_not_HasSuffix _ "." hnd, TrimSuffix_append, TrimSuffix_append]

theorem toLibdnsRecord_name (h : HosttechRecord) (zone : String) :
    (h.toLibdnsRecord zone).Name = RelativeName h.nameField zone := by
  cases h <;> rfl

/-- C12: for each of the seven record types and every zone, a provider record whose name
field (ownername for NS and MX) is the absolute name `sub ++ "." ++ zone` under the zone
is converted by `toLibdnsRecord` to the canonical name `sub`: the name field with the zone
suffix and the separating dot removed.  (For the empty zone the relative part must not end
with a dot itself.) -/
theorem C12_relative_name (h : HosttechRecord) (sub zone : String)
    (hname : h.nameField = sub ++ "." ++ zone)
    (hz : zone ≠ "" ∨ HasSuffix sub "." = false) :
    (h.toLibdnsRecord zone).Name = sub := by
  rw [toLibdnsRecord_name, hname]
  exact RelativeName_absolute sub zone hz

/-- C12 on the NS record of the package's conversion test: ownername "sub.example.com" in
zone "example.com" gives the name "sub". -/
theorem C12_relative_name_witness :
    (HosttechRecord.ofNS
        { Id := 12, Type_ := "NS", TTL := 1800, Comment := "Some comment",
          OwnerName := "sub.example.com", TargetName := "ns1.example.com" }).nameField =
      "sub" ++ "." ++ "example.com" ∧
    ((HosttechRecord.ofNS
        { Id := 12, Type_ := "NS", TTL := 1800, Comment := "Some comment",
          OwnerName := "sub.example.com", TargetName := "ns1.example.com" }).toLibdnsRecord
      "example.com").Name = "sub" :=
  ⟨by decide,
    C12_relative_name
      (.ofNS { Id := 12, Type_ := "NS", TTL := 1800, Comment := "Some comment",
               OwnerName := "sub.example.com", TargetName := "ns1.example.com" })
      "sub" "example.com" (by decide) (Or.inl (by decide))⟩

/-- What `RemoveTrailingDot` returns on a string that ends with a dot and on one that does
not. -/
theorem RemoveTrailingDot_cases (s : String) :
    (∀ t : String, s = t ++ "." → RemoveTrailingDot s = t) ∧
      ((∀ t : String, s ≠ t ++ ".") → RemoveTrailingDot s = s) := by
  constructor
  · rintro t rfl
    exact TrimSuffix_append t "."
  · intro h
    apply RemoveTrailingDot_eq_self
    cases hs : HasSuffix s "." with
    | false => rfl
    | true =>
      obtain ⟨t, ht⟩ := (HasSuffix_iff _ _).mp hs
      exact absurd ht (h t)

/-- C20: for every string `s`, `RemoveTrailingDot s` is `s` without its final character when
`s` ends with "." (only that one dot is removed), and `s` itself when `s` does not end
with "."; "test.com." gives "test.com" and "test.de" gives "test.de". -/
theorem C20_RemoveTrailingDot (s : String) :
    (∀ t : String, s = t ++ "." → RemoveTrailingDot s = t) ∧
    ((∀ t : String, s ≠ t ++ ".") → RemoveTrailingDot s = s) ∧
    (RemoveTrailingDot s = s ∨ RemoveTrailingDot s ++ "." = s) ∧
    RemoveTrailingDot "test.com." = "test.com" ∧
    RemoveTrailingDot "test.de" = "test.de" ∧
    RemoveTrailingDot "test.com.." = "test.com." := by
  refine ⟨(RemoveTrailingDot_cases s).1, (RemoveTrailingDot_cases s).2, ?_, by decide,
    by decide, by decide⟩
  · cases hs : HasSuffix s "." with
    | false => exact Or.inl (RemoveTrailingDot_eq_self s hs)
    | true => exact Or.inr ((TrimSuffix_spec s ".").1 hs)

/-- C16: `TXTRecord.fromLibdnsRecord` sets the provider name to the canonical name with a
single trailing "." stripped when present ("sub.example.com." becomes "sub.example.com"),
whereas `fromLibdnsRecord` of the six other types copies the canonical name into the
provider name field (ownername for NS and MX) unchanged, trailing dot included. -/
theorem C16_txt_strips_dot (record : Record) (now : String) :
    (∀ t : TXTRecord, ∃ t1 : TXTRecord, t.fromLibdnsRecord record now = .ofTXT t1 ∧
      t1.Name = RemoveTrailingDot record.Name ∧
      (∀ n : String, record.Name = n ++ "." → t1.Name = n) ∧
      ((∀ n : String, record.Name ≠ n ++ ".") → t1.Name = record.Name)) ∧
    (∀ a : ARecord, ∃ a1 : ARecord, a.fromLibdnsRecord record now = .ofA a1 ∧
      a1.Name = record.Name) ∧
    (∀ a : AAAARecord, ∃ a1 : AAAARecord, a.fromLibdnsRecord record now = .ofAAAA a1 ∧
      a1.Name = record.Name) ∧
    (∀ c : CNAMERecord, ∃ c1 : CNAMERecord, c.fromLibdnsRecord record now = .ofCNAME c1 ∧
      c1.Name = record.Name) ∧
    (∀ n : NSRecord, ∃ n1 : NSRecord, n.fromLibdnsRecord record now = .ofNS n1 ∧
      n1.OwnerName = record.Name) ∧
    (∀ m : MXRecord, ∃ m1 : MXRecord, m.fromLibdnsRecord record now = .ofMX m1 ∧
      m1.OwnerName = record.Name) ∧
    (∀ t : TLSARecord, ∃ t1 : TLSARecord, t.fromLibdnsRecord record now = .ofTLSA t1 ∧
      t1.Name = record.Name) ∧
    (TXTRecord.fromLibdnsRecord {}
        { ID := "", Type_ := "TXT", Name := "sub.example.com.", Value := "v", TTL := 0,
          Priority := 0 } now).nameField = "sub.example.com" ∧
    (TLSARecord.fromLibdnsRecord {}
        { ID := "", Type_ := "TLSA", Name := "sub.example.com.", Value := "v", TTL := 0,
          Priority := 0 } now).nameField = "sub.example.com." := by
  refine ⟨fun t => ⟨_, rfl, rfl, ?_, ?_⟩, fun _ => ⟨_, rfl, rfl⟩, fun _ => ⟨_, rfl, rfl⟩,
    fun _ => ⟨_, rfl, rfl⟩, fun _ => ⟨_, rfl, rfl⟩, fun _ => ⟨_, rfl, rfl⟩,
    fun _ => ⟨_, rfl, rfl⟩, ?_, rfl⟩
  · intro n hn
    exact (RemoveTrailingDot_cases record.Name).1 n hn
  · intro hn
    exact (RemoveTrailingDot_cases record.Name).2 hn
  · show RemoveTrailingDot "sub.example.com." = "sub.example.com"
    decide

/-! ## binary64 rounding from below -/

/-- Rounding does not cross a binary fraction `Z / 2^j` with `Z < 2^53` from above. -/
theorem round_ge (num : Int) (den : Nat) (hden : 0 < den) (Z j : Nat) (hZ : Z < 2 ^ 53)
    (hq : (Z : ℚ) / 2 ^ j * den ≤ num) :
    (Z : ℚ) / 2 ^ j ≤ (Float64.round num den).toRat := by
  have hdq : (0 : ℚ) < den := by exact_mod_cast hden
  have h2 : (2 : ℚ) ≠ 0 := by norm_num
  have hnum0 : (0 : ℚ) ≤ num := le_trans (by positivity) hq
  have hnum0' : 0 ≤ num := by exact_mod_cast hnum0
  by_cases hn : num.natAbs = 0
  · have hz : num = 0 := Int.natAbs_eq_zero.mp hn
    subst hz
    have hZq : (Z : ℚ) / 2 ^ j * den ≤ 0 := by simpa using hq
    have hZ0 : (Z : ℚ) / 2 ^ j ≤ 0 := by
      by_contra hcon
      push_neg at hcon
      have := mul_pos hcon hdq
      linarith
    simpa [Float64.round, Float64.toRat] using hZ0
  have hpos : 0 < num := by omega
  have hnpos : 0 < num.natAbs := Nat.pos_of_ne_zero hn
  rw [toRat_round num den hn]
  set n := num.natAbs with hndef
  set e := Float64.exponent n den with hedef
  have hsign : num.sign = 1 := Int.sign_eq_one_of_pos hpos
  have hnum : (num : ℚ) = n := by
    rw [natAbs_cast_rat num, hsign]; simp [hndef]
  obtain ⟨h1, _⟩ := exponent_spec n den hnpos hden
  rw [← hedef] at h1
  rw [hnum] at hq
  obtain ⟨s, hs, hA, hB⟩ := scaled_pair n den e
  have hpe : (0 : ℚ) < 2 ^ e := by positivity
  rw [hsign]
  rcases le_or_lt e (-(j : Int)) with hle | hgt
  · obtain ⟨k, hk⟩ : ∃ k : Nat, -(j : Int) - e = k := ⟨(-(j : Int) - e).toNat, by omega⟩
    have hje : e = -(j : Int) - k := by omega
    have hpe' : (2 : ℚ) ^ e = 1 / (2 ^ j * 2 ^ k) := by
      rw [hje, zpow_sub₀ h2, zpow_neg, zpow_natCast, zpow_natCast]
      field_simp
    have hAB : (Z * 2 ^ k) * (den * 2 ^ e.toNat) ≤ n * 2 ^ (-e).toNat := by
      have : (((Z * 2 ^ k) * (den * 2 ^ e.toNat) : Nat) : ℚ) ≤ ((n * 2 ^ (-e).toNat : Nat) : ℚ) := by
        rw [hA, Nat.cast_mul (Z * 2 ^ k), hB, hpe']
        have h6 : (Z : ℚ) / 2 ^ j * den * s ≤ n * s := mul_le_mul_of_nonneg_right hq hs.le
        have h7 : (((Z * 2 ^ k : Nat) : ℚ)) * (den * (1 / (2 ^ j * 2 ^ k)) * s) =
            Z / 2 ^ j * den * s := by
          push_cast
          field_simp
          ring
        rw [h7]
        exact h6
      exact_mod_cast this
    have hBpos : 0 < den * 2 ^ e.toNat := Nat.mul_pos hden (by positivity)
    have hr := le_roundHalfEven _ _ _ hBpos hAB
    have hrq : ((Z * 2 ^ k : Nat) : ℚ) ≤
        ((roundHalfEven (n * 2 ^ (-e).toNat) (den * 2 ^ e.toNat) : Nat) : ℚ) := by
      exact_mod_cast hr
    rw [hpe']
    calc (Z : ℚ) / 2 ^ j = ((1 : Int) : ℚ) * ((Z * 2 ^ k : Nat) : ℚ) * (1 / (2 ^ j * 2 ^ k)) := by
          push_cast
          field_simp
          ring
      _ ≤ ((1 : Int) : ℚ) * _ * (1 / (2 ^ j * 2 ^ k)) := by
          apply mul_le_mul_of_nonneg_right _ (by positivity)
          simpa using hrq
  · have hAB : 2 ^ 52 * (den * 2 ^ e.toNat) ≤ n * 2 ^ (-e).toNat := by
      have : (((2 ^ 52 * (den * 2 ^ e.toNat) : Nat) : ℚ)) ≤ ((n * 2 ^ (-e).toNat : Nat) : ℚ) := by
        rw [hA, Nat.cast_mul (2 ^ 52), hB]
        have h6 : (2 : ℚ) ^ (e + 52) * den * s ≤ n * s := mul_le_mul_of_nonneg_right h1 hs.le
        have h7 : ((2 ^ 52 : Nat) : ℚ) * (den * 2 ^ e * s) = 2 ^ (e + 52) * den * s := by
          rw [zpow_add₀ h2]
          push_cast
          norm_num
          ring
        rw [h7]
        exact h6
      exact_mod_cast this
    have hBpos : 0 < den * 2 ^ e.toNat := Nat.mul_pos hden (by positivity)
    have hr := le_roundHalfEven _ _ _ hBpos hAB
    have hrq : ((2 ^ 52 : Nat) : ℚ) ≤
        ((roundHalfEven (n * 2 ^ (-e).toNat) (den * 2 ^ e.toNat) : Nat) : ℚ) := by
      exact_mod_cast hr
    have hej : (2 : ℚ) ^ (1 - (j : Int)) ≤ 2 ^ e :=
      zpow_le_zpow_right₀ (by norm_num) (by omega)
    have hZq : (Z : ℚ) < 2 ^ 53 := by exact_mod_cast hZ
    have hpj : (0 : ℚ) < 2 ^ j := by positivity
    calc (Z : ℚ) / 2 ^ j ≤ 2 ^ 53 / 2 ^ j := by
          apply div_le_div_of_nonneg_right hZq.le hpj.le
      _ = ((2 ^ 52 : Nat) : ℚ) * 2 ^ (1 - (j : Int)) := by
          rw [zpow_sub₀ h2, zpow_natCast]
          push_cast
          norm_num
          ring
      _ ≤ ((2 ^ 52 : Nat) : ℚ) * 2 ^ e := by
          apply mul_le_mul_of_nonneg_left hej (by positivity)
      _ ≤ ((1 : Int) : ℚ) * _ * 2 ^ e := by
          apply mul_le_mul_of_nonneg_right _ hpe.le
          simpa using hrq

/-- Division does not cross a binary fraction `Z / 2^j` with `Z < 2^53` from above. -/
theorem div_ge (x y : Float64) (hy : 0 < y.m) (Z j : Nat) (hZ : Z < 2 ^ 53)
    (h : (Z : ℚ) / 2 ^ j ≤ x.toRat / y.toRat) : (Z : ℚ) / 2 ^ j ≤ (Float64.div x y).toRat := by
  have hden : 0 < y.m.natAbs * 2 ^ (y.e - x.e).toNat :=
    Nat.mul_pos (by omega) (by positivity)
  unfold Float64.div
  apply round_ge _ _ hden Z j hZ
  rw [div_quotient x y hy]
  exact mul_le_mul_of_nonneg_right h (by positivity)

/-- Addition does not cross a binary fraction `Z / 2^j` with `Z < 2^53` from above. -/
theorem add_ge (x y : Float64) (Z j : Nat) (hZ : Z < 2 ^ 53)
    (h : (Z : ℚ) / 2 ^ j ≤ x.toRat + y.toRat) : (Z : ℚ) / 2 ^ j ≤ (Float64.add x y).toRat := by
  have hD : 0 < 2 ^ (-(min x.e y.e)).toNat := by positivity
  have hDq : (0 : ℚ) < ((2 ^ (-(min x.e y.e)).toNat : Nat) : ℚ) := by exact_mod_cast hD
  have hquot := add_quotient x y
  unfold Float64.add
  simp only
  apply round_ge _ _ hD Z j hZ
  rw [← hquot, le_div_iff₀ hDq] at h
  exact h

/-- Below `2^23` seconds (about 97 days) the conversion is exact: the provider ttl is the
whole seconds of the duration, or 600 when they are fewer. -/
theorem durationToIntSeconds_exact (d : Int) (h0 : 0 ≤ d) (hd : d < 8388608 * Second) :
    durationToIntSeconds d = max 600 (d / 1000000000) := by
  have hS : Second = 1000000000 := rfl
  rw [hS] at hd
  have hB := toRat_ofInt_billion
  have hBpos := ofInt_billion_pos
  have hp : (0 : Int) < Second := by decide
  have hsec : Int.tdiv d Second = d / 1000000000 := Int.tdiv_eq_ediv h0 hp.le
  have hnsec : Int.tmod d Second = d % 1000000000 := Int.tmod_eq_emod h0 hp.le
  obtain ⟨sec, hsecN⟩ : ∃ sec : Nat, d / 1000000000 = sec :=
    ⟨(d / 1000000000).toNat, by omega⟩
  obtain ⟨nsec, hnsecN⟩ : ∃ nsec : Nat, d % 1000000000 = nsec :=
    ⟨(d % 1000000000).toNat, by omega⟩
  have hseclt : sec < 8388608 := by omega
  have hnseclt : nsec < 1000000000 := by omega
  have hs1 : (Float64.ofInt (sec : Int)).toRat = (sec : ℚ) := by
    have := toRat_ofInt (sec : Int) (by simp; omega)
    simpa using this
  have hs2 : (Float64.ofInt (nsec : Int)).toRat = (nsec : ℚ) := by
    have := toRat_ofInt (nsec : Int) (by simp; omega)
    simpa using this
  have hnq : (nsec : ℚ) ≤ 999999999 := by
    have : nsec ≤ 999999999 := by omega
    exact_mod_cast this
  have hsq : (sec : ℚ) + 1 ≤ 8388608 := by
    have : sec + 1 ≤ 8388608 := by omega
    exact_mod_cast this
  -- the fraction lies between 0 and 1 - 2^-30
  have hfrac_le : (Float64.div (Float64.ofInt (nsec : Int)) (Float64.ofInt 1000000000)).toRat ≤
      ((1073741823 : Nat) : ℚ) / 2 ^ 30 := by
    apply div_le _ _ hBpos 1073741823 30 (by norm_num)
    rw [hs2, hB, div_le_iff₀ (by norm_num)]
    norm_num
    linarith
  have hfrac_ge : ((0 : Nat) : ℚ) / 2 ^ 0 ≤
      (Float64.div (Float64.ofInt (nsec : Int)) (Float64.ofInt 1000000000)).toRat := by
    apply div_ge _ _ hBpos 0 0 (by norm_num)
    rw [hs2, hB]
    have hn0 : (0 : ℚ) ≤ nsec := by positivity
    have : (0 : ℚ) ≤ (nsec : ℚ) / 1000000000 := div_nonneg hn0 (by norm_num)
    simpa using this
  -- so the sum lies between sec and sec + 1 - 2^-30
  have hZ : (sec + 1) * 1073741824 - 1 < 2 ^ 53 := by
    have : (sec + 1) * 1073741824 ≤ 8388608 * 1073741824 := Nat.mul_le_mul_right _ (by omega)
    norm_num at this ⊢
    omega
  have hZcast : (((sec + 1) * 1073741824 - 1 : Nat) : ℚ) = ((sec : ℚ) + 1) * 1073741824 - 1 := by
    have h1 : 1 ≤ (sec + 1) * 1073741824 := by omega
    rw [Nat.cast_sub h1]
    push_cast
    ring
  have hval_le : (Seconds d).toRat ≤ (((sec + 1) * 1073741824 - 1 : Nat) : ℚ) / 2 ^ 30 := by
    unfold Seconds
    simp only [hsec, hnsec, hsecN, hnsecN]
    apply add_le _ _ _ 30 hZ
    rw [hs1, hZcast]
    norm_num at hfrac_le ⊢
    linarith
  have hval_ge : ((sec : Nat) : ℚ) / 2 ^ 0 ≤ (Seconds d).toRat := by
    unfold Seconds
    simp only [hsec, hnsec, hsecN, hnsecN]
    apply add_ge _ _ sec 0 (by omega)
    rw [hs1]
    norm_num at hfrac_ge ⊢
    linarith
  have hlow : ((sec : Int) : ℚ) ≤ (Seconds d).toRat := by
    norm_num at hval_ge ⊢
    exact hval_ge
  have hhigh : (Seconds d).toRat < ((sec : Int) : ℚ) + 1 := by
    rw [hZcast] at hval_le
    norm_num at hval_le ⊢
    linarith
  have htrunc : Float64.toInt (Seconds d) = sec :=
    le_antisymm (toInt_le _ sec (by omega) hhigh) (le_toInt _ sec (by omega) hlow)
  have h600 : (Float64.ofInt 600).toRat = (600 : Int) := toRat_ofInt 600 (by decide)
  rw [hsecN]
  unfold durationToIntSeconds
  simp only
  split_ifs with h
  · rw [lt_iff, h600] at h
    have h' : ((sec : Int) : ℚ) < ((600 : Int) : ℚ) := lt_of_le_of_lt hlow h
    have : (sec : Int) < 600 := by exact_mod_cast h'
    omega
  · have h1 : ¬ (Seconds d).toRat < (Float64.ofInt 600).toRat :=
      fun hlt => h ((lt_iff _ _).mpr hlt)
    rw [h600] at h1
    push_neg at h1
    have h' : ((600 : Int) : ℚ) < ((sec : Int) : ℚ) + 1 := lt_of_le_of_lt h1 hhigh
    have : (600 : Int) < sec + 1 := by exact_mod_cast h'
    rw [htrunc]
    omega

/-! ## The ttl in both directions -/

theorem toLibdnsRecord_ttl (h : HosttechRecord) (zone : String) :
    (h.toLibdnsRecord zone).TTL = wrapInt64 (h.base.TTL * 1000000000) := by
  cases h <;> rfl

/-- C14, as stated, fails: the A record with a ttl of 9223372037 seconds is converted to a
canonical ttl that is negative, since the product with `10^9` does not fit the 64 bits of
Go's `int`. -/
theorem C14_counterexample :
    (ARecord.toLibdnsRecord
        { Id := 1, Type_ := "A", TTL := 9223372037, Comment := "", Name := "a.example.com",
          IPV4 := "1.2.3.4" } "example.com").TTL = -9223372036709551616 ∧
    (-9223372036709551616 : Int) ≠ 9223372037 * 10 ^ 9 := by
  decide

/-- C14 (amended): for every provider record of each of the seven types whose ttl `t` has a
product `t * 10^9` that fits a 64-bit duration (`t` between -9223372036 and 9223372036),
`toLibdnsRecord` returns a canonical ttl of exactly `t * 10^9` nanoseconds, with no clamping
in this direction. -/
theorem C14_ttl_to_canonical (h : HosttechRecord) (zone : String)
    (hlo : -9223372036 ≤ h.base.TTL) (hhi : h.base.TTL ≤ 9223372036) :
    (h.toLibdnsRecord zone).TTL = h.base.TTL * 10 ^ 9 := by
  rw [toLibdnsRecord_ttl]
  have h9 : (10 : Int) ^ 9 = 1000000000 := by norm_num
  rw [h9]
  apply wrapInt64_of_inInt64
  unfold inInt64
  omega

/-- C14 (amended) at a TXT record with a ttl of 100 seconds, below the minimum of the other
direction: it is passed through as 100 seconds. -/
theorem C14_ttl_to_canonical_witness :
    ((HosttechRecord.ofTXT
        { Id := 1, Type_ := "TXT", TTL := 100, Comment := "", Name := "t.example.com",
          Text := "v" }).toLibdnsRecord "example.com").TTL = 100 * 10 ^ 9 :=
  C14_ttl_to_canonical
    (.ofTXT { Id := 1, Type_ := "TXT", TTL := 100, Comment := "", Name := "t.example.com",
              Text := "v" })
    "example.com" (by decide) (by decide)

set_option maxRecDepth 4096 in
/-- C13 fails on the code: a ttl of 16777216.999999999 seconds has 16777216 whole seconds,
but `durationToIntSeconds` returns 16777217, because the sum computed by
`time.Duration.Seconds` in `float64` rounds up to the next second.  A ttl of 100 seconds
gives 600, one of 1800 seconds gives 1800, no result is below 600, and below `2^23` seconds
the result is the whole seconds clamped up to 600, as the claim has it. -/
theorem C13_ttl_rounds_up :
    durationToIntSeconds (16777216 * Second + 999999999) = 16777217 ∧
    Int.tdiv (16777216 * Second + 999999999) Second = 16777216 ∧
    (16777217 : Int) ≠ max 600 (Int.tdiv (16777216 * Second + 999999999) Second) ∧
    (Seconds (16777216 * Second + 999999999)).toRat = 16777217 ∧
    durationToIntSeconds (100 * Second) = 600 ∧
    durationToIntSeconds (1800 * Second) = 1800 ∧
    (∀ d : Int, 600 ≤ durationToIntSeconds d) ∧
    (∀ d : Int, 0 ≤ d → d < 8388608 * Second →
      durationToIntSeconds d = max 600 (d / 1000000000)) := by
  refine ⟨by decide, by decide, by decide, ?_, by decide, by decide, durationToIntSeconds_ge,
    durationToIntSeconds_exact⟩
  have h : Seconds (16777216 * Second + 999999999) = ⟨4503599895805952, -28⟩ := by decide
  rw [h]
  norm_num [Float64.toRat]

/-! ## Calls, listing and unsupported types -/

/-- C17: for every zone, whenever `GetRecords` fails with `err` (the list call fails at the
transport or API layer, or its body does not decode, as with a record of an unsupported
type), it returns the empty but non-nil sequence together with `err`: no partial list. -/
theorem C17_get_records_failure (p : Provider) (env : Env) (log : List Request)
    (zone : String) (err : Error) (hfail : ListFails p env log zone err) :
    p.GetRecords env log zone = (.returns (some [], some err), log ++ [p.listRequest zone]) := by
  unfold Provider.GetRecords
  rcases hfail with ht | ⟨code, ha⟩ | ⟨body, w, hok, hdec⟩
  · obtain ⟨x, hx⟩ := makeApiCall_of_failsTransport p env log "GET" (recordsURL zone) none err ht
    simp only [hx]
    rfl
  · have hx := makeApiCall_of_failsApi p env log "GET" (recordsURL zone) none code err ha
    simp only [hx]
    rfl
  · have hx := makeApiCall_of_succeeds p env log "GET" (recordsURL zone) none body hok
    simp only [hx, hdec]
    rfl

/-- C17 on a list whose second record has the unsupported type "SRV": the decoding fails, and
the A record decoded before it is not returned. -/
theorem C17_get_records_failure_witness :
    Provider.GetRecords ⟨"token"⟩
        (scriptedEnv [okList [
          .obj [("id", .int false 1), ("type", .str "A"), ("name", .str "a.example.com"),
            ("ipv4", .str "1.1.1.1"), ("ttl", .int false 3600)],
          .obj [("id", .int false 2), ("type", .str "SRV")]]])
        [] "example.com" =
      (.returns (some [], some (unsupportedError "SRV")),
        [] ++ [Provider.listRequest ⟨"token"⟩ "example.com"]) :=
  C17_get_records_failure ⟨"token"⟩ _ [] "example.com" (unsupportedError "SRV")
    (Or.inr (Or.inr ⟨_, _, ⟨rfl, _, rfl, by decide, by decide, rfl⟩, rfl⟩))

/-- C18: for every HTTP response `makeApiCall` receives, the call returns an `ApiError`
exactly when the status code is below 200 or at least 300, and then the `ErrorCode` of the
error is the status code; for a status code in `[200, 300)` it returns the response body
(what `io.ReadAll` reads, with its read error if any). -/
theorem C18_api_error (p : Provider) (env : Env) (log : List Request)
    (httpMethod reqUrl : String) (body : Option String) (resp : Response)
    (hreq : env.NewRequestOK httpMethod reqUrl = true)
    (hdo : env.Do log (p.request httpMethod reqUrl body) = .ok resp) :
    ((∃ x s code, (p.makeApiCall env log httpMethod reqUrl body).1 =
        .returns (x, some (.ApiError s code))) ↔
      (resp.StatusCode < 200 ∨ 300 ≤ resp.StatusCode)) ∧
    (∀ x s code, (p.makeApiCall env log httpMethod reqUrl body).1 =
        .returns (x, some (.ApiError s code)) → code = resp.StatusCode) ∧
    ((200 ≤ resp.StatusCode ∧ resp.StatusCode < 300) →
      (p.makeApiCall env log httpMethod reqUrl body).1 =
        .returns (resp.Body.1, resp.Body.2.map Error.transport)) := by
  unfold Provider.makeApiCall
  simp only [hreq, if_true, hdo]
  by_cases hst : resp.StatusCode < 200 ∨ resp.StatusCode ≥ 300
  · rw [if_pos hst]
    refine ⟨⟨fun _ => by omega, fun _ => ⟨_, _, _, rfl⟩⟩, ?_, fun h => by omega⟩
    intro x s code h
    simp only [Outcome.returns.injEq, Prod.mk.injEq, Option.some.injEq,
      Error.ApiError.injEq] at h
    exact h.2.2.symm
  · rw [if_neg hst]
    have hno : ∀ x s code, Outcome.returns (resp.Body.1, Option.map Error.transport resp.Body.2) ≠
        Outcome.returns (x, some (Error.ApiError s code)) := by
      intro x s code h
      simp only [Outcome.returns.injEq, Prod.mk.injEq] at h
      cases hb : resp.Body.2 with
      | none => rw [hb] at h; simp at h
      | some e => rw [hb] at h; simp at h
    refine ⟨⟨fun ⟨x, s, code, h⟩ => absurd h (hno x s code), fun h => by omega⟩, ?_, fun _ => rfl⟩
    intro x s code h
    exact absurd h (hno x s code)

/-- C18 at a response with status 404: the call returns the `ApiError` with `ErrorCode`
404. -/
theorem C18_api_error_witness :
    ((∃ x s code, (Provider.makeApiCall ⟨"token"⟩ (scriptedEnv [answer 404 "404 Not Found"]) []
        "PUT" (recordURL "example.com" "7") (some "A 1.1.1.1")).1 =
        .returns (x, some (.ApiError s code))) ↔
      ((404 : Int) < 200 ∨ (300 : Int) ≤ 404)) ∧
    (∀ x s code, (Provider.makeApiCall ⟨"token"⟩ (scriptedEnv [answer 404 "404 Not Found"]) []
        "PUT" (recordURL "example.com" "7") (some "A 1.1.1.1")).1 =
        .returns (x, some (.ApiError s code)) → code = 404) ∧
    (((200 : Int) ≤ 404 ∧ (404 : Int) < 300) →
      (Provider.makeApiCall ⟨"token"⟩ (scriptedEnv [answer 404 "404 Not Found"]) []
        "PUT" (recordURL "example.com" "7") (some "A 1.1.1.1")).1 =
        .returns (some (.obj []), (none : Option String).map Error.transport)) :=
  C18_api_error ⟨"token"⟩ (scriptedEnv [answer 404 "404 Not Found"]) []
    "PUT" (recordURL "example.com" "7") (some "A 1.1.1.1")
    { StatusCode := 404, Status := "404 Not Found", Body := (some (.obj []), none) } rfl rfl

theorem unsupported_conversion (record : Record) (now : String)
    (ht : record.Type_ ∉ ["A", "AAAA", "CNAME", "NS", "MX", "TXT", "TLSA"]) :
    LibdnsRecordToHosttechRecordWrapper record now = .error (unsupportedError record.Type_) := by
  rcases LibdnsRecordToHosttechRecordWrapper_cases record now with ⟨_, he⟩ | ⟨hs, _⟩
  · exact he
  · exfalso
    apply ht
    simp only [supportedTypes, List.mem_cons, List.mem_singleton, List.not_mem_nil, or_false]
      at hs ⊢
    tauto

/-- C19: if the records before it were all processed (created by `AppendRecords`; updated or
created by `SetRecords`) and the next record has a type with no codec entry, both
operations fail with the unsupported-type error, and the requests sent are exactly those for
the records before it: none for the unsupported record, none for a later record. -/
theorem C19_unsupported_no_request (p : Provider) (zone : String)
    (pre : List Record) (record : Record) (post : List Record)
    (envA : Env) (logA0 logA1 : List Request) (wsA : List HosttechRecord)
    (envS : Env) (logS0 logS1 : List Request) (wsS : List HosttechRecord)
    (ht : record.Type_ ∉ ["A", "AAAA", "CNAME", "NS", "MX", "TXT", "TLSA"])
    (hA : CreatesSucceed p envA zone pre logA0 wsA logA1)
    (hS : SetsSucceed p envS zone pre logS0 wsS logS1) :
    p.AppendRecords envA logA0 zone (pre ++ record :: post) =
        (.returns (none, some (unsupportedError record.Type_)), logA1) ∧
      p.SetRecords envS logS0 zone (pre ++ record :: post) =
        (.returns (none, some (unsupportedError record.Type_)), logS1) := by
  constructor
  · unfold Provider.AppendRecords
    rw [appendLoop_creates p envA zone pre logA0 logA1 wsA hA, Provider.appendLoop]
    simp only [unsupported_conversion record _ ht]
  · unfold Provider.SetRecords
    rw [setLoop_sets p envS zone pre logS0 logS1 wsS hS, Provider.setLoop]
    simp only [unsupported_conversion record _ ht]

/-- C19 on three records of which the second has the type "SRV": after the one request for
the first record both operations stop with the unsupported-type error. -/
theorem C19_unsupported_no_request_witness :
    Provider.AppendRecords ⟨"token"⟩ (scriptedEnv [okA 101 "a.example.com" "1.1.1.1"]) []
        "example.com"
        ([recordA "55" "a" "1.1.1.1"] ++
          { ID := "", Type_ := "SRV", Name := "s", Value := "x", TTL := 3600 * Second,
            Priority := 0 } :: [recordA "88" "c" "3.3.3.3"]) =
      (.returns (none, some (unsupportedError "SRV")),
        [Provider.request ⟨"token"⟩ "POST" (recordsURL "example.com") (some "A 1.1.1.1")]) ∧
    Provider.SetRecords ⟨"token"⟩ (scriptedEnv [okA 55 "a.example.com" "1.1.1.1"]) []
        "example.com"
        ([recordA "55" "a" "1.1.1.1"] ++
          { ID := "", Type_ := "SRV", Name := "s", Value := "x", TTL := 3600 * Second,
            Priority := 0 } :: [recordA "88" "c" "3.3.3.3"]) =
      (.returns (none, some (unsupportedError "SRV")),
        [Provider.request ⟨"token"⟩ "PUT" (recordURL "example.com" "55") (some "A 1.1.1.1")]) :=
  C19_unsupported_no_request ⟨"token"⟩ "example.com" [recordA "55" "a" "1.1.1.1"]
    { ID := "", Type_ := "SRV", Name := "s", Value := "x", TTL := 3600 * Second, Priority := 0 }
    [recordA "88" "c" "3.3.3.3"]
    (scriptedEnv [okA 101 "a.example.com" "1.1.1.1"]) [] _ [providerA 101 "a.example.com" "1.1.1.1"]
    (scriptedEnv [okA 55 "a.example.com" "1.1.1.1"]) [] _ [providerA 55 "a.example.com" "1.1.1.1"]
    (by decide)
    (.cons ⟨_, _, _, rfl, rfl, ⟨rfl, _, rfl, by decide, by decide, rfl⟩, by decide, rfl⟩ (.nil _))
    (.update ⟨_, _, _, rfl, rfl, ⟨rfl, _, rfl, by decide, by decide, rfl⟩, by decide, rfl⟩
      (.nil _))

/-! ## The audit comment and the id of an encoded record -/

theorem fromLibdnsRecord_comment (h : HosttechRecord) (record : Record) (now : String) :
    (h.fromLibdnsRecord record now).base.Comment = generateComment now := by
  cases h <;> rfl

/-- C21: for each of the seven record types and a fixed clock reading `now`, the comment of
the provider record produced by `fromLibdnsRecord` is the audit string "This record was
created or updated with libdns at `now` UTC": it is built from the clock alone and depends
neither on the fields of the canonical record nor on the comment the receiver held. -/
theorem C21_comment_from_clock (now : String) :
    (∀ (a : ARecord) (record : Record), (a.fromLibdnsRecord record now).base.Comment =
      "This record was created or updated with libdns at " ++ now ++ " UTC") ∧
    (∀ (a : AAAARecord) (record : Record), (a.fromLibdnsRecord record now).base.Comment =
      "This record was created or updated with libdns at " ++ now ++ " UTC") ∧
    (∀ (c : CNAMERecord) (record : Record), (c.fromLibdnsRecord record now).base.Comment =
      "This record was created or updated with libdns at " ++ now ++ " UTC") ∧
    (∀ (n : NSRecord) (record : Record), (n.fromLibdnsRecord record now).base.Comment =
      "This record was created or updated with libdns at " ++ now ++ " UTC") ∧
    (∀ (m : MXRecord) (record : Record), (m.fromLibdnsRecord record now).base.Comment =
      "This record was created or updated with libdns at " ++ now ++ " UTC") ∧
    (∀ (t : TXTRecord) (record : Record), (t.fromLibdnsRecord record now).base.Comment =
      "This record was created or updated with libdns at " ++ now ++ " UTC") ∧
    (∀ (t : TLSARecord) (record : Record), (t.fromLibdnsRecord record now).base.Comment =
      "This record was created or updated with libdns at " ++ now ++ " UTC") ∧
    (∀ (h1 h2 : HosttechRecord) (record1 record2 : Record),
      (h1.fromLibdnsRecord record1 now).base.Comment =
        (h2.fromLibdnsRecord record2 now).base.Comment) ∧
    (∀ (record : Record) (h : HosttechRecord),
      LibdnsRecordToHosttechRecordWrapper record now = .ok h →
        h.base.Comment = "This record was created or updated with libdns at " ++ now ++ " UTC") ∧
    (ARecord.fromLibdnsRecord
        { Id := 4, Type_ := "A", TTL := 700, Comment := "kept by hand", Name := "x", IPV4 := "y" }
        (recordA "9" "a" "1.1.1.1") "Jan  2 15:04:05").base.Comment =
      "This record was created or updated with libdns at Jan  2 15:04:05 UTC" := by
  refine ⟨fun _ _ => rfl, fun _ _ => rfl, fun _ _ => rfl, fun _ _ => rfl, fun _ _ => rfl,
    fun _ _ => rfl, fun _ _ => rfl, ?_, ?_, by decide⟩
  · intro h1 h2 r1 r2
    rw [fromLibdnsRecord_comment, fromLibdnsRecord_comment]
  · intro record h hok
    rcases LibdnsRecordToHosttechRecordWrapper_cases record now with ⟨_, he⟩ |
      ⟨_, h', hok', _, _, _, _, hc, _⟩
    · rw [he] at hok; cases hok
    · rw [hok'] at hok
      cases hok
      exact hc

/-- The log of `makeApiCall` once the request is built: the request is added. -/
theorem makeApiCall_log (p : Provider) (env : Env) (log : List Request)
    (m u : String) (b : Option String) (hreq : env.NewRequestOK m u = true) :
    (p.makeApiCall env log m u b).2 = log ++ [p.request m u b] := by
  unfold Provider.makeApiCall
  simp only [hreq, if_true]
  cases env.Do log (p.request m u b) with
  | error e => rfl
  | ok resp =>
    simp only
    split_ifs <;> rfl

/-- The loop of `AppendRecords` only adds requests to the log. -/
theorem appendLoop_log (p : Provider) (env : Env) (zone reqURL : String) :
    ∀ (records acc : List Record) (log : List Request),
      ∃ tail, (p.appendLoop env zone reqURL records acc log).2 = log ++ tail := by
  intro records
  induction records with
  | nil => intro acc log; exact ⟨[], by simp [Provider.appendLoop]⟩
  | cons record rest ih =>
    intro acc log
    rw [Provider.appendLoop]
    cases LibdnsRecordToHosttechRecordWrapper record (env.Now log) with
    | error err => exact ⟨[], by simp⟩
    | ok hr =>
      simp only
      cases env.Marshal hr with
      | error e => exact ⟨[], by simp⟩
      | ok bodyBytes =>
        simp only
        by_cases hreq : env.NewRequestOK "POST" reqURL = true
        · have hlog := makeApiCall_log p env log "POST" reqURL (some bodyBytes) hreq
          rcases hcall : p.makeApiCall env log "POST" reqURL (some bodyBytes) with ⟨out, log1⟩
          rw [hcall] at hlog
          simp only at hlog
          subst hlog
          rcases out with ⟨resp, err⟩ | _
          · cases err with
            | some e => exact ⟨[p.request "POST" reqURL (some bodyBytes)], rfl⟩
            | none =>
              simp only
              rcases hdec : HosttechSingleResponseWrapper.Unmarshal resp {} with ⟨w, derr⟩
              cases derr with
              | some e => exact ⟨[p.request "POST" reqURL (some bodyBytes)], rfl⟩
              | none =>
                simp only
                cases w.Data.toLibdnsRecord zone with
                | panics => exact ⟨[p.request "POST" reqURL (some bodyBytes)], rfl⟩
                | returns r =>
                  obtain ⟨tail, ht⟩ := ih (acc ++ [r])
                    (log ++ [p.request "POST" reqURL (some bodyBytes)])
                  exact ⟨p.request "POST" reqURL (some bodyBytes) :: tail, by
                    simp only [ht, List.append_assoc, List.singleton_append]⟩
          · exact ⟨[p.request "POST" reqURL (some bodyBytes)], rfl⟩
        · have hno : p.makeApiCall env log "POST" reqURL (some bodyBytes) = (.panics, log) := by
            unfold Provider.makeApiCall
            simp [hreq]
          rw [hno]
          exact ⟨[], by simp⟩

/-- The loop of `SetRecords` only adds requests to the log, and the first request it adds for
a record that is encoded and whose request can be built is the update request. -/
theorem setLoop_log (p : Provider) (env : Env) (zone : String) :
    ∀ (records acc : List Record) (log : List Request),
      ∃ tail, (p.setLoop env zone records acc log).2 = log ++ tail ∧
        ∀ record rest hr bodyBytes, records = record :: rest →
          LibdnsRecordToHosttechRecordWrapper record (env.Now log) = .ok hr →
          env.Marshal hr = .ok bodyBytes →
          env.NewRequestOK "PUT" (recordURL zone record.ID) = true →
          ∃ tail1, tail = p.request "PUT" (recordURL zone record.ID) (some bodyBytes) :: tail1 := by
  intro records
  induction records with
  | nil =>
    intro acc log
    exact ⟨[], by simp [Provider.setLoop], fun _ _ _ _ h => by cases h⟩
  | cons record rest ih =>
    intro acc log
    rw [Provider.setLoop]
    cases hconv : LibdnsRecordToHosttechRecordWrapper record (env.Now log) with
    | error err =>
      exact ⟨[], by simp, fun r _ _ _ h hc => by
        cases h; rw [hconv] at hc; cases hc⟩
    | ok hr =>
      simp only
      cases hmar : env.Marshal hr with
      | error e =>
        exact ⟨[], by simp, fun r _ hr' _ h hc hm => by
          cases h; rw [hconv] at hc; cases hc; rw [hmar] at hm; cases hm⟩
      | ok bodyBytes =>
        simp only
        by_cases hreq : env.NewRequestOK "PUT" (recordURL zone record.ID) = true
        · have hlog := makeApiCall_log p env log "PUT" (recordURL zone record.ID)
            (some bodyBytes) hreq
          -- every branch leaves a log that starts with the update request
          suffices hmain : ∃ tail1, (match
              p.makeApiCall env log "PUT" (recordURL zone record.ID) (some bodyBytes) with
            | (.panics, log1) => ((Outcome.panics : Outcome Records), log1)
            | (.returns (_, some err), log1) =>
              match err.asApiError with
              | none => (.returns (some acc, some err), log1)
              | some apiError =>
                if apiError.2 ≠ 404 then (.returns (some acc, some err), log1)
                else
                  match p.AppendRecords env log1 zone [record] with
                  | (.panics, log2) => (.panics, log2)
                  | (.returns (_, some err2), log2) => (.returns (some acc, some err2), log2)
                  | (.returns (appendedRecords, none), log2) =>
                    p.setLoop env zone rest (acc ++ appendedRecords.getD []) log2
            | (.returns (responseBody, none), log1) =>
              match HosttechSingleResponseWrapper.Unmarshal responseBody {} with
              | (_, some err) => (.returns (some [], some err), log1)
              | (parsedResponse, none) =>
                match parsedResponse.Data.toLibdnsRecord zone with
                | .panics => (.panics, log1)
                | .returns r => p.setLoop env zone rest (acc ++ [r]) log1).2 =
              log ++ p.request "PUT" (recordURL zone record.ID) (some bodyBytes) :: tail1 by
            obtain ⟨tail1, h1⟩ := hmain
            refine ⟨_, h1, ?_⟩
            intro r rest' hr' body' h hc hm _
            cases h
            rw [hconv] at hc
            cases hc
            rw [hmar] at hm
            cases hm
            exact ⟨tail1, rfl⟩
          rcases hcall : p.makeApiCall env log "PUT" (recordURL zone record.ID)
            (some bodyBytes) with ⟨out, log1⟩
          rw [hcall] at hlog
          simp only at hlog
          subst hlog
          rcases out with ⟨resp, err⟩ | _
          · cases err with
            | some e =>
              simp only
              cases e.asApiError with
              | none => exact ⟨[], rfl⟩
              | some apiError =>
                simp only
                split_ifs
                · exact ⟨[], rfl⟩
                · obtain ⟨t, ht⟩ := appendLoop_log p env zone (recordsURL zone) [record] []
                    (log ++ [p.request "PUT" (recordURL zone record.ID) (some bodyBytes)])
                  rcases happ : p.AppendRecords env
                    (log ++ [p.request "PUT" (recordURL zone record.ID) (some bodyBytes)])
                    zone [record] with ⟨out2, log2⟩
                  have ht2 : log2 =
                      log ++ [p.request "PUT" (recordURL zone record.ID) (some bodyBytes)] ++ t := by
                    unfold Provider.AppendRecords at happ
                    rw [happ] at ht
                    exact ht
                  subst ht2
                  rcases out2 with ⟨recs, err2⟩ | _
                  · cases err2 with
                    | some e2 => exact ⟨t, by simp⟩
                    | none =>
                      simp only
                      obtain ⟨t3, ht3, _⟩ := ih (acc ++ recs.getD [])
                        (log ++ [p.request "PUT" (recordURL zone record.ID) (some bodyBytes)] ++ t)
                      refine ⟨t ++ t3, ?_⟩
                      simp only [List.append_assoc, List.singleton_append] at ht3 ⊢
                      exact ht3
                  · exact ⟨t, by simp⟩
            | none =>
              simp only
              rcases hdec : HosttechSingleResponseWrapper.Unmarshal resp {} with ⟨w, derr⟩
              cases derr with
              | some e => exact ⟨[], rfl⟩
              | none =>
                simp only
                cases w.Data.toLibdnsRecord zone with
                | panics => exact ⟨[], rfl⟩
                | returns r =>
                  obtain ⟨t3, ht3, _⟩ := ih (acc ++ [r])
                    (log ++ [p.request "PUT" (recordURL zone record.ID) (some bodyBytes)])
                  exact ⟨t3, by simp [ht3]⟩
          · exact ⟨[], rfl⟩
        · have hno : p.makeApiCall env log "PUT" (recordURL zone record.ID) (some bodyBytes) =
              (.panics, log) := by
            unfold Provider.makeApiCall
            simp [hreq]
          rw [hno]
          exact ⟨[], by simp, fun r _ _ _ h _ _ hq => by cases h; exact absurd hq hreq⟩

/-! ## The id of an encoded record -/

/-- The encoding of a canonical record does not read its `ID`. -/
theorem LibdnsRecordToHosttechRecordWrapper_ID (record : Record) (now id : String) :
    LibdnsRecordToHosttechRecordWrapper { record with ID := id } now =
      LibdnsRecordToHosttechRecordWrapper record now := by
  unfold LibdnsRecordToHosttechRecordWrapper
  cases record
  rfl

/-- The `ID` of a decoded provider record is the decimal form of its numeric id. -/
theorem toLibdnsRecord_ID (h : HosttechRecord) (zone : String) :
    (h.toLibdnsRecord zone).ID = Itoa h.base.Id := by
  cases h <;> rfl

/-- C22: when `LibdnsRecordToHosttechRecordWrapper` accepts a canonical record, the provider
record it returns has the numeric id 0 and is the same whatever `ID` the canonical record
carries, so the `ID` is not in the request body; `SetRecords` sends the `ID` in the URL of its
update request, whose body is the encoding of that provider record; and converting the provider
record back with `toLibdnsRecord` gives the `ID` "0" for every zone. -/
theorem C22_id_zero (record : Record) (now : String) (h : HosttechRecord)
    (hok : LibdnsRecordToHosttechRecordWrapper record now = .ok h) :
    h.base.Id = 0 ∧
    (∀ id : String, LibdnsRecordToHosttechRecordWrapper { record with ID := id } now = .ok h) ∧
    (∀ (p : Provider) (env : Env) (log : List Request) (zone : String) (rest : List Record)
        (bodyBytes : String),
      env.Now log = now → env.Marshal h = .ok bodyBytes →
      env.NewRequestOK "PUT" (recordURL zone record.ID) = true →
      ∃ tail, (p.SetRecords env log zone (record :: rest)).2 =
        log ++ p.request "PUT" (recordURL zone record.ID) (some bodyBytes) :: tail) ∧
    (∀ zone : String, (h.toLibdnsRecord zone).ID = "0") := by
  have hid : h.base.Id = 0 := by
    rcases LibdnsRecordToHosttechRecordWrapper_cases record now with ⟨_, he⟩ |
      ⟨_, h', hok', _, _, _, hz, _⟩
    · rw [he] at hok; cases hok
    · rw [hok'] at hok; cases hok; exact hz
  refine ⟨hid, ?_, ?_, ?_⟩
  · intro id
    rw [LibdnsRecordToHosttechRecordWrapper_ID, hok]
  · intro p env log zone rest bodyBytes hnow hmar hreq
    obtain ⟨tail, ht, hfirst⟩ := setLoop_log p env zone (record :: rest) [] log
    obtain ⟨tail1, ht1⟩ := hfirst record rest h bodyBytes rfl (by rw [hnow, hok]) hmar hreq
    exact ⟨tail1, by rw [Provider.SetRecords, ht, ht1]⟩
  · intro zone
    rw [toLibdnsRecord_ID, hid]
    decide

theorem C22_id_zero_witness :
    LibdnsRecordToHosttechRecordWrapper (recordA "77" "a" "1.1.1.1") "Jan  2 15:04:05" =
        .ok (.ofA { Id := 0, Type_ := "A", TTL := 3600,
                    Comment := generateComment "Jan  2 15:04:05", Name := "a",
                    IPV4 := "1.1.1.1" }) ∧
      (HosttechRecord.ofA { Id := 0, Type_ := "A", TTL := 3600,
                            Comment := generateComment "Jan  2 15:04:05", Name := "a",
                            IPV4 := "1.1.1.1" }).base.Id = 0 ∧
      ((HosttechRecord.ofA { Id := 0, Type_ := "A", TTL := 3600,
                             Comment := generateComment "Jan  2 15:04:05", Name := "a",
                             IPV4 := "1.1.1.1" }).toLibdnsRecord "example.com.").ID = "0" :=
  ⟨by decide,
   (C22_id_zero (recordA "77" "a" "1.1.1.1") "Jan  2 15:04:05" _ (by decide)).1,
   (C22_id_zero (recordA "77" "a" "1.1.1.1") "Jan  2 15:04:05" _ (by decide)).2.2.2
     "example.com."⟩

/-! ## A delete request that cannot be built -/

/-- C6 fails on the code: when the delete request for a record cannot be built, `makeApiCall`
sets the headers on the nil request and `DeleteRecords` panics, where the claim (and the doc
comment of the function) has it return the records deleted so far with a non-nil error.
With the records of ids "55" and "a\x7fb" in zone "example.com" and the first delete call
answered with 200, the first call succeeds, the URL of the second holds the control
character 0x7f, which `url.Parse` refuses, and the call panics after the first request: it
returns nothing, neither the record 55 nor an error.  The same holds in every world and for
every input list: once the records before it were deleted, a record whose request cannot be
built makes `DeleteRecords` panic. -/
theorem C6_delete_panics :
    DeletesSucceed ⟨"token"⟩ (strictEnv [answer 200 "200 OK"]) "example.com"
      [recordA "55" "a" "1.1.1.1"] []
      [Provider.deleteRequest ⟨"token"⟩ "example.com" (recordA "55" "a" "1.1.1.1")] ∧
    (strictEnv [answer 200 "200 OK"]).NewRequestOK "DELETE"
      (recordURL "example.com" (recordA "a\x7fb" "b" "2.2.2.2").ID) = false ∧
    Provider.DeleteRecords ⟨"token"⟩ (strictEnv [answer 200 "200 OK"]) [] "example.com"
        [recordA "55" "a" "1.1.1.1", recordA "a\x7fb" "b" "2.2.2.2"] =
      (.panics,
        [Provider.deleteRequest ⟨"token"⟩ "example.com" (recordA "55" "a" "1.1.1.1")]) ∧
    (∀ result : Records,
      (Provider.DeleteRecords ⟨"token"⟩ (strictEnv [answer 200 "200 OK"]) [] "example.com"
        [recordA "55" "a" "1.1.1.1", recordA "a\x7fb" "b" "2.2.2.2"]).1 ≠ .returns result) ∧
    ∀ (p : Provider) (env : Env) (zone : String) (pre : List Record) (record : Record)
      (post : List Record) (log0 log1 : List Request),
      DeletesSucceed p env zone pre log0 log1 →
      env.NewRequestOK "DELETE" (recordURL zone record.ID) = false →
      p.DeleteRecords env log0 zone (pre ++ record :: post) = (.panics, log1) := by
  have hfirst : CallSucceeds (strictEnv [answer 200 "200 OK"]) []
      (Provider.deleteRequest ⟨"token"⟩ "example.com" (recordA "55" "a" "1.1.1.1"))
      (some (.obj [])) := ⟨by decide, _, rfl, by decide, by decide, rfl⟩
  have hrun : Provider.DeleteRecords ⟨"token"⟩ (strictEnv [answer 200 "200 OK"]) []
      "example.com" [recordA "55" "a" "1.1.1.1", recordA "a\x7fb" "b" "2.2.2.2"] =
      (.panics,
        [Provider.deleteRequest ⟨"token"⟩ "example.com" (recordA "55" "a" "1.1.1.1")]) := by
    decide
  refine ⟨.cons hfirst (.nil _), by decide, hrun, ?_, ?_⟩
  · intro result h
    rw [hrun] at h
    cases h
  · intro p env zone pre record post log0 log1 hpre hreq
    unfold Provider.DeleteRecords
    rw [deleteLoop_deletes p env zone pre log0 log1 hpre, Provider.deleteLoop]
    have hno : p.makeApiCall env log1 "DELETE" (recordURL zone record.ID) none =
        (.panics, log1) := by
      unfold Provider.makeApiCall
      simp [hreq]
    rw [hno]

/-! ## The fallback create of `SetRecords`, for every input list -/

/-- What the loop of `SetRecords` can return: it panics, or it returns the nil slice with an
error, or an empty slice with an error, or the accumulator it was given followed by the
records it added. -/
theorem setLoop_result (p : Provider) (env : Env) (zone : String) :
    ∀ (records acc : List Record) (log : List Request),
      (p.setLoop env zone records acc log).1 = .panics ∨
      (∃ err, (p.setLoop env zone records acc log).1 = .returns (none, some err)) ∨
      (∃ err, (p.setLoop env zone records acc log).1 = .returns (some [], some err)) ∨
      ∃ more e, (p.setLoop env zone records acc log).1 = .returns (some (acc ++ more), e) := by
  intro records
  induction records with
  | nil =>
    intro acc log
    exact Or.inr (Or.inr (Or.inr ⟨[], none, by simp [Provider.setLoop]⟩))
  | cons record rest ih =>
    intro acc log
    have hacc : ∀ (e : Option Error) (l : List Request),
        ((Outcome.returns (some acc, e), l) : Outcome Records × List Request).1 = .panics ∨
        (∃ err, ((Outcome.returns (some acc, e), l) : Outcome Records × List Request).1 =
          .returns (none, some err)) ∨
        (∃ err, ((Outcome.returns (some acc, e), l) : Outcome Records × List Request).1 =
          .returns (some [], some err)) ∨
        ∃ more e1, ((Outcome.returns (some acc, e), l) : Outcome Records × List Request).1 =
          .returns (some (acc ++ more), e1) :=
      fun e l => Or.inr (Or.inr (Or.inr ⟨[], e, by simp⟩))
    have hstep : ∀ (added : List Record) (l : List Request),
        (p.setLoop env zone rest (acc ++ added) l).1 = .panics ∨
        (∃ err, (p.setLoop env zone rest (acc ++ added) l).1 = .returns (none, some err)) ∨
        (∃ err, (p.setLoop env zone rest (acc ++ added) l).1 = .returns (some [], some err)) ∨
        ∃ more e, (p.setLoop env zone rest (acc ++ added) l).1 =
          .returns (some (acc ++ more), e) := by
      intro added l
      rcases ih (acc ++ added) l with h | h | h | ⟨more, e, h⟩
      · exact Or.inl h
      · exact Or.inr (Or.inl h)
      · exact Or.inr (Or.inr (Or.inl h))
      · exact Or.inr (Or.inr (Or.inr ⟨added ++ more, e, by rw [h, List.append_assoc]⟩))
    rw [Provider.setLoop]
    split
    · exact Or.inr (Or.inl ⟨_, rfl⟩)
    · split
      · exact Or.inr (Or.inl ⟨_, rfl⟩)
      · split
        · exact Or.inl rfl
        · split
          · exact hacc _ _
          · split
            · exact hacc _ _
            · split
              · exact Or.inl rfl
              · exact hacc _ _
              · exact hstep _ _
        · split
          · exact Or.inr (Or.inr (Or.inl ⟨_, rfl⟩))
          · split
            · exact Or.inl rfl
            · exact hstep _ _

/-- C4, on what the code does: a record whose update is answered with status 404 is not in
the result when a later record has an unsupported type.  The update of the record with id
"77" fails with 404 and its fallback create succeeds with the provider-assigned id 103; the
record after it has the type "SRV", and `SetRecords` returns the nil slice with the
unsupported-type error, after the two requests for the first record. -/
theorem C4_counterexample :
    UpdateMissesCreateSucceeds ⟨"token"⟩
      (scriptedEnv [answer 404 "404 Not Found", okA 103 "b.example.com" "2.2.2.2"])
      "example.com" [] (recordA "77" "b" "2.2.2.2") (providerA 103 "b.example.com" "2.2.2.2")
      [Provider.request ⟨"token"⟩ "PUT" (recordURL "example.com" "77") (some "A 2.2.2.2"),
       Provider.request ⟨"token"⟩ "POST" (recordsURL "example.com") (some "A 2.2.2.2")] ∧
    Provider.SetRecords ⟨"token"⟩
        (scriptedEnv [answer 404 "404 Not Found", okA 103 "b.example.com" "2.2.2.2"])
        [] "example.com"
        [recordA "77" "b" "2.2.2.2",
          { ID := "", Type_ := "SRV", Name := "s", Value := "x", TTL := 3600 * Second,
            Priority := 0 }] =
      (.returns (none, some (unsupportedError "SRV")),
        [Provider.request ⟨"token"⟩ "PUT" (recordURL "example.com" "77") (some "A 2.2.2.2"),
         Provider.request ⟨"token"⟩ "POST" (recordsURL "example.com") (some "A 2.2.2.2")]) :=
  ⟨⟨_, _, _, rfl, rfl, ⟨rfl, _, rfl, Or.inr (by decide), rfl, rfl⟩,
      ⟨_, _, _, rfl, rfl, ⟨rfl, _, rfl, by decide, by decide, rfl⟩, by decide, rfl⟩⟩,
    by decide⟩

/-- C4, amended: for every input list given to `SetRecords`, whatever records follow, once
the records before it were all updated or created, a record whose update call fails with an
API error of status 404 and whose fallback create call succeeds is added to the accumulator,
at its position, as the canonical record converted from the create response (its `ID` the
provider-assigned id), and processing continues with the next record on that accumulator.
The call then panics, or returns the nil slice with an error, or an empty slice with an
error, or a slice that holds that record at its position; and if every later record is also
handled this way or by a successful update, it returns no error and the converted records
in input order. -/
theorem C4_set_fallback (p : Provider) (env : Env) (zone : String)
    (pre : List Record) (record : Record) (post : List Record)
    (log0 log1 log2 : List Request) (ws : List HosttechRecord) (w : HosttechRecord)
    (hpre : SetsSucceed p env zone pre log0 ws log1)
    (hrec : UpdateMissesCreateSucceeds p env zone log1 record w log2) :
    p.SetRecords env log0 zone (pre ++ record :: post) =
        p.setLoop env zone post
          (ws.map (fun v => v.toLibdnsRecord zone) ++ [w.toLibdnsRecord zone]) log2 ∧
      (w.toLibdnsRecord zone).ID = Itoa w.base.Id ∧
      ((p.SetRecords env log0 zone (pre ++ record :: post)).1 = .panics ∨
        (∃ err, (p.SetRecords env log0 zone (pre ++ record :: post)).1 =
          .returns (none, some err)) ∨
        (∃ err, (p.SetRecords env log0 zone (pre ++ record :: post)).1 =
          .returns (some [], some err)) ∨
        ∃ result e, (p.SetRecords env log0 zone (pre ++ record :: post)).1 =
            .returns (some result, e) ∧
          result[pre.length]? = some (w.toLibdnsRecord zone) ∧
          result.take pre.length = ws.map (fun v => v.toLibdnsRecord zone)) ∧
      ∀ (ws2 : List HosttechRecord) (log3 : List Request),
        SetsSucceed p env zone post log2 ws2 log3 →
        p.SetRecords env log0 zone (pre ++ record :: post) =
          (.returns (some (ws.map (fun v => v.toLibdnsRecord zone) ++
            w.toLibdnsRecord zone :: ws2.map (fun v => v.toLibdnsRecord zone)), none), log3) := by
  have hlen : (ws.map (fun v => v.toLibdnsRecord zone)).length = pre.length := by
    simp [SetsSucceed_length p env zone pre log0 log1 ws hpre]
  have hcont : p.SetRecords env log0 zone (pre ++ record :: post) =
      p.setLoop env zone post
        (ws.map (fun v => v.toLibdnsRecord zone) ++ [w.toLibdnsRecord zone]) log2 := by
    unfold Provider.SetRecords
    rw [setLoop_sets p env zone pre log0 log1 ws hpre,
      setLoop_create p env zone log1 log2 record w post _ hrec, List.nil_append]
  refine ⟨hcont, toLibdnsRecord_ID w zone, ?_, ?_⟩
  · rw [hcont]
    rcases setLoop_result p env zone post
      (ws.map (fun v => v.toLibdnsRecord zone) ++ [w.toLibdnsRecord zone]) log2 with
      h | h | h | ⟨more, e, h⟩
    · exact Or.inl h
    · exact Or.inr (Or.inl h)
    · exact Or.inr (Or.inr (Or.inl h))
    · refine Or.inr (Or.inr (Or.inr ⟨_, e, h, ?_, ?_⟩))
      · rw [List.append_assoc, List.getElem?_append_right (by omega), hlen]
        simp
      · rw [List.append_assoc, List.take_append_of_le_length (by omega), ← hlen, List.take_length]
  · intro ws2 log3 hpost
    rw [hcont]
    have := setLoop_sets p env zone post log2 log3 ws2 hpost []
      (ws.map (fun v => v.toLibdnsRecord zone) ++ [w.toLibdnsRecord zone])
    rw [List.append_nil] at this
    rw [this, Provider.setLoop]
    simp

/-- C4 on three records: the first is updated, the update of the second is answered with 404
and its fallback create succeeds, the third is updated; the result holds the three records
in input order, the second with the id 103 assigned by the create call, and no error. -/
theorem C4_set_fallback_witness :
    Provider.SetRecords ⟨"token"⟩
        (scriptedEnv [okA 55 "a.example.com" "1.1.1.1", answer 404 "404 Not Found",
          okA 103 "b.example.com" "2.2.2.2", okA 88 "c.example.com" "3.3.3.3"]) [] "example.com"
        ([recordA "55" "a" "1.1.1.1"] ++ recordA "77" "b" "2.2.2.2" ::
          [recordA "88" "c" "3.3.3.3"]) =
      (.returns (some ([providerA 55 "a.example.com" "1.1.1.1"].map
          (fun v => v.toLibdnsRecord "example.com") ++
          (providerA 103 "b.example.com" "2.2.2.2").toLibdnsRecord "example.com" ::
          [providerA 88 "c.example.com" "3.3.3.3"].map
            (fun v => v.toLibdnsRecord "example.com")), none),
        [Provider.request ⟨"token"⟩ "PUT" (recordURL "example.com" "55") (some "A 1.1.1.1"),
         Provider.request ⟨"token"⟩ "PUT" (recordURL "example.com" "77") (some "A 2.2.2.2"),
         Provider.request ⟨"token"⟩ "POST" (recordsURL "example.com") (some "A 2.2.2.2"),
         Provider.request ⟨"token"⟩ "PUT" (recordURL "example.com" "88") (some "A 3.3.3.3")]) ∧
    ((providerA 103 "b.example.com" "2.2.2.2").toLibdnsRecord "example.com").ID = "103" :=
  ⟨(C4_set_fallback ⟨"token"⟩
      (scriptedEnv [okA 55 "a.example.com" "1.1.1.1", answer 404 "404 Not Found",
        okA 103 "b.example.com" "2.2.2.2", okA 88 "c.example.com" "3.3.3.3"]) "example.com"
      [recordA "55" "a" "1.1.1.1"] (recordA "77" "b" "2.2.2.2") [recordA "88" "c" "3.3.3.3"]
      [] _ _ [providerA 55 "a.example.com" "1.1.1.1"] (providerA 103 "b.example.com" "2.2.2.2")
      (.update
        ⟨_, _, _, rfl, rfl, ⟨rfl, _, rfl, by decide, by decide, rfl⟩, by decide, rfl⟩
        (.nil _))
      ⟨_, _, _, rfl, rfl, ⟨rfl, _, rfl, Or.inr (by decide), rfl, rfl⟩,
        ⟨_, _, _, rfl, rfl, ⟨rfl, _, rfl, by decide, by decide, rfl⟩, by decide, rfl⟩⟩).2.2.2
      [providerA 88 "c.example.com" "3.3.3.3"] _
      (.update
        ⟨_, _, _, rfl, rfl, ⟨rfl, _, rfl, by decide, by decide, rfl⟩, by decide, rfl⟩
        (.nil _)),
    by decide⟩

/-! ## Decoding a record of an unsupported type, for every JSON object -/

/-- A field holds the value of the last member that selects it and can be stored. -/
theorem store_last {α : Type} (conv : JSON → Option α) (field key : String) (v : JSON) (x : α)
    (pre post : List (String × JSON)) (old : α) (hk : foldName key = field)
    (hv : conv v = some x)
    (hpost : ∀ kv ∈ post, foldName kv.1 = field → conv kv.2 = none) :
    store conv (pre ++ (key, v) :: post) field old = x := by
  have hkeep : ∀ (l : List (String × JSON)) (cur : α),
      (∀ kv ∈ l, foldName kv.1 = field → conv kv.2 = none) → store conv l field cur = cur := by
    intro l
    induction l with
    | nil => intro cur _; rfl
    | cons kv rest ih =>
      intro cur h
      unfold store
      rw [List.foldl_cons]
      have hrest := ih (if foldName kv.1 = field then (conv kv.2).getD cur else cur)
        (fun kv' hkv' => h kv' (List.mem_cons_of_mem _ hkv'))
      unfold store at hrest
      rw [hrest]
      by_cases hf : foldName kv.1 = field
      · rw [if_pos hf, h kv (List.mem_cons_self _ _) hf]
        rfl
      · rw [if_neg hf]
  unfold store
  rw [List.foldl_append, List.foldl_cons, if_pos hk, hv]
  exact hkeep post _ hpost

/-- A field keeps its content when no member that selects it can be stored. -/
theorem store_keep {α : Type} (conv : JSON → Option α) (field : String)
    (members : List (String × JSON)) (old : α)
    (h : ∀ kv ∈ members, foldName kv.1 = field → conv kv.2 = none) :
    store conv members field old = old := by
  induction members generalizing old with
  | nil => rfl
  | cons kv rest ih =>
    unfold store
    rw [List.foldl_cons]
    have hrest := ih (if foldName kv.1 = field then (conv kv.2).getD old else old)
      (fun kv' hkv' => h kv' (List.mem_cons_of_mem _ hkv'))
    unfold store at hrest
    rw [hrest]
    by_cases hf : foldName kv.1 = field
    · rw [if_pos hf, h kv (List.mem_cons_self _ _) hf]
      rfl
    · rw [if_neg hf]

/-- No type error is raised when every member that selects a field fits it. -/
theorem typeError_none_of_fits (F : List (String × FieldKind)) (members : List (String × JSON))
    (h : ∀ kv ∈ members, ∀ p ∈ F, p.1 = foldName kv.1 → kv.2.fits p.2 = true) :
    typeError F members = none := by
  unfold typeError
  rw [Option.map_eq_none', List.find?_eq_none]
  intro kv hkv
  cases hl : F.lookup (foldName kv.1) with
  | none => simp
  | some k =>
    have h2 := h kv hkv (foldName kv.1, k) (lookup_mem _ _ F hl) rfl
    simp [h2]

/-- The type error raised is a `json.UnmarshalTypeError` when some member selects a field of
`Base` and does not fit it. -/
theorem typeError_Base_of_misfit (members : List (String × JSON))
    (h : ∃ kv ∈ members, ∃ p ∈ Base.fields, p.1 = foldName kv.1 ∧ kv.2.fits p.2 = false) :
    ∃ key, typeError Base.fields members = some (.jsonUnmarshalType key) := by
  obtain ⟨kv, hkv, p, hp, hname, hfit⟩ := h
  cases hte : typeError Base.fields members with
  | some err =>
    unfold typeError at hte
    rw [Option.map_eq_some'] at hte
    obtain ⟨kv', _, rfl⟩ := hte
    exact ⟨kv'.1, rfl⟩
  | none =>
    exfalso
    unfold typeError at hte
    rw [Option.map_eq_none', List.find?_eq_none] at hte
    have := hte kv hkv
    have hl : Base.fields.lookup (foldName kv.1) = some p.2 := by
      rw [← hname]
      simp only [Base.fields, List.mem_cons, List.mem_singleton, List.not_mem_nil,
        or_false] at hp
      rcases hp with rfl | rfl | rfl | rfl <;> rfl
    rw [hl] at this
    simp [hfit] at this

/-- The type `UnmarshalJSON` reads from an object: the last string stored under a key that
matches "type", and the empty string when there is none. -/
theorem Base_fill_type_last (members : List (String × JSON)) (t : String)
    (htype : (∃ pre key post, members = pre ++ (key, JSON.str t) :: post ∧
        foldName key = "type" ∧ ∀ kv ∈ post, foldName kv.1 = "type" → kv.2.asString = none) ∨
      (t = "" ∧ ∀ kv ∈ members, foldName kv.1 = "type" → kv.2.asString = none)) :
    (Base.fill members {}).Type_ = t := by
  rcases htype with ⟨pre, key, post, rfl, hk, hpost⟩ | ⟨rfl, hnone⟩
  · exact store_last JSON.asString "type" key (.str t) t pre post _ hk rfl hpost
  · exact store_keep JSON.asString "type" members _ hnone

/-- C7, on what the code does: the object with "type": "UNKNOWN" and "ttl": "x" does not get
the unsupported-record-type error.  The shared fields are decoded first and the string "x"
does not fit the integer ttl, so `UnmarshalJSON` returns the type error of the decoder, whose
message does not name the type. -/
theorem C7_counterexample :
    HosttechRecordWrapper.UnmarshalJSON { value := some (.ofA {}) }
        (some (.obj [("type", .str "UNKNOWN"), ("ttl", .str "x")])) =
      ({ value := some (.ofA {}) }, some (.jsonUnmarshalType "ttl")) ∧
    Error.jsonUnmarshalType "ttl" ≠ unsupportedError "UNKNOWN" ∧
    (Error.jsonUnmarshalType "ttl").message = "json: cannot unmarshal value of ttl" := by
  decide

/-- C7, amended: take any record JSON object and let `t` be its "type" value, the last string
under a key that matches "type" (the empty string when there is none), and let `t` be none of
A, AAAA, CNAME, NS, MX, TXT, TLSA.  `HosttechRecordWrapper.UnmarshalJSON` leaves the wrapper
as it was.  When the values under the shared keys id, type, ttl and comment fit their fields,
it returns the unsupported-record-type error, whose message contains `t`; when one of them
does not fit, it returns the type error of the decoder instead. -/
theorem C7_unmarshal_unsupported (h0 : HosttechRecordWrapper) (members : List (String × JSON))
    (t : String)
    (htype : (∃ pre key post, members = pre ++ (key, JSON.str t) :: post ∧
        foldName key = "type" ∧ ∀ kv ∈ post, foldName kv.1 = "type" → kv.2.asString = none) ∨
      (t = "" ∧ ∀ kv ∈ members, foldName kv.1 = "type" → kv.2.asString = none))
    (ht : t ∉ ["A", "AAAA", "CNAME", "NS", "MX", "TXT", "TLSA"]) :
    (h0.UnmarshalJSON (some (.obj members))).1 = h0 ∧
    ((∀ kv ∈ members, ∀ p ∈ Base.fields, p.1 = foldName kv.1 → kv.2.fits p.2 = true) →
      h0.UnmarshalJSON (some (.obj members)) = (h0, some (unsupportedError t))) ∧
    ((∃ kv ∈ members, ∃ p ∈ Base.fields, p.1 = foldName kv.1 ∧ kv.2.fits p.2 = false) →
      ∃ key, h0.UnmarshalJSON (some (.obj members)) = (h0, some (.jsonUnmarshalType key))) ∧
    (unsupportedError t).message = "record type \"" ++ t ++ "\" is not supported\"" ∧
    ∃ pre post, (unsupportedError t).message = pre ++ t ++ post := by
  have hT := Base_fill_type_last members t htype
  simp only [List.mem_cons, List.mem_singleton, List.not_mem_nil, or_false, not_or] at ht
  obtain ⟨h1, h2, h3, h4, h5, h6, h7⟩ := ht
  have hbase : Base.Unmarshal (some (.obj members)) {} =
      (Base.fill members {}, typeError Base.fields members) := rfl
  have hok : typeError Base.fields members = none →
      h0.UnmarshalJSON (some (.obj members)) = (h0, some (unsupportedError t)) := by
    intro hnone
    unfold HosttechRecordWrapper.UnmarshalJSON
    rw [hbase, hnone]
    simp only [hT]
    simp [h1, h2, h3, h4, h5, h6, h7]
  have herr : ∀ err, typeError Base.fields members = some err →
      h0.UnmarshalJSON (some (.obj members)) = (h0, some err) := by
    intro err hsome
    unfold HosttechRecordWrapper.UnmarshalJSON
    rw [hbase, hsome]
  refine ⟨?_, ?_, ?_, rfl, ⟨"record type \"", "\" is not supported\"", rfl⟩⟩
  · cases hte : typeError Base.fields members with
    | none => rw [hok hte]
    | some err => rw [herr err hte]
  · intro hfit
    exact hok (typeError_none_of_fits Base.fields members hfit)
  · intro hmis
    obtain ⟨key, hkey⟩ := typeError_Base_of_misfit members hmis
    exact ⟨key, herr _ hkey⟩

/-- C7 at an object with "type": "UNKNOWN" and a null name: the error names the type and the
wrapper keeps the value it held. -/
theorem C7_unmarshal_unsupported_witness :
    HosttechRecordWrapper.UnmarshalJSON { value := some (.ofA {}) }
        (some (.obj [("id", .int false 10), ("type", .str "UNKNOWN"), ("name", .null)])) =
      ({ value := some (.ofA {}) }, some (unsupportedError "UNKNOWN")) :=
  (C7_unmarshal_unsupported { value := some (.ofA {}) }
    [("id", .int false 10), ("type", .str "UNKNOWN"), ("name", .null)] "UNKNOWN"
    (Or.inl ⟨[("id", .int false 10)], "type", [("name", .null)], rfl, by decide, by decide⟩)
    (by decide)).2.1 (by decide)

end Hosttech
